import Mathlib

/-!
# Mpika schedule service

A shallow embedding of `backend/src/services/schedule.service.js`: the slot allocator
(`optimizeSchedule`, `getEnergyLevel`) and the load scorer (`calculateMentalLoad`,
`getMentalLoadLevel`, `analyzeMentalLoad`, `calculateTimeDistribution`,
`generateOverloadSuggestions`).

Modelling conventions.
* Instants (`Date` values) are integers counting milliseconds, as `Date.prototype.getTime`
  does; the local time zone is taken to be UTC without daylight saving.
* JavaScript numbers are IEEE 754 doubles. A double is written as the rational it equals,
  and `toDouble` rounds a rational to the nearest double (53 significant bits, ties to
  even); the exponent range is unbounded, so overflow, subnormal numbers and `NaN` are not
  modelled. The scores of the slot allocator, the load score and the percentage of the
  time distribution round after every operation, as the source does. A decimal literal
  such as `1.3`, and the result `k / 10` of the load score, is written as the decimal
  and stands for the double nearest to it. Counts, instants and sums of whole minutes are
  exact integers in doubles and are kept as such.
* Strings that the source compares with `===` stay strings (`type`, `category`,
  `priority`, `energyPeakTime`, `preferredTime`).
* A read of `slots[k]` with `k` out of range followed by a property access throws a
  `TypeError` in the source; here such a read makes the computation return `none`.
* A clock time `'HH:MM'` is kept as the pair of numbers that
  `split(':').map(Number)` yields.
-/

namespace Mpika

/-! ## Data model -/

/-- Task record as read by the scheduler (`duration` is in minutes). -/
structure Task where
  id : String
  title : String
  category : String
  priority : String
  duration : Nat
  deadline : Option Int
  preferredTime : Option String
deriving DecidableEq, Repr

/-- Schedule item: the object literals pushed by `optimizeSchedule` and read by the scorer. -/
structure ScheduleItem where
  title : String
  type : String
  startTime : Int
  endTime : Int
  taskId : Option String
  task : Option Task
deriving DecidableEq, Repr

/-- Clock time, the two numbers of `'HH:MM'.split(':').map(Number)`. -/
structure ClockTime where
  hour : Nat
  minute : Nat
deriving DecidableEq, Repr

/-- User profile fields read by `optimizeSchedule`; an absent time is `none`. -/
structure Profile where
  wakeUpTime : Option ClockTime
  bedTime : Option ClockTime
  energyPeakTime : String
deriving DecidableEq, Repr

/-- Energy labels `'high'`, `'medium'`, `'low'`. -/
inductive EnergyLevel where
  | high
  | medium
  | low
deriving DecidableEq, Repr

/-- Time slot of the allocator grid. -/
structure Slot where
  start : Int
  end_ : Int
  occupied : Bool
  energyLevel : EnergyLevel
deriving DecidableEq, Repr

/-! ## Date arithmetic -/

/-- Milliseconds in one minute. -/
def msPerMinute : Int := 60 * 1000

/-- Milliseconds in one day. -/
def msPerDay : Int := 24 * 60 * 60 * 1000

/-- Midnight that starts the calendar day of an instant. -/
def startOfDay (d : Int) : Int :=
  d - d % msPerDay

/-- Model of `d.setHours(h, m, 0, 0)`: the instant `h:m:00.000` on the calendar day of `d`. -/
def setHours (d : Int) (h m : Nat) : Int :=
  startOfDay d + ((h : Int) * 60 + (m : Int)) * msPerMinute

/-- Model of `d.setMinutes(d.getMinutes() + k)`: the instant `k` minutes after `d`. -/
def addMinutes (d : Int) (k : Nat) : Int :=
  d + (k : Int) * msPerMinute

/-- Model of `d.getHours()`: the hour of the day of an instant. -/
def getHours (d : Int) : Int :=
  d % msPerDay / (60 * 60 * 1000)

/-! ## Floating-point numbers -/

/-- Model of round-to-nearest with ties to even: the integer nearest to `s`, the even one of
the two when `s` lies half way. -/
def roundHalfEven (s : ℚ) : Int :=
  if s - ⌊s⌋ < 1 / 2 then ⌊s⌋
  else if 1 / 2 < s - ⌊s⌋ then ⌊s⌋ + 1
  else if ⌊s⌋ % 2 = 0 then ⌊s⌋ else ⌊s⌋ + 1

/-- Position of the leading binary digit of `n` (0 for `n < 2`), found by halving; the
first argument bounds the number of halvings. -/
def bitLength : Nat → Nat → Nat
  | 0, _ => 0
  | fuel + 1, n => if n < 2 then 0 else bitLength fuel (n / 2) + 1

/-- Binary exponent of a nonzero rational: the integer `e` with `2 ^ e ≤ |x| < 2 ^ (e + 1)`. -/
def binaryExponent (x : ℚ) : Int :=
  let e0 : Int := (bitLength x.num.natAbs x.num.natAbs : Int) - (bitLength x.den x.den : Int)
  if (2 : ℚ) ^ e0 ≤ |x| then e0 else e0 - 1

/-- The double nearest to a rational (53 significant bits, ties to even). -/
def toDouble (x : ℚ) : ℚ :=
  if x = 0 then 0
  else (roundHalfEven (x / (2 : ℚ) ^ (binaryExponent x - 52)) : ℚ) *
    (2 : ℚ) ^ (binaryExponent x - 52)

/-! ## getEnergyLevel -/

/-- Energy level for an hour of the day and a peak preference (source lines 443-463). -/
def getEnergyLevel (hour : Nat) (peakTime : String) : EnergyLevel :=
  if peakTime = "morning" then
    if hour ≥ 6 ∧ hour < 12 then .high
    else if hour ≥ 12 ∧ hour < 17 then .medium
    else .low
  else if peakTime = "afternoon" then
    if hour ≥ 12 ∧ hour < 17 then .high
    else if hour ≥ 6 ∧ hour < 12 then .medium
    else .low
  else if peakTime = "evening" then
    if hour ≥ 17 ∧ hour < 22 then .high
    else if hour ≥ 12 ∧ hour < 17 then .medium
    else .low
  else if hour ≥ 9 ∧ hour < 12 then .high
  else if hour ≥ 14 ∧ hour < 17 then .medium
  else .low

/-! ## optimizeSchedule: slot grid -/

/-- The `while` loop of source lines 253-272, with an iteration budget as first argument.
`slotLoop_succ_of_budget` below shows that the budget used by `buildSlots` is never
exhausted, so the loop always stops because its guard fails. -/
def slotLoop (date : Int) (peakTime : String) (bedHour bedMin : Nat) :
    Nat → Nat → Nat → List Slot
  | 0, _, _ => []
  | fuel + 1, currentHour, currentMin =>
    if currentHour < bedHour ∨ (currentHour = bedHour ∧ currentMin < bedMin) then
      let slotStart := setHours date currentHour currentMin
      let slotEnd := addMinutes slotStart 30
      { start := slotStart, end_ := slotEnd, occupied := false,
        energyLevel := getEnergyLevel currentHour peakTime } ::
        (if currentMin + 30 ≥ 60 then slotLoop date peakTime bedHour bedMin fuel (currentHour + 1) 0
         else slotLoop date peakTime bedHour bedMin fuel currentHour (currentMin + 30))
    else []

/-- Wake time of a profile, `'07:00'` when absent. -/
def wakeOf (profile : Profile) : ClockTime :=
  profile.wakeUpTime.getD ⟨7, 0⟩

/-- Bed time of a profile, `'23:00'` when absent. -/
def bedOf (profile : Profile) : ClockTime :=
  profile.bedTime.getD ⟨23, 0⟩

/-- Number of iterations that always suffices for the slot loop: two per clock hour from
the wake hour to the bed hour. -/
def slotBudget (wakeHour bedHour : Nat) : Nat :=
  2 * (bedHour + 1 - wakeHour)

/-- The slot grid before the lunch reservation (source lines 244-272). -/
def buildSlots (profile : Profile) (date : Int) : List Slot :=
  slotLoop date profile.energyPeakTime (bedOf profile).hour (bedOf profile).minute
    (slotBudget (wakeOf profile).hour (bedOf profile).hour)
    (wakeOf profile).hour (wakeOf profile).minute

/-- The LUNCH item pushed first (source lines 275-286). -/
def lunchItem (date : Int) : ScheduleItem :=
  { title := "Pause déjeuner", type := "LUNCH", startTime := setHours date 12 0,
    endTime := setHours date 13 0, taskId := none, task := none }

/-- Lunch reservation (source lines 289-293): slots lying inside 12:00-13:00 become occupied. -/
def markLunch (date : Int) (slots : List Slot) : List Slot :=
  slots.map fun slot =>
    if slot.start ≥ setHours date 12 0 ∧ slot.end_ ≤ setHours date 13 0 then
      { slot with occupied := true }
    else slot

/-! ## optimizeSchedule: task ordering -/

/-- Model of `Array.prototype.sort` step: insert `x` before the first element it does not follow. -/
def sortInsert {α : Type} (cmp : α → α → Int) (x : α) : List α → List α
  | [] => [x]
  | y :: ys => if cmp x y ≤ 0 then x :: y :: ys else y :: sortInsert cmp x ys

/-- Model of `Array.prototype.sort` with a comparator: a stable sort (elements that compare equal
keep their relative order), written as an insertion sort. -/
def jsSort {α : Type} (cmp : α → α → Int) : List α → List α
  | [] => []
  | x :: xs => sortInsert cmp x (jsSort cmp xs)

/-- Table `priorityOrder[p] || 2` of the task comparator (source lines 298-299); a priority
is one of the enumerated names or any other string that `Object.prototype` does not define. -/
def priorityOrder (p : String) : Int :=
  if p = "URGENT" then 4
  else if p = "HIGH" then 3
  else if p = "MEDIUM" then 2
  else if p = "LOW" then 1
  else 2

/-- Comparator of `sortedTasks` (source lines 296-310). -/
def taskCompare (a b : Task) : Int :=
  let priorityDiff := priorityOrder b.priority - priorityOrder a.priority
  if priorityDiff ≠ 0 then priorityDiff
  else
    match a.deadline, b.deadline with
    | some da, some db => da - db
    | some _, none => -1
    | none, some _ => 1
    | none, none => 0

/-! ## optimizeSchedule: placement -/

/-- Model of `Math.ceil(task.duration / 30)`. -/
def slotsNeededOf (task : Task) : Nat :=
  (task.duration + 29) / 30

/-- Model of `['WORK', 'STUDY'].includes(task.category)`. -/
def isIntensiveOf (task : Task) : Bool :=
  decide (task.category ∈ ["WORK", "STUDY"])

/-- Inner availability loop (source lines 323-329) over the `count` slots from index `k`:
`some false` as soon as an occupied slot is met, `none` when a slot is missing. -/
def allAvailable (slots : List Slot) : Nat → Nat → Option Bool
  | _, 0 => some true
  | k, count + 1 =>
    match slots[k]? with
    | none => none
    | some slot => if slot.occupied then some false else allAvailable slots (k + 1) count

/-- Desirability score of the window starting at slot `i` (source lines 334-357); every
`score += v` rounds the sum to the nearest double. -/
def slotScore (task : Task) (slots : List Slot) (i : Nat) : Option ℚ :=
  match slots[i]? with
  | none => none
  | some slot =>
    let energyLevel := slot.energyLevel
    let score : ℚ := 0
    let score : ℚ :=
      if isIntensiveOf task then
        toDouble
          (score + (if energyLevel = .high then 3 else if energyLevel = .medium then 2 else 1))
      else
        toDouble
          (score + (if energyLevel = .low then 3 else if energyLevel = .medium then 2 else 1))
    let score : ℚ :=
      if task.priority = "URGENT" ∨ task.priority = "HIGH" then
        toDouble (score +
          toDouble (toDouble (((slots.length : ℚ) - (i : ℚ)) / (slots.length : ℚ)) * 2))
      else score
    let score : ℚ :=
      match task.preferredTime with
      | none => score
      | some preferredTime =>
        let slotHour := getHours slot.start
        let score :=
          if preferredTime = "morning" ∧ slotHour < 12 then toDouble (score + 2) else score
        let score :=
          if preferredTime = "afternoon" ∧ slotHour ≥ 12 ∧ slotHour < 17 then
            toDouble (score + 2)
          else score
        if preferredTime = "evening" ∧ slotHour ≥ 17 then toDouble (score + 2) else score
    some score

/-- Window scan (source lines 321-363) over the remaining start indices; the state is
`(bestSlotIndex, bestScore)`, with `none` standing for the initial index `-1`. -/
def scanWindows (task : Task) (slots : List Slot) (slotsNeeded : Nat) :
    List Nat → Option Nat × ℚ → Option (Option Nat × ℚ)
  | [], best => some best
  | i :: rest, (bestSlotIndex, bestScore) =>
    match allAvailable slots i slotsNeeded with
    | none => none
    | some false => scanWindows task slots slotsNeeded rest (bestSlotIndex, bestScore)
    | some true =>
      match slotScore task slots i with
      | none => none
      | some score =>
        if score > bestScore then scanWindows task slots slotsNeeded rest (some i, score)
        else scanWindows task slots slotsNeeded rest (bestSlotIndex, bestScore)

/-- Best start index for a task: the loop `for (i = 0; i <= slots.length - slotsNeeded; i++)`
started from `bestSlotIndex = -1`, `bestScore = -1`. -/
def findBestSlot (task : Task) (slots : List Slot) : Option (Option Nat) :=
  (scanWindows task slots (slotsNeededOf task)
    (List.range (slots.length + 1 - slotsNeededOf task)) (none, -1)).map Prod.fst

/-- Occupancy marking (source lines 367-369): `slots[k].occupied = true` for `count`
indices from `k`; `none` when a slot is missing. -/
def markOccupied (slots : List Slot) : Nat → Nat → Option (List Slot)
  | _, 0 => some slots
  | k, count + 1 =>
    match slots[k]? with
    | none => none
    | some slot => markOccupied (slots.set k { slot with occupied := true }) (k + 1) count

/-- The TASK item of a placed task (source lines 372-383). -/
def taskItem (task : Task) (startTime : Int) : ScheduleItem :=
  { title := task.title, type := "TASK", startTime := startTime,
    endTime := addMinutes startTime task.duration, taskId := some task.id, task := some task }

/-- The BREAK item following an intensive task (source lines 387-402). -/
def breakItem (breakStart : Int) : ScheduleItem :=
  { title := "Pause", type := "BREAK", startTime := breakStart,
    endTime := addMinutes breakStart 15, taskId := none, task := none }

/-- Body of the task loop (source lines 314-405) on the state `(slots, items)`. -/
def placeTask (state : List Slot × List ScheduleItem) (task : Task) :
    Option (List Slot × List ScheduleItem) :=
  let slots := state.1
  let items := state.2
  let slotsNeeded := slotsNeededOf task
  match findBestSlot task slots with
  | none => none
  | some none => some (slots, items)
  | some (some bestSlotIndex) =>
    match markOccupied slots bestSlotIndex slotsNeeded with
    | none => none
    | some marked =>
    match marked[bestSlotIndex]? with
    | none => none
    | some first =>
      let startTime := first.start
      let endTime := addMinutes startTime task.duration
      let items := items ++ [taskItem task startTime]
      if isIntensiveOf task ∧ task.duration ≥ 60 then
        let breakSlotIndex := bestSlotIndex + slotsNeeded
        match (if breakSlotIndex < marked.length then marked[breakSlotIndex]? else none) with
        | some breakSlot =>
          if ¬ breakSlot.occupied then
            some (marked.set breakSlotIndex { breakSlot with occupied := true },
              items ++ [breakItem endTime])
          else some (marked, items)
        | none => some (marked, items)
      else some (marked, items)

/-- The task loop `for (const task of sortedTasks)`. -/
def scheduleTasks : List Task → List Slot × List ScheduleItem →
    Option (List Slot × List ScheduleItem)
  | [], state => some state
  | task :: rest, state =>
    match placeTask state task with
    | none => none
    | some state => scheduleTasks rest state

/-! ## optimizeSchedule: buffers -/

/-- The BUFFER item filling a gap (source lines 423-429). -/
def bufferItem (currentItem nextItem : ScheduleItem) : ScheduleItem :=
  { title := "Transition", type := "BUFFER", startTime := currentItem.endTime,
    endTime := nextItem.startTime, taskId := none, task := none }

/-- Buffer insertion loop (source lines 412-432) over the sorted items. -/
def addBuffers : List ScheduleItem → List ScheduleItem
  | [] => []
  | [currentItem] => [currentItem]
  | currentItem :: nextItem :: rest =>
    let gap := nextItem.startTime - currentItem.endTime
    if gap ≥ 5 * 60 * 1000 ∧ gap < 30 * 60 * 1000 then
      currentItem :: bufferItem currentItem nextItem :: addBuffers (nextItem :: rest)
    else currentItem :: addBuffers (nextItem :: rest)

/-- Comparator of the item sort (source line 409). -/
def itemCompare (a b : ScheduleItem) : Int :=
  a.startTime - b.startTime

/-- The scheduler (source lines 241-435); `none` stands for a thrown `TypeError`. -/
def optimizeSchedule (tasks : List Task) (profile : Profile) (date : Int) :
    Option (List ScheduleItem) :=
  let slots := markLunch date (buildSlots profile date)
  let items := [lunchItem date]
  let sortedTasks := jsSort taskCompare tasks
  match scheduleTasks sortedTasks (slots, items) with
  | none => none
  | some (_, items) => some (addBuffers (jsSort itemCompare items))

/-! ## Notions used to state the lemmas -/

/-- Iterations still needed by the slot loop from `currentHour:currentMin`. -/
def slotMeasure (bedHour currentHour currentMin : Nat) : Nat :=
  2 * (bedHour + 1 - currentHour) - (if currentMin ≥ 30 then 1 else 0)

/-- Number of unoccupied slots of a grid. -/
def freeCount (slots : List Slot) : Nat :=
  slots.countP fun s => !s.occupied

/-- Number of TASK items of a list. -/
def taskCount (items : List ScheduleItem) : Nat :=
  items.countP fun it => it.type = "TASK"

/-- Where a task has been put: window start index `best` and start instant `s`, on a
grid whose slot starts are `starts`. -/
def PlacedAt (starts : List Int) (task : Task) (best : Nat) (s : Int) : Prop :=
  0 < slotsNeededOf task ∧ best + slotsNeededOf task ≤ starts.length ∧ starts[best]? = some s

/-- Provenance of an item pushed while placing one of the tasks `ts`: the TASK item of
a placed task, or the BREAK item that follows an intensive task of an hour or more. -/
def ItemFrom (starts : List Int) (ts : List Task) (it : ScheduleItem) : Prop :=
  ∃ t ∈ ts, ∃ best s, PlacedAt starts t best s ∧
    (it = taskItem t s ∨
      (isIntensiveOf t = true ∧ 60 ≤ t.duration ∧ it = breakItem (addMinutes s t.duration)))

/-- An item is a BUFFER inserted between two items of `l`. -/
def BufferOf (l : List ScheduleItem) (x : ScheduleItem) : Prop :=
  ∃ a ∈ l, ∃ b ∈ l, 5 * 60 * 1000 ≤ b.startTime - a.endTime ∧
    b.startTime - a.endTime < 30 * 60 * 1000 ∧ x = bufferItem a b

/-! ## Sample inputs -/

/-- Profile of the seed data: wake 07:00, bed 23:00, morning peak. -/
def seedProfile : Profile :=
  { wakeUpTime := some ⟨7, 0⟩, bedTime := some ⟨23, 0⟩, energyPeakTime := "morning" }

/-- Two-hour urgent work task. -/
def deepWork : Task :=
  { id := "t1", title := "Rapport", category := "WORK", priority := "URGENT", duration := 120,
    deadline := none, preferredTime := none }

/-- Half-hour low-priority leisure task. -/
def reading : Task :=
  { id := "t2", title := "Lecture", category := "LEISURE", priority := "LOW", duration := 30,
    deadline := none, preferredTime := some "evening" }

/-- Task longer than any grid of a single day: 25 hours. -/
def marathon : Task :=
  { id := "t3", title := "Marathon", category := "SPORT", priority := "HIGH", duration := 1500,
    deadline := none, preferredTime := none }

/-- Short day: wake 07:00, bed 09:00, four slots. -/
def shortDay : Profile :=
  { wakeUpTime := some ⟨7, 0⟩, bedTime := some ⟨9, 0⟩, energyPeakTime := "morning" }

/-- Profile whose bed time is off the half-hour grid: wake 07:00, bed 07:15. -/
def earlyBed : Profile :=
  { wakeUpTime := some ⟨7, 0⟩, bedTime := some ⟨7, 15⟩, energyPeakTime := "morning" }

/-- Profile whose wake time is off the half-hour grid: wake 07:45, bed 23:00. -/
def lateWake : Profile :=
  { wakeUpTime := some ⟨7, 45⟩, bedTime := some ⟨23, 0⟩, energyPeakTime := "morning" }

/-- Half-hour urgent work task. -/
def callA : Task :=
  { id := "a", title := "Appel A", category := "WORK", priority := "URGENT", duration := 30,
    deadline := none, preferredTime := none }

/-- Second half-hour urgent work task. -/
def callB : Task :=
  { id := "b", title := "Appel B", category := "WORK", priority := "URGENT", duration := 30,
    deadline := none, preferredTime := none }

/-- Work item of 23 minutes. -/
def report23 : ScheduleItem :=
  { title := "Rapport", type := "TASK", startTime := setHours 0 9 0,
    endTime := addMinutes (setHours 0 9 0) 23, taskId := some "t1", task := some deepWork }

/-- Item of 17 minutes without embedded task. -/
def errand17 : ScheduleItem :=
  { title := "Course", type := "TASK", startTime := setHours 0 10 0,
    endTime := addMinutes (setHours 0 10 0) 17, taskId := none, task := none }

/-- Free slot of the grid at `h:m` with energy `high`. -/
def morningSlot (date : Int) (h m : Nat) : Slot :=
  { start := setHours date h m, end_ := addMinutes (setHours date h m) 30, occupied := false,
    energyLevel := .high }

/-! ## calculateMentalLoad -/

/-- Value of `CATEGORY_WEIGHTS[category] || 1.0` (source lines 7-16 and 72); a category is
one of the enumerated names or any other string that `Object.prototype` does not define. -/
def categoryWeight (category : String) : ℚ :=
  if category = "WORK" then 1.5
  else if category = "STUDY" then 1.4
  else if category = "HOUSEHOLD" then 1.0
  else if category = "PERSONAL" then 0.9
  else if category = "SPORT" then 0.8
  else if category = "SOCIAL" then 0.6
  else if category = "LEISURE" then 0.5
  else if category = "REST" then 0.2
  else 1.0

/-- Model of `PRIORITY_MULTIPLIERS[priority] || 1.0` (source lines 19-24 and 77). -/
def priorityMultiplierOf (priority : String) : ℚ :=
  if priority = "URGENT" then 1.3
  else if priority = "HIGH" then 1.2
  else if priority = "MEDIUM" then 1.0
  else if priority = "LOW" then 0.8
  else 1.0

/-- Model of `s.toLowerCase()`: A-Z become a-z, other characters stay (the keywords looked
for in titles are ASCII). -/
def toLowerCase (s : String) : String :=
  ⟨s.data.map Char.toLower⟩

/-- Model of `s.includes(sub)`: `sub` occurs in `s` as a contiguous substring. -/
def includes (s sub : String) : Bool :=
  s.data.tails.any fun t => sub.data.isPrefixOf t

/-- Model of `Math.round`: the nearest integer, halves rounded up. -/
def mathRound (x : ℚ) : Int :=
  ⌊x + 1 / 2⌋

/-- Category of a counted item (source lines 57-70). -/
def loadCategory (item : ScheduleItem) : String :=
  match item.task with
  | some task => task.category
  | none =>
    if item.title ≠ "" then
      let titleLower := toLowerCase item.title
      if includes titleLower "repos" || includes titleLower "rest" then "REST"
      else if includes titleLower "sport" || includes titleLower "exercise" then "SPORT"
      else if includes titleLower "loisir" || includes titleLower "leisure" then "LEISURE"
      else "WORK"
    else "WORK"

/-- The `for` loop of `calculateMentalLoad` (source lines 45-81), with
`totalWeightedDuration` as accumulator; the subtraction of the dates, the division, the
two multiplications and the `+=` each round to the nearest double, and the decimal
weights stand for the doubles nearest to them. -/
def loadLoop : List ScheduleItem → ℚ → ℚ
  | [], totalWeightedDuration => totalWeightedDuration
  | item :: rest, totalWeightedDuration =>
    if item.type ∈ ["BREAK", "BUFFER", "SLEEP", "LUNCH"] then
      loadLoop rest totalWeightedDuration
    else
      let durationHours : ℚ :=
        toDouble (toDouble ((item.endTime - item.startTime : Int) : ℚ) / (1000 * 60 * 60))
      let weight := categoryWeight (loadCategory item)
      let priorityMultiplier : ℚ :=
        match item.task with
        | some task => priorityMultiplierOf task.priority
        | none => 1.0
      loadLoop rest (toDouble (totalWeightedDuration +
        toDouble (toDouble (durationHours * toDouble weight) * toDouble priorityMultiplier)))

/-- Mental load score (source lines 38-89); `none` is a `null` item list. The result
`Math.round(score * 10) / 10` is written as the decimal `k / 10` it denotes. -/
def calculateMentalLoad (items : Option (List ScheduleItem)) : ℚ :=
  match items with
  | none => 0
  | some items =>
    if items.length = 0 then 0
    else
      let totalWeightedDuration := loadLoop items 0
      let score := toDouble (toDouble (totalWeightedDuration / 12) * 10)
      min ((mathRound (toDouble (score * 10)) : ℚ) / 10) 10

/-! ### The score as the specification words it -/

/-- Weight table of the specification. -/
def specWeightTable : List (String × ℚ) :=
  [("WORK", 1.5), ("STUDY", 1.4), ("HOUSEHOLD", 1.0), ("PERSONAL", 0.9), ("SPORT", 0.8),
    ("SOCIAL", 0.6), ("LEISURE", 0.5), ("REST", 0.2)]

/-- Multiplier table of the specification. -/
def specMultiplierTable : List (String × ℚ) :=
  [("URGENT", 1.3), ("HIGH", 1.2), ("MEDIUM", 1.0), ("LOW", 0.8)]

/-- Category of an item in the words of the specification: the embedded task's category,
else the first keyword group found in the lower-cased title, else WORK. -/
def specCategory (item : ScheduleItem) : String :=
  match item.task with
  | some task => task.category
  | none =>
    let lower := toLowerCase item.title
    if includes lower "repos" ∨ includes lower "rest" then "REST"
    else if includes lower "sport" ∨ includes lower "exercise" then "SPORT"
    else if includes lower "loisir" ∨ includes lower "leisure" then "LEISURE"
    else "WORK"

/-- Weight of an item in the words of the specification: 1.0 for a category outside the
table. -/
def specWeight (item : ScheduleItem) : ℚ :=
  (specWeightTable.lookup (specCategory item)).getD 1.0

/-- Multiplier of an item in the words of the specification: 1.0 without an embedded
task or for a priority outside the table. -/
def specMultiplier (item : ScheduleItem) : ℚ :=
  match item.task with
  | some task => (specMultiplierTable.lookup task.priority).getD 1.0
  | none => 1.0

/-- Duration of an item in hours. -/
def durationHoursOf (item : ScheduleItem) : ℚ :=
  ((item.endTime - item.startTime : Int) : ℚ) / 3600000

/-- The sum `S` of the specification over the items whose type is not BREAK, BUFFER,
SLEEP or LUNCH. -/
def specSum (items : List ScheduleItem) : ℚ :=
  ((items.filter fun item => item.type ∉ ["BREAK", "BUFFER", "SLEEP", "LUNCH"]).map
    fun item => durationHoursOf item * specWeight item * specMultiplier item).sum

/-- Rounding to one decimal place. -/
def round1 (x : ℚ) : ℚ :=
  (round (x * 10) : ℚ) / 10

/-- The score in the words of the specification. -/
def specMentalLoad (items : List ScheduleItem) : ℚ :=
  min (round1 (specSum items / 12 * 10)) 10

/-! ### The score of the specification in double arithmetic -/

/-- Contribution of a counted item, hours * weight * multiplier, each operation rounded
to the nearest double. -/
def specTermDouble (item : ScheduleItem) : ℚ :=
  toDouble (toDouble
    (toDouble (toDouble ((item.endTime - item.startTime : Int) : ℚ) / 3600000) *
      toDouble (specWeight item)) * toDouble (specMultiplier item))

/-- The sum `S` of the specification accumulated in item order, each addition rounded to
the nearest double. -/
def specSumDouble (items : List ScheduleItem) : ℚ :=
  ((items.filter fun item => item.type ∉ ["BREAK", "BUFFER", "SLEEP", "LUNCH"]).map
    specTermDouble).foldl (fun total term => toDouble (total + term)) 0

/-- The score `min(round1(S / 12 * 10), 10)` of the specification with every operation
rounded to the nearest double and `round1(x) = Math.round(x * 10) / 10`. -/
def specMentalLoadDouble (items : List ScheduleItem) : ℚ :=
  min ((mathRound (toDouble (toDouble (toDouble (specSumDouble items / 12) * 10) * 10)) : ℚ)
    / 10) 10

/-- WORK task of 72 minutes with priority URGENT. -/
def report72 : Task :=
  { id := "r", title := "Rapport", category := "WORK", priority := "URGENT", duration := 72,
    deadline := none, preferredTime := none }

/-! ## Sample item list -/

/-- Item list of one working day: a two-hour urgent work task, a break, lunch, and an
untitled half hour of sport. -/
def sampleDay : List ScheduleItem :=
  [taskItem deepWork (setHours 0 7 0), breakItem (setHours 0 9 0), lunchItem 0,
    { title := "Sport en salle", type := "TASK", startTime := setHours 0 18 0,
      endTime := setHours 0 18 30, taskId := none, task := none }]

/-! ## Inserting items into a list -/

/-- The list `l` with `x` inserted before position `k` (at the end when `k` is past it). -/
def insertItemAt (l : List ScheduleItem) (k : Nat) (x : ScheduleItem) : List ScheduleItem :=
  l.take k ++ x :: l.drop k

/-- The list `l` after inserting, one after the other, each item at the position given
with it. -/
def insertItems (l : List ScheduleItem) (ins : List (Nat × ScheduleItem)) :
    List ScheduleItem :=
  ins.foldl (fun acc p => insertItemAt acc p.1 p.2) l

/-! ## getMentalLoadLevel -/

/-- Level of a score (source lines 96-102). -/
def getMentalLoadLevel (score : ℚ) : String :=
  if score ≤ 3 then "light"
  else if score ≤ 5 then "balanced"
  else if score ≤ 7 then "busy"
  else if score ≤ 9 then "overloaded"
  else "critical"

/-- Position of a level in the order light, balanced, busy, overloaded, critical. -/
def levelRank (level : String) : Nat :=
  if level = "light" then 0
  else if level = "balanced" then 1
  else if level = "busy" then 2
  else if level = "overloaded" then 3
  else 4

/-! ## calculateTimeDistribution -/

/-- Entry of the time distribution: `{ minutes, percentage }`. -/
structure DistributionEntry where
  minutes : ℚ
  percentage : Int
deriving DecidableEq

/-- Category under which `calculateTimeDistribution` counts an item (source lines
156-161). -/
def distributionCategory (item : ScheduleItem) : String :=
  match item.task with
  | some task => task.category
  | none => if item.type = "LUNCH" then "REST" else "OTHER"

/-- Model of `distribution[category] = (distribution[category] || 0) + durationMinutes`
on an object kept as its list of own properties in insertion order (category names are
not integer-like and not inherited from `Object.prototype`). -/
def addToCategory (category : String) (durationMinutes : ℚ) :
    List (String × ℚ) → List (String × ℚ)
  | [] => [(category, 0 + durationMinutes)]
  | (key, minutes) :: rest =>
    if key = category then (key, minutes + durationMinutes) :: rest
    else (key, minutes) :: addToCategory category durationMinutes rest

/-- The first loop of `calculateTimeDistribution` (source lines 147-165) on the state
`(distribution, totalMinutes)`. -/
def distributionLoop : List ScheduleItem → List (String × ℚ) × ℚ → List (String × ℚ) × ℚ
  | [], state => state
  | item :: rest, (distribution, totalMinutes) =>
    if item.type ∈ ["BREAK", "BUFFER", "SLEEP"] then
      distributionLoop rest (distribution, totalMinutes)
    else
      let durationMinutes : ℚ := ((item.endTime - item.startTime : Int) : ℚ) / (1000 * 60)
      let category := distributionCategory item
      distributionLoop rest
        (addToCategory category durationMinutes distribution, totalMinutes + durationMinutes)

/-- Time distribution by category (source lines 143-177): the entries of the returned
object in `Object.entries` order. The minutes keep their exact value (they are exact in
doubles for items that last whole minutes); the division and the multiplication of the
share each round to the nearest double. -/
def calculateTimeDistribution (items : List ScheduleItem) :
    List (String × DistributionEntry) :=
  let state := distributionLoop items ([], 0)
  let distribution := state.1
  let totalMinutes := state.2
  distribution.map fun entry =>
    (entry.1,
      { minutes := entry.2,
        percentage :=
          if totalMinutes > 0 then mathRound (toDouble (toDouble (entry.2 / totalMinutes) * 100))
          else 0 })

/-! ## generateOverloadSuggestions -/

/-- Suggestion object; `tasks` is present on the postpone suggestion only. -/
structure Suggestion where
  type : String
  message : String
  impact : ℚ
  tasks : Option (List String)
deriving DecidableEq

/-- Suggestions to reduce overload (source lines 185-232). -/
def generateOverloadSuggestions (score : ℚ) (items : List ScheduleItem) : List Suggestion :=
  let suggestions : List Suggestion := []
  let taskItems := items.filter fun i => i.type = "TASK" ∧ i.task.isSome
  let lowPriorityTasks := taskItems.filter fun i => i.task.map (·.priority) = some "LOW"
  let mediumPriorityTasks := taskItems.filter fun i => i.task.map (·.priority) = some "MEDIUM"
  let suggestions :=
    if lowPriorityTasks.length > 0 then
      suggestions ++ [{
        type := "postpone",
        message := "Reporter " ++ toString lowPriorityTasks.length ++
          " tâche(s) de faible priorité à demain",
        impact := -0.5 * (lowPriorityTasks.length : ℚ),
        tasks := some (lowPriorityTasks.filterMap fun t => t.task.map (·.title)) }]
    else suggestions
  let suggestions :=
    if mediumPriorityTasks.length > 0 ∧ score > 8 then
      suggestions ++ [{
        type := "shorten",
        message := "Réduire la durée des tâches moyennes de 20%",
        impact := -0.8,
        tasks := none }]
    else suggestions
  let breakCount := (items.filter fun i => i.type = "BREAK").length
  let suggestions :=
    if breakCount < 3 then
      suggestions ++ [{
        type := "breaks",
        message := "Ajouter plus de pauses pour récupérer",
        impact := -0.3,
        tasks := none }]
    else suggestions
  let suggestions :=
    if score > 9 then
      suggestions ++ [{
        type := "reschedule",
        message := "Déplacer au moins une tâche importante à demain",
        impact := -1.5,
        tasks := none }]
    else suggestions
  suggestions

/-! ## analyzeMentalLoad -/

/-- Result object of `analyzeMentalLoad`. -/
structure Analysis where
  level : String
  message : String
  suggestions : List Suggestion
  distribution : List (String × DistributionEntry)
deriving DecidableEq

/-- Table `messages[level]` (source lines 113-119) on the five levels. -/
def levelMessage (level : String) : String :=
  if level = "light" then
    "Journée très légère. Tu as de la marge pour ajouter des activités ou profiter de ton temps libre."
  else if level = "balanced" then "Journée équilibrée. Bon équilibre entre activités et repos."
  else if level = "busy" then "Journée chargée mais gérable. Assure-toi de prendre tes pauses."
  else if level = "overloaded" then
    "Attention, journée surchargée. Je te recommande de reporter certaines tâches."
  else "Surcharge critique! Il faut absolument alléger cette journée."

/-- Analysis of a score and its items (source lines 110-136). -/
def analyzeMentalLoad (score : ℚ) (items : List ScheduleItem) : Analysis :=
  let level := getMentalLoadLevel score
  let result : Analysis :=
    { level := level, message := levelMessage level, suggestions := [], distribution := [] }
  let result :=
    if score > 7 then { result with suggestions := generateOverloadSuggestions score items }
    else result
  let result := { result with distribution := calculateTimeDistribution items }
  result

/-! ## Notions used to state the claims on suggestions and distribution -/

/-- Titles of the embedded LOW-priority tasks of the TASK items, in item order. -/
def lowPriorityTitles (items : List ScheduleItem) : List String :=
  items.filterMap fun it =>
    if it.type = "TASK" then
      match it.task with
      | some task => if task.priority = "LOW" then some task.title else none
      | none => none
    else none

/-- Some TASK item embeds a task of the given priority. -/
def HasTaskOfPriority (items : List ScheduleItem) (priority : String) : Prop :=
  ∃ it ∈ items, it.type = "TASK" ∧ ∃ task, it.task = some task ∧ task.priority = priority

/-- The canonical order of the four suggestion types. -/
def suggestionOrder : List String :=
  ["postpone", "shorten", "breaks", "reschedule"]

/-- The TASK items with an embedded task of the given priority, as the source filters
them (lines 189-191). -/
def taskItemsOfPriority (items : List ScheduleItem) (priority : String) : List ScheduleItem :=
  (items.filter fun i => i.type = "TASK" ∧ i.task.isSome).filter
    fun i => i.task.map (·.priority) = some priority

/-- The postpone suggestion pushed for the given LOW-priority items (lines 195-200). -/
def postponeSuggestion (lowPriorityTasks : List ScheduleItem) : Suggestion :=
  { type := "postpone",
    message := "Reporter " ++ toString lowPriorityTasks.length ++
      " tâche(s) de faible priorité à demain",
    impact := -0.5 * (lowPriorityTasks.length : ℚ),
    tasks := some (lowPriorityTasks.filterMap fun t => t.task.map (·.title)) }

/-- The shorten suggestion (lines 205-209). -/
def shortenSuggestion : Suggestion :=
  { type := "shorten", message := "Réduire la durée des tâches moyennes de 20%",
    impact := -0.8, tasks := none }

/-- The breaks suggestion (lines 215-219). -/
def breaksSuggestion : Suggestion :=
  { type := "breaks", message := "Ajouter plus de pauses pour récupérer", impact := -0.3,
    tasks := none }

/-- The reschedule suggestion (lines 224-228). -/
def rescheduleSuggestion : Suggestion :=
  { type := "reschedule", message := "Déplacer au moins une tâche importante à demain",
    impact := -1.5, tasks := none }

/-- An item is counted by `calculateTimeDistribution`: its type is not BREAK, BUFFER or
SLEEP. -/
def countedInDistribution (item : ScheduleItem) : Bool :=
  decide (item.type ∉ ["BREAK", "BUFFER", "SLEEP"])

/-- Duration of an item in minutes. -/
def durationMinutesOf (item : ScheduleItem) : ℚ :=
  ((item.endTime - item.startTime : Int) : ℚ) / 60000

/-- Sum of the durations, in minutes, of the counted items bucketed under `category`. -/
def minutesUnder (items : List ScheduleItem) (category : String) : ℚ :=
  ((items.filter fun it => countedInDistribution it ∧ distributionCategory it = category).map
    durationMinutesOf).sum

/-- Sum of the durations, in minutes, of all counted items. -/
def countedMinutes (items : List ScheduleItem) : ℚ :=
  ((items.filter countedInDistribution).map durationMinutesOf).sum

/-- Sum of the minutes stored under `category` in an accumulated distribution. -/
def valueAt (distribution : List (String × ℚ)) (category : String) : ℚ :=
  ((distribution.filter fun entry => entry.1 = category).map Prod.snd).sum

/-- The eight task categories. -/
def taskCategories : List String :=
  ["WORK", "STUDY", "LEISURE", "REST", "SPORT", "SOCIAL", "HOUSEHOLD", "PERSONAL"]

/-- Lunch item that embeds a work task. -/
def workingLunch : ScheduleItem :=
  { lunchItem 0 with task := some deepWork }

/-- Half-hour TASK item added by hand, without embedded task. -/
def looseItem : ScheduleItem :=
  { title := "Courses", type := "TASK", startTime := setHours 0 18 0,
    endTime := setHours 0 18 30, taskId := none, task := none }

/-- The window of `n` consecutive slots from index `i` lies inside the grid and all its
slots are unoccupied. -/
def windowFree (slots : List Slot) (i n : Nat) : Bool :=
  decide (i + n ≤ slots.length ∧ ∀ j, j < n → (slots[i + j]?).map Slot.occupied = some false)

/-- The grid `slots` with the `n` slots from index `i` marked occupied and nothing else
changed, read at index `j`. -/
def markedWindowAt (slots : List Slot) (i n j : Nat) : Option Slot :=
  (slots[j]?).map fun s => if i ≤ j ∧ j < i + n then { s with occupied := true } else s

/-! ## Notions used to state the claims on task ordering -/

/-- Two tasks share the priority weight and the deadline (two missing deadlines count as
the same). -/
def sameSortKey (a b : Task) : Bool :=
  decide (priorityOrder a.priority = priorityOrder b.priority ∧ a.deadline = b.deadline)

/-- Task `a` may be processed before task `b`: greater priority weight, or equal weight
and a deadline that is not later, a task with a deadline coming before one without. -/
def processedBefore (a b : Task) : Prop :=
  priorityOrder b.priority < priorityOrder a.priority ∨
    (priorityOrder a.priority = priorityOrder b.priority ∧
      match a.deadline, b.deadline with
      | some da, some db => da ≤ db
      | some _, none => True
      | none, some _ => False
      | none, none => True)

/-! ## Desirability score as the specification words it -/

/-- Energy term of the score: WORK and STUDY tasks rate high 3, medium 2, low 1; the other
categories rate low 3, medium 2, high 1. -/
def specEnergyTerm (category : String) (energy : EnergyLevel) : ℚ :=
  if category = "WORK" ∨ category = "STUDY" then
    match energy with
    | .high => 3
    | .medium => 2
    | .low => 1
  else
    match energy with
    | .low => 3
    | .medium => 2
    | .high => 1

/-- Hour bucket of a slot: morning before 12, afternoon from 12 to before 17, evening from 17. -/
def specHourBucket (hour : Int) : String :=
  if hour < 12 then "morning" else if hour < 17 then "afternoon" else "evening"

/-- Score of the window starting at slot `i` (which is `slot`) of a grid of `totalSlots`
slots, in exact arithmetic: energy term, plus `(totalSlots - i) / totalSlots * 2` for
URGENT and HIGH tasks, plus 2 when the preferred time is the hour bucket of the slot. -/
def specScore (task : Task) (totalSlots i : Nat) (slot : Slot) : ℚ :=
  specEnergyTerm task.category slot.energyLevel +
    (if task.priority = "URGENT" ∨ task.priority = "HIGH" then
      ((totalSlots : ℚ) - (i : ℚ)) / (totalSlots : ℚ) * 2 else 0) +
    (if task.preferredTime = some (specHourBucket (getHours slot.start)) then 2 else 0)

/-- The score of the specification as the source computes it: each `score += v`, the
division and the multiplication round to the nearest double (the energy term is a small
integer and exact). -/
def doubleScore (task : Task) (totalSlots i : Nat) (slot : Slot) : ℚ :=
  let score := specEnergyTerm task.category slot.energyLevel
  let score :=
    if task.priority = "URGENT" ∨ task.priority = "HIGH" then
      toDouble (score + toDouble (toDouble (((totalSlots : ℚ) - (i : ℚ)) / (totalSlots : ℚ)) * 2))
    else score
  if task.preferredTime = some (specHourBucket (getHours slot.start)) then toDouble (score + 2)
  else score

/-- Profile with a grid of 24 slots: wake 09:00, bed 21:00, morning peak. -/
def dayShift : Profile :=
  { wakeUpTime := some ⟨9, 0⟩, bedTime := some ⟨21, 0⟩, energyPeakTime := "morning" }

/-- Two-hour urgent leisure task. -/
def longWalk : Task :=
  { id := "w1", title := "Randonnée", category := "LEISURE", priority := "URGENT",
    duration := 120, deadline := none, preferredTime := none }

/-- Half-hour urgent leisure task. -/
def shortWalk : Task :=
  { id := "w2", title := "Promenade", category := "LEISURE", priority := "URGENT",
    duration := 30, deadline := none, preferredTime := none }

/-- The condition under which a BREAK follows a task placed at window start `best`: the
category is WORK or STUDY, the duration is at least 60 minutes, and the slot after the
window exists and is unoccupied. -/
def breakCondition (task : Task) (slots : List Slot) (best : Nat) : Prop :=
  (task.category = "WORK" ∨ task.category = "STUDY") ∧ 60 ≤ task.duration ∧
    ∃ b, slots[best + slotsNeededOf task]? = some b ∧ b.occupied = false

/-- Grid of five free half-hour slots from 07:00. -/
def fiveSlots : List Slot :=
  [morningSlot 0 7 0, morningSlot 0 7 30, morningSlot 0 8 0, morningSlot 0 8 30,
    morningSlot 0 9 0]

/-- The gap between item `a` and the later item `b` is at least 5 minutes and less than
30 minutes. -/
def bufferGap (a b : ScheduleItem) : Prop :=
  5 * msPerMinute ≤ b.startTime - a.endTime ∧ b.startTime - a.endTime < 30 * msPerMinute

/-- No two neighbours of a list are both BUFFER items. -/
def noAdjacentBuffers (l : List ScheduleItem) : Prop :=
  l.Chain' fun x y => ¬ (x.type = "BUFFER" ∧ y.type = "BUFFER")

/-- Profile with two slots before lunch: wake 11:00, bed 12:00. -/
def lateMorning : Profile :=
  { wakeUpTime := some ⟨11, 0⟩, bedTime := some ⟨12, 0⟩, energyPeakTime := "morning" }

/-- Errand of 45 minutes. -/
def errand : Task :=
  { id := "e", title := "Course", category := "PERSONAL", priority := "MEDIUM", duration := 45,
    deadline := none, preferredTime := none }

/-! ## Notions used to state the absence of overlaps -/

/-- Start of the slot of index `k` on a half-hour grid that starts at wake time. -/
def gridStart (profile : Profile) (date : Int) (k : Nat) : Int :=
  setHours date (wakeOf profile).hour (wakeOf profile).minute + 30 * (k : Int) * msPerMinute

/-- The slot of index `j` starts `30 * j` minutes after the instant `G`. -/
def GridAligned (G : Int) (slots : List Slot) : Prop :=
  ∀ (j : Nat) (s : Slot), slots[j]? = some s → s.start = G + 30 * (j : Int) * msPerMinute

/-- Two items do not overlap in time. -/
def disjointItems (a b : ScheduleItem) : Prop :=
  a.endTime ≤ b.startTime ∨ b.endTime ≤ a.startTime

/-- Every unoccupied slot is clear of every item: the item ends by the start of the slot
or starts at least 30 minutes after it. -/
def FreeSlotsClear (slots : List Slot) (items : List ScheduleItem) : Prop :=
  ∀ (j : Nat) (b : Slot), slots[j]? = some b → b.occupied = false →
    ∀ it ∈ items, it.endTime ≤ b.start ∨ b.start + 30 * msPerMinute ≤ it.startTime

/-- Invariant of the task loop: items have positive length, do not overlap one another,
and leave the unoccupied slots clear. -/
def ScheduleInv (slots : List Slot) (items : List ScheduleItem) : Prop :=
  (∀ it ∈ items, it.startTime < it.endTime) ∧ items.Pairwise disjointItems ∧
    FreeSlotsClear slots items

/-! # Theorems -/

/-! ## Lemmas: rounding to the nearest double -/

theorem bitLength_spec : ∀ (fuel n : Nat), 1 ≤ n → n ≤ fuel →
    2 ^ bitLength fuel n ≤ n ∧ n < 2 ^ (bitLength fuel n + 1) := by
  intro fuel
  induction fuel with
  | zero => intro n h1 h2; omega
  | succ fuel ih =>
    intro n h1 h2
    unfold bitLength
    split
    · simp; omega
    · rename_i hn
      have hh := ih (n / 2) (by omega) (by omega)
      constructor
      · rw [pow_succ]; omega
      · rw [pow_succ]; omega

theorem two_zpow_pos (e : Int) : (0 : ℚ) < (2 : ℚ) ^ e := zpow_pos (by norm_num) e

theorem binaryExponent_spec (x : ℚ) (hx : x ≠ 0) :
    (2 : ℚ) ^ binaryExponent x ≤ |x| ∧ |x| < (2 : ℚ) ^ (binaryExponent x + 1) := by
  have hn : 1 ≤ x.num.natAbs := by
    have := Rat.num_ne_zero.mpr hx
    omega
  have hd : 1 ≤ x.den := x.den_pos
  obtain ⟨hn1, hn2⟩ := bitLength_spec _ _ hn (le_refl _)
  obtain ⟨hd1, hd2⟩ := bitLength_spec _ _ hd (le_refl _)
  generalize ha : bitLength x.num.natAbs x.num.natAbs = a at *
  generalize hb : bitLength x.den x.den = b at *
  have habs : |x| = (x.num.natAbs : ℚ) / (x.den : ℚ) := by
    conv_lhs => rw [← Rat.num_div_den x]
    rw [abs_div, Nat.abs_cast]
    congr 1
    rw [Nat.cast_natAbs, Int.cast_abs]
  have hdpos : (0 : ℚ) < x.den := by exact_mod_cast hd
  have hn1' : (2 : ℚ) ^ (a : ℤ) ≤ (x.num.natAbs : ℚ) := by
    rw [zpow_natCast]; exact_mod_cast hn1
  have hn2' : (x.num.natAbs : ℚ) < (2 : ℚ) ^ ((a : ℤ) + 1) := by
    rw [show ((a : ℤ) + 1) = ((a + 1 : ℕ) : ℤ) by simp, zpow_natCast]; exact_mod_cast hn2
  have hd1' : (2 : ℚ) ^ (b : ℤ) ≤ (x.den : ℚ) := by
    rw [zpow_natCast]; exact_mod_cast hd1
  have hd2' : (x.den : ℚ) < (2 : ℚ) ^ ((b : ℤ) + 1) := by
    rw [show ((b : ℤ) + 1) = ((b + 1 : ℕ) : ℤ) by simp, zpow_natCast]; exact_mod_cast hd2
  have hupper : |x| < (2 : ℚ) ^ ((a : ℤ) - b + 1) := by
    rw [habs, div_lt_iff₀ hdpos]
    calc (x.num.natAbs : ℚ) < (2 : ℚ) ^ ((a : ℤ) + 1) := hn2'
      _ = (2 : ℚ) ^ ((a : ℤ) - b + 1) * (2 : ℚ) ^ (b : ℤ) := by
          rw [← zpow_add₀ (by norm_num : (2 : ℚ) ≠ 0)]; congr 1; ring
      _ ≤ (2 : ℚ) ^ ((a : ℤ) - b + 1) * x.den :=
          mul_le_mul_of_nonneg_left hd1' (le_of_lt (two_zpow_pos _))
  have hlower : (2 : ℚ) ^ ((a : ℤ) - b - 1) ≤ |x| := by
    rw [habs, le_div_iff₀ hdpos]
    calc (2 : ℚ) ^ ((a : ℤ) - b - 1) * x.den
        ≤ (2 : ℚ) ^ ((a : ℤ) - b - 1) * (2 : ℚ) ^ ((b : ℤ) + 1) :=
          mul_le_mul_of_nonneg_left (le_of_lt hd2') (le_of_lt (two_zpow_pos _))
      _ = (2 : ℚ) ^ (a : ℤ) := by
          rw [← zpow_add₀ (by norm_num : (2 : ℚ) ≠ 0)]; congr 1; ring
      _ ≤ x.num.natAbs := hn1'
  unfold binaryExponent
  simp only [ha, hb]
  split
  · rename_i h
    exact ⟨h, hupper⟩
  · rename_i h
    refine ⟨hlower, ?_⟩
    rw [show (a : ℤ) - b - 1 + 1 = (a : ℤ) - b by ring]
    exact not_le.mp h

theorem binaryExponent_unique (x : ℚ) (k : Int) (h1 : (2 : ℚ) ^ k ≤ |x|)
    (h2 : |x| < (2 : ℚ) ^ (k + 1)) : binaryExponent x = k := by
  have hx : x ≠ 0 := by
    rintro rfl
    simp at h1
    exact absurd h1 (not_le.mpr (two_zpow_pos k))
  obtain ⟨g1, g2⟩ := binaryExponent_spec x hx
  have hlt : ∀ a b : Int, (2 : ℚ) ^ a < (2 : ℚ) ^ b → a < b := by
    intro a b h
    exact (zpow_lt_zpow_iff_right₀ (by norm_num : (1 : ℚ) < 2)).mp h
  have := hlt _ _ (lt_of_le_of_lt g1 h2)
  have := hlt _ _ (lt_of_le_of_lt h1 g2)
  omega

theorem roundHalfEven_floor_le (s : ℚ) : ⌊s⌋ ≤ roundHalfEven s := by
  unfold roundHalfEven
  split_ifs <;> omega

theorem roundHalfEven_le_floor_succ (s : ℚ) : roundHalfEven s ≤ ⌊s⌋ + 1 := by
  unfold roundHalfEven
  split_ifs <;> omega

theorem roundHalfEven_intCast (n : Int) : roundHalfEven (n : ℚ) = n := by
  unfold roundHalfEven
  simp

theorem roundHalfEven_sub_le (s : ℚ) : |(roundHalfEven s : ℚ) - s| ≤ 1 / 2 := by
  have h1 := Int.floor_le s
  have h2 := Int.lt_floor_add_one s
  unfold roundHalfEven
  rw [abs_le]
  split_ifs with ha hb hc
  · constructor <;> linarith
  · push_cast
    constructor <;> linarith
  · have : s - ⌊s⌋ = 1 / 2 := le_antisymm (not_lt.mp hb) (not_lt.mp ha)
    constructor <;> linarith
  · have : s - ⌊s⌋ = 1 / 2 := le_antisymm (not_lt.mp hb) (not_lt.mp ha)
    push_cast
    constructor <;> linarith

theorem roundHalfEven_mono {s t : ℚ} (h : s ≤ t) : roundHalfEven s ≤ roundHalfEven t := by
  have hfl : ⌊s⌋ ≤ ⌊t⌋ := Int.floor_mono h
  rcases lt_or_eq_of_le hfl with hlt | heq
  · have h1 := roundHalfEven_le_floor_succ s
    have h2 := roundHalfEven_floor_le t
    omega
  · unfold roundHalfEven
    rw [← heq]
    have hfrac : s - ⌊s⌋ ≤ t - ⌊s⌋ := by linarith
    split_ifs <;> first | omega | (exfalso; linarith)

theorem two_zpow_ne (e : Int) : (2 : ℚ) ^ e ≠ 0 := ne_of_gt (two_zpow_pos e)

/-- For a positive rational the double nearest to it lies in the closed binade of its
binary exponent. -/
theorem toDouble_binade (x : ℚ) (hx : 0 < x) :
    (2 : ℚ) ^ binaryExponent x ≤ toDouble x ∧ toDouble x ≤ (2 : ℚ) ^ (binaryExponent x + 1) := by
  obtain ⟨h1, h2⟩ := binaryExponent_spec x (ne_of_gt hx)
  rw [abs_of_pos hx] at h1 h2
  unfold toDouble
  rw [if_neg (ne_of_gt hx)]
  generalize binaryExponent x = E at *
  have hpos := two_zpow_pos (E - 52)
  have hs1 : (((2 : Int) ^ 52 : Int) : ℚ) ≤ x / (2 : ℚ) ^ (E - 52) := by
    rw [le_div_iff₀ hpos]
    calc (((2 : Int) ^ 52 : Int) : ℚ) * (2 : ℚ) ^ (E - 52)
        = (2 : ℚ) ^ (52 : ℤ) * (2 : ℚ) ^ (E - 52) := by norm_num
      _ = (2 : ℚ) ^ E := by
          rw [← zpow_add₀ (by norm_num : (2 : ℚ) ≠ 0)]; congr 1; ring
      _ ≤ x := h1
  have hs2 : x / (2 : ℚ) ^ (E - 52) ≤ (((2 : Int) ^ 53 : Int) : ℚ) := by
    rw [div_le_iff₀ hpos]
    calc x ≤ (2 : ℚ) ^ (E + 1) := le_of_lt h2
      _ = (2 : ℚ) ^ (53 : ℤ) * (2 : ℚ) ^ (E - 52) := by
          rw [← zpow_add₀ (by norm_num : (2 : ℚ) ≠ 0)]; congr 1; ring
      _ = (((2 : Int) ^ 53 : Int) : ℚ) * (2 : ℚ) ^ (E - 52) := by norm_num
  have hr1 := roundHalfEven_mono hs1
  have hr2 := roundHalfEven_mono hs2
  rw [roundHalfEven_intCast] at hr1 hr2
  have hr1' : (((2 : Int) ^ 52 : Int) : ℚ) ≤ (roundHalfEven (x / (2 : ℚ) ^ (E - 52)) : ℚ) := by
    exact_mod_cast hr1
  have hr2' : (roundHalfEven (x / (2 : ℚ) ^ (E - 52)) : ℚ) ≤ (((2 : Int) ^ 53 : Int) : ℚ) := by
    exact_mod_cast hr2
  constructor
  · calc (2 : ℚ) ^ E = (2 : ℚ) ^ (52 : ℤ) * (2 : ℚ) ^ (E - 52) := by
          rw [← zpow_add₀ (by norm_num : (2 : ℚ) ≠ 0)]; congr 1; ring
      _ = (((2 : Int) ^ 52 : Int) : ℚ) * (2 : ℚ) ^ (E - 52) := by norm_num
      _ ≤ _ := mul_le_mul_of_nonneg_right hr1' (le_of_lt hpos)
  · calc _ ≤ (((2 : Int) ^ 53 : Int) : ℚ) * (2 : ℚ) ^ (E - 52) :=
          mul_le_mul_of_nonneg_right hr2' (le_of_lt hpos)
      _ = (2 : ℚ) ^ (53 : ℤ) * (2 : ℚ) ^ (E - 52) := by norm_num
      _ = (2 : ℚ) ^ (E + 1) := by
          rw [← zpow_add₀ (by norm_num : (2 : ℚ) ≠ 0)]; congr 1; ring

theorem toDouble_of_ne (x : ℚ) (hx : x ≠ 0) :
    toDouble x = (roundHalfEven (x / (2 : ℚ) ^ (binaryExponent x - 52)) : ℚ) *
      (2 : ℚ) ^ (binaryExponent x - 52) := by
  unfold toDouble
  rw [if_neg hx]

theorem toDouble_zero : toDouble 0 = 0 := by
  unfold toDouble
  simp

theorem toDouble_pos (x : ℚ) (hx : 0 < x) : 0 < toDouble x :=
  lt_of_lt_of_le (two_zpow_pos _) (toDouble_binade x hx).1

theorem toDouble_nonneg (x : ℚ) (hx : 0 ≤ x) : 0 ≤ toDouble x := by
  rcases lt_or_eq_of_le hx with h | h
  · exact le_of_lt (toDouble_pos x h)
  · rw [← h, toDouble_zero]

/-- Rounding to the nearest double is monotone (on the non-negative rationals). -/
theorem toDouble_mono (x y : ℚ) (hx : 0 ≤ x) (hxy : x ≤ y) : toDouble x ≤ toDouble y := by
  rcases lt_or_eq_of_le hx with hx0 | hx0
  swap
  · rw [← hx0, toDouble_zero]
    exact toDouble_nonneg y (hx0 ▸ hxy)
  have hy0 : 0 < y := lt_of_lt_of_le hx0 hxy
  obtain ⟨ex1, ex2⟩ := binaryExponent_spec x (ne_of_gt hx0)
  obtain ⟨ey1, ey2⟩ := binaryExponent_spec y (ne_of_gt hy0)
  rw [abs_of_pos hx0] at ex1 ex2
  rw [abs_of_pos hy0] at ey1 ey2
  have hE : binaryExponent x ≤ binaryExponent y := by
    have h := lt_of_le_of_lt (le_trans ex1 hxy) ey2
    have := (zpow_lt_zpow_iff_right₀ (by norm_num : (1 : ℚ) < 2)).mp h
    omega
  rcases lt_or_eq_of_le hE with hlt | heq
  · have h1 := (toDouble_binade x hx0).2
    have h2 := (toDouble_binade y hy0).1
    have h3 : (2 : ℚ) ^ (binaryExponent x + 1) ≤ (2 : ℚ) ^ binaryExponent y :=
      (zpow_le_zpow_iff_right₀ (by norm_num : (1 : ℚ) < 2)).mpr (by omega)
    linarith
  · unfold toDouble
    rw [if_neg (ne_of_gt hx0), if_neg (ne_of_gt hy0), heq]
    have hpos := two_zpow_pos (binaryExponent y - 52)
    apply mul_le_mul_of_nonneg_right _ (le_of_lt hpos)
    have : x / (2 : ℚ) ^ (binaryExponent y - 52) ≤ y / (2 : ℚ) ^ (binaryExponent y - 52) :=
      div_le_div_of_nonneg_right hxy (le_of_lt hpos)
    exact_mod_cast roundHalfEven_mono this

/-- A double is its own nearest double. -/
theorem toDouble_idem (x : ℚ) (hx : 0 ≤ x) : toDouble (toDouble x) = toDouble x := by
  rcases lt_or_eq_of_le hx with hx0 | hx0
  swap
  · rw [← hx0, toDouble_zero, toDouble_zero]
  obtain ⟨b1, b2⟩ := toDouble_binade x hx0
  have hfpos := toDouble_pos x hx0
  generalize hE : binaryExponent x = E at *
  have hval : toDouble x =
      (roundHalfEven (x / (2 : ℚ) ^ (E - 52)) : ℚ) * (2 : ℚ) ^ (E - 52) := by
    unfold toDouble
    rw [if_neg (ne_of_gt hx0), hE]
  generalize hm : roundHalfEven (x / (2 : ℚ) ^ (E - 52)) = m at *
  rcases lt_or_eq_of_le b2 with hlt | heq
  · have hE' : binaryExponent (toDouble x) = E :=
      binaryExponent_unique _ _ (by rw [abs_of_pos hfpos]; exact b1)
        (by rw [abs_of_pos hfpos]; exact hlt)
    rw [toDouble_of_ne (toDouble x) (ne_of_gt hfpos), hE']
    have : toDouble x / (2 : ℚ) ^ (E - 52) = (m : ℚ) := by
      rw [hval, mul_div_assoc, div_self (two_zpow_ne _), mul_one]
    rw [this, roundHalfEven_intCast, hval]
  · have hE' : binaryExponent (toDouble x) = E + 1 :=
      binaryExponent_unique _ _ (by rw [abs_of_pos hfpos, heq])
        (by rw [abs_of_pos hfpos, heq]
            exact (zpow_lt_zpow_iff_right₀ (by norm_num : (1 : ℚ) < 2)).mpr (by omega))
    rw [toDouble_of_ne (toDouble x) (ne_of_gt hfpos), hE']
    have : toDouble x / (2 : ℚ) ^ (E + 1 - 52) = (((2 : Int) ^ 52 : Int) : ℚ) := by
      rw [heq, ← zpow_sub₀ (by norm_num : (2 : ℚ) ≠ 0)]
      rw [show E + 1 - (E + 1 - 52) = (52 : ℤ) by ring]
      norm_num
    rw [this, roundHalfEven_intCast, heq]
    calc (((2 : Int) ^ 52 : Int) : ℚ) * (2 : ℚ) ^ (E + 1 - 52)
        = (2 : ℚ) ^ (52 : ℤ) * (2 : ℚ) ^ (E + 1 - 52) := by norm_num
      _ = (2 : ℚ) ^ (E + 1) := by
          rw [← zpow_add₀ (by norm_num : (2 : ℚ) ≠ 0)]; congr 1; ring

/-- Relative error of rounding to the nearest double: at most `2 ^ (-53)`. -/
theorem toDouble_sub_le (x : ℚ) (hx : 0 ≤ x) : |toDouble x - x| ≤ x / 2 ^ 53 := by
  rcases lt_or_eq_of_le hx with hx0 | hx0
  swap
  · rw [← hx0, toDouble_zero]; simp
  obtain ⟨h1, _⟩ := binaryExponent_spec x (ne_of_gt hx0)
  rw [abs_of_pos hx0] at h1
  unfold toDouble
  rw [if_neg (ne_of_gt hx0)]
  generalize binaryExponent x = E at *
  have hpos := two_zpow_pos (E - 52)
  have hr := roundHalfEven_sub_le (x / (2 : ℚ) ^ (E - 52))
  have hx' : x = x / (2 : ℚ) ^ (E - 52) * (2 : ℚ) ^ (E - 52) := by
    rw [div_mul_cancel₀ _ (two_zpow_ne _)]
  have : (roundHalfEven (x / (2 : ℚ) ^ (E - 52)) : ℚ) * (2 : ℚ) ^ (E - 52) - x =
      ((roundHalfEven (x / (2 : ℚ) ^ (E - 52)) : ℚ) - x / (2 : ℚ) ^ (E - 52)) *
        (2 : ℚ) ^ (E - 52) := by
    rw [sub_mul, ← hx']
  rw [this, abs_mul, abs_of_pos hpos]
  calc _ ≤ 1 / 2 * (2 : ℚ) ^ (E - 52) := mul_le_mul_of_nonneg_right hr (le_of_lt hpos)
    _ = (2 : ℚ) ^ E / 2 ^ 53 := by
        rw [show E - 52 = E + (-52) by ring, zpow_add₀ (by norm_num : (2 : ℚ) ≠ 0)]
        norm_num
        ring
    _ ≤ x / 2 ^ 53 := div_le_div_of_nonneg_right h1 (by norm_num)

theorem toDouble_one : toDouble 1 = 1 := by decide!

theorem toDouble_two : toDouble 2 = 2 := by decide!

theorem toDouble_three : toDouble 3 = 3 := by decide!

theorem toDouble_five : toDouble 5 = 5 := by decide!

/-- Rounding stays below a double that bounds the argument. -/
theorem toDouble_le (x c : ℚ) (hx : 0 ≤ x) (hxc : x ≤ c) (hc : toDouble c = c) :
    toDouble x ≤ c := by
  rw [← hc]
  exact toDouble_mono x c hx hxc

/-- A conditional `score += v` keeps a non-negative score non-negative. -/
theorem addScore_nonneg (c : Prop) [Decidable c] (score v : ℚ) (hs : 0 ≤ score)
    (hv : 0 ≤ v) : 0 ≤ (if c then toDouble (score + v) else score) := by
  split_ifs
  · exact toDouble_nonneg _ (add_nonneg hs hv)
  · exact hs

/-! ## Lemmas: the stable sort -/

theorem sortInsert_perm {α : Type} (cmp : α → α → Int) (x : α) (l : List α) :
    (sortInsert cmp x l).Perm (x :: l) := by
  induction l with
  | nil => exact List.Perm.refl _
  | cons y ys ih =>
    unfold sortInsert
    split
    · exact List.Perm.refl _
    · exact (List.Perm.cons y ih).trans (List.Perm.swap x y ys)

theorem jsSort_perm {α : Type} (cmp : α → α → Int) (l : List α) :
    (jsSort cmp l).Perm l := by
  induction l with
  | nil => exact List.Perm.refl _
  | cons x xs ih =>
    unfold jsSort
    exact (sortInsert_perm cmp x _).trans (List.Perm.cons x ih)

theorem mem_jsSort {α : Type} (cmp : α → α → Int) (l : List α) (a : α) :
    a ∈ jsSort cmp l ↔ a ∈ l :=
  (jsSort_perm cmp l).mem_iff

theorem sortInsert_pairwise {α : Type} (cmp : α → α → Int)
    (htot : ∀ a b, cmp a b ≤ 0 ∨ cmp b a ≤ 0)
    (htr : ∀ a b c, cmp a b ≤ 0 → cmp b c ≤ 0 → cmp a c ≤ 0) (x : α) (l : List α)
    (hl : l.Pairwise (fun a b => cmp a b ≤ 0)) :
    (sortInsert cmp x l).Pairwise (fun a b => cmp a b ≤ 0) := by
  induction l with
  | nil => simp [sortInsert]
  | cons y ys ih =>
    rw [List.pairwise_cons] at hl
    unfold sortInsert
    split
    · rename_i hxy
      refine List.pairwise_cons.mpr ⟨?_, List.pairwise_cons.mpr hl⟩
      intro z hz
      rcases List.mem_cons.mp hz with rfl | hz
      · exact hxy
      · exact htr _ _ _ hxy (hl.1 z hz)
    · rename_i hxy
      refine List.pairwise_cons.mpr ⟨?_, ih hl.2⟩
      intro z hz
      rcases List.mem_cons.mp ((sortInsert_perm cmp x ys).mem_iff.mp hz) with rfl | hz
      · exact (htot _ _).resolve_left hxy
      · exact hl.1 z hz

theorem jsSort_pairwise {α : Type} (cmp : α → α → Int)
    (htot : ∀ a b, cmp a b ≤ 0 ∨ cmp b a ≤ 0)
    (htr : ∀ a b c, cmp a b ≤ 0 → cmp b c ≤ 0 → cmp a c ≤ 0) (l : List α) :
    (jsSort cmp l).Pairwise (fun a b => cmp a b ≤ 0) := by
  induction l with
  | nil => simp [jsSort]
  | cons x xs ih =>
    unfold jsSort
    exact sortInsert_pairwise cmp htot htr x _ ih

theorem jsSort_itemCompare_sorted (l : List ScheduleItem) :
    (jsSort itemCompare l).Pairwise (fun a b => a.startTime ≤ b.startTime) := by
  have h := jsSort_pairwise itemCompare
    (fun a b => by unfold itemCompare; omega)
    (fun a b c => by unfold itemCompare; omega) l
  refine h.imp ?_
  intro a b hab
  unfold itemCompare at hab
  omega

/-! ## Lemmas: the slot grid -/

/-- The budget of `buildSlots` is never exhausted: once the budget covers the
measure, one more iteration of budget changes nothing, so the loop has stopped on its
guard. -/
theorem slotLoop_succ_of_budget (date : Int) (peakTime : String) (bedHour bedMin : Nat) :
    ∀ (fuel currentHour currentMin : Nat),
      slotMeasure bedHour currentHour currentMin ≤ fuel →
      slotLoop date peakTime bedHour bedMin (fuel + 1) currentHour currentMin =
        slotLoop date peakTime bedHour bedMin fuel currentHour currentMin := by
  intro fuel
  induction fuel with
  | zero =>
    intro h m hμ
    have hg : ¬ (h < bedHour ∨ (h = bedHour ∧ m < bedMin)) := by
      unfold slotMeasure at hμ
      split at hμ <;> omega
    simp [slotLoop, hg]
  | succ fuel ih =>
    intro h m hμ
    rw [slotLoop]
    conv_rhs => rw [slotLoop]
    by_cases hg : h < bedHour ∨ (h = bedHour ∧ m < bedMin)
    · rw [if_pos hg, if_pos hg]
      by_cases hm : m + 30 ≥ 60
      · rw [if_pos hm, if_pos hm, ih]
        unfold slotMeasure at hμ ⊢
        split at hμ <;> simp <;> omega
      · rw [if_neg hm, if_neg hm, ih]
        unfold slotMeasure at hμ ⊢
        split at hμ <;> split <;> omega
    · rw [if_neg hg, if_neg hg]

/-- The loop unfolds as the source `while` does, whatever budget above the measure
it is given. -/
theorem slotLoop_unfold (date : Int) (peakTime : String) (bedHour bedMin : Nat)
    (fuel currentHour currentMin : Nat)
    (hfuel : slotMeasure bedHour currentHour currentMin ≤ fuel) :
    slotLoop date peakTime bedHour bedMin fuel currentHour currentMin =
      if currentHour < bedHour ∨ (currentHour = bedHour ∧ currentMin < bedMin) then
        { start := setHours date currentHour currentMin,
          end_ := addMinutes (setHours date currentHour currentMin) 30,
          occupied := false, energyLevel := getEnergyLevel currentHour peakTime } ::
          (if currentMin + 30 ≥ 60 then
            slotLoop date peakTime bedHour bedMin fuel (currentHour + 1) 0
           else slotLoop date peakTime bedHour bedMin fuel currentHour (currentMin + 30))
      else [] := by
  rw [← slotLoop_succ_of_budget date peakTime bedHour bedMin fuel currentHour currentMin hfuel]
  rw [slotLoop]

theorem buildSlots_budget (profile : Profile) :
    slotMeasure (bedOf profile).hour (wakeOf profile).hour (wakeOf profile).minute ≤
      slotBudget (wakeOf profile).hour (bedOf profile).hour := by
  unfold slotMeasure slotBudget
  omega

theorem markLunch_length (date : Int) (slots : List Slot) :
    (markLunch date slots).length = slots.length := by
  simp [markLunch]

theorem markLunch_map_start (date : Int) (slots : List Slot) :
    (markLunch date slots).map Slot.start = slots.map Slot.start := by
  unfold markLunch
  rw [List.map_map]
  apply List.map_congr_left
  intro s _
  simp only [Function.comp]
  split <;> rfl

/-! ## Lemmas: reads inside the placement loop never miss -/

theorem allAvailable_isSome (slots : List Slot) :
    ∀ (count k : Nat), k + count ≤ slots.length → ∃ b, allAvailable slots k count = some b := by
  intro count
  induction count with
  | zero => intro k _; exact ⟨true, rfl⟩
  | succ count ih =>
    intro k hk
    have hlt : k < slots.length := by omega
    unfold allAvailable
    rw [List.getElem?_eq_getElem hlt]
    simp only
    split
    · exact ⟨false, rfl⟩
    · exact ih (k + 1) (by omega)

theorem allAvailable_true_free (slots : List Slot) :
    ∀ (count k : Nat), allAvailable slots k count = some true →
      ∀ j, k ≤ j → j < k + count → ∃ s, slots[j]? = some s ∧ s.occupied = false := by
  intro count
  induction count with
  | zero => intro k _ j h1 h2; omega
  | succ count ih =>
    intro k h j h1 h2
    unfold allAvailable at h
    split at h
    · exact absurd h (by simp)
    · rename_i slot hslot
      split at h
      · exact absurd h (by simp)
      · rename_i hocc
        by_cases hj : j = k
        · subst hj
          exact ⟨slot, hslot, by simpa using hocc⟩
        · exact ih (k + 1) h j (by omega) (by omega)

theorem slotScore_isSome (task : Task) (slots : List Slot) (i : Nat) (hi : i < slots.length) :
    ∃ score, slotScore task slots i = some score := by
  unfold slotScore
  rw [List.getElem?_eq_getElem hi]
  exact ⟨_, rfl⟩

/-- What the window scan returns: the initial index, or a start index of the scanned
list whose window is free. -/
theorem scanWindows_result (task : Task) (slots : List Slot) (slotsNeeded : Nat) :
    ∀ (indices : List Nat) (best : Option Nat × ℚ) (result : Option Nat × ℚ),
      scanWindows task slots slotsNeeded indices best = some result →
      result.1 = best.1 ∨
        ∃ i ∈ indices, result.1 = some i ∧ allAvailable slots i slotsNeeded = some true := by
  intro indices
  induction indices with
  | nil =>
    intro best result h
    simp only [scanWindows, Option.some.injEq] at h
    exact Or.inl (by rw [h])
  | cons i rest ih =>
    intro best result h
    obtain ⟨bestSlotIndex, bestScore⟩ := best
    unfold scanWindows at h
    split at h
    · exact absurd h (by simp)
    · rcases ih _ _ h with h1 | ⟨k, hk, h1, h2⟩
      · exact Or.inl h1
      · exact Or.inr ⟨k, List.mem_cons_of_mem _ hk, h1, h2⟩
    · rename_i havail
      split at h
      · exact absurd h (by simp)
      · split at h
        · rcases ih _ _ h with h1 | ⟨k, hk, h1, h2⟩
          · exact Or.inr ⟨i, List.mem_cons_self _ _, h1, havail⟩
          · exact Or.inr ⟨k, List.mem_cons_of_mem _ hk, h1, h2⟩
        · rcases ih _ _ h with h1 | ⟨k, hk, h1, h2⟩
          · exact Or.inl h1
          · exact Or.inr ⟨k, List.mem_cons_of_mem _ hk, h1, h2⟩

/-- The window scan completes when every scanned window lies inside the grid. -/
theorem scanWindows_isSome (task : Task) (slots : List Slot) (slotsNeeded : Nat) :
    ∀ (indices : List Nat) (best : Option Nat × ℚ),
      (∀ i ∈ indices, i + slotsNeeded ≤ slots.length ∧ i < slots.length) →
      ∃ result, scanWindows task slots slotsNeeded indices best = some result := by
  intro indices
  induction indices with
  | nil => intro best _; exact ⟨best, rfl⟩
  | cons i rest ih =>
    intro best hall
    obtain ⟨bestSlotIndex, bestScore⟩ := best
    have hi := hall i (List.mem_cons_self _ _)
    have hrest : ∀ k ∈ rest, k + slotsNeeded ≤ slots.length ∧ k < slots.length :=
      fun k hk => hall k (List.mem_cons_of_mem _ hk)
    obtain ⟨b, hb⟩ := allAvailable_isSome slots slotsNeeded i hi.1
    obtain ⟨score, hscore⟩ := slotScore_isSome task slots i hi.2
    unfold scanWindows
    rw [hb]
    cases b with
    | false => exact ih _ hrest
    | true =>
      simp only [hscore]
      split
      · exact ih _ hrest
      · exact ih _ hrest

/-- A start index returned by `findBestSlot` heads a free window inside the grid. -/
theorem findBestSlot_some (task : Task) (slots : List Slot) (best : Nat)
    (h : findBestSlot task slots = some (some best)) :
    best + slotsNeededOf task ≤ slots.length ∧
      allAvailable slots best (slotsNeededOf task) = some true := by
  unfold findBestSlot at h
  rw [Option.map_eq_some'] at h
  obtain ⟨result, hres, hfst⟩ := h
  rcases scanWindows_result task slots _ _ _ _ hres with h1 | ⟨i, hi, h1, h2⟩
  · rw [hfst] at h1
    exact absurd h1 (by simp)
  · rw [hfst] at h1
    have : best = i := by simpa using h1
    subst this
    rw [List.mem_range] at hi
    exact ⟨by omega, h2⟩

/-- The scan completes for every task that needs at least one slot. -/
theorem findBestSlot_isSome (task : Task) (slots : List Slot) (hpos : 0 < slotsNeededOf task) :
    ∃ result, findBestSlot task slots = some result := by
  unfold findBestSlot
  obtain ⟨result, hres⟩ := scanWindows_isSome task slots (slotsNeededOf task)
    (List.range (slots.length + 1 - slotsNeededOf task)) (none, -1)
    (fun i hi => by rw [List.mem_range] at hi; omega)
  exact ⟨result.1, by rw [hres]; rfl⟩

theorem slotsNeededOf_pos (task : Task) (h : 0 < task.duration) : 0 < slotsNeededOf task := by
  unfold slotsNeededOf
  omega

/-! ## Lemmas: occupancy marking -/

theorem set_occupied_map_start :
    ∀ (slots : List Slot) (k : Nat) (slot : Slot), slots[k]? = some slot →
      (slots.set k { slot with occupied := true }).map Slot.start = slots.map Slot.start := by
  intro slots
  induction slots with
  | nil => intro k slot h; simp at h
  | cons s rest ih =>
    intro k slot h
    cases k with
    | zero =>
      simp only [List.getElem?_cons_zero, Option.some.injEq] at h
      subst h
      simp
    | succ k =>
      simp only [List.getElem?_cons_succ] at h
      simp only [List.set_cons_succ, List.map_cons, ih k slot h]

theorem set_occupied_freeCount_le :
    ∀ (slots : List Slot) (k : Nat) (slot : Slot),
      freeCount (slots.set k { slot with occupied := true }) ≤ freeCount slots := by
  intro slots
  induction slots with
  | nil => intro k slot; simp
  | cons s rest ih =>
    intro k slot
    cases k with
    | zero =>
      simp only [List.set_cons_zero, freeCount, List.countP_cons]
      simp
    | succ k =>
      have := ih k slot
      simp only [List.set_cons_succ, freeCount, List.countP_cons] at this ⊢
      omega

theorem set_occupied_freeCount_lt :
    ∀ (slots : List Slot) (k : Nat) (slot : Slot), slots[k]? = some slot →
      slot.occupied = false →
      freeCount (slots.set k { slot with occupied := true }) + 1 = freeCount slots := by
  intro slots
  induction slots with
  | nil => intro k slot h; simp at h
  | cons s rest ih =>
    intro k slot h hfree
    cases k with
    | zero =>
      simp only [List.getElem?_cons_zero, Option.some.injEq] at h
      subst h
      simp [freeCount, List.countP_cons, hfree]
    | succ k =>
      simp only [List.getElem?_cons_succ] at h
      have := ih k slot h hfree
      simp only [List.set_cons_succ, freeCount, List.countP_cons] at this ⊢
      omega

theorem markOccupied_isSome :
    ∀ (count : Nat) (slots : List Slot) (k : Nat), k + count ≤ slots.length →
      ∃ marked, markOccupied slots k count = some marked := by
  intro count
  induction count with
  | zero => intro slots k _; exact ⟨slots, rfl⟩
  | succ count ih =>
    intro slots k hk
    have hlt : k < slots.length := by omega
    unfold markOccupied
    rw [List.getElem?_eq_getElem hlt]
    exact ih _ (k + 1) (by rw [List.length_set]; omega)

theorem markOccupied_map_start :
    ∀ (count : Nat) (slots : List Slot) (k : Nat) (marked : List Slot),
      markOccupied slots k count = some marked →
      marked.map Slot.start = slots.map Slot.start := by
  intro count
  induction count with
  | zero =>
    intro slots k marked h
    simp only [markOccupied, Option.some.injEq] at h
    rw [h]
  | succ count ih =>
    intro slots k marked h
    unfold markOccupied at h
    split at h
    · exact absurd h (by simp)
    · rename_i slot hslot
      rw [ih _ _ _ h, set_occupied_map_start slots k slot hslot]

theorem markOccupied_freeCount_le :
    ∀ (count : Nat) (slots : List Slot) (k : Nat) (marked : List Slot),
      markOccupied slots k count = some marked → freeCount marked ≤ freeCount slots := by
  intro count
  induction count with
  | zero =>
    intro slots k marked h
    simp only [markOccupied, Option.some.injEq] at h
    rw [h]
  | succ count ih =>
    intro slots k marked h
    unfold markOccupied at h
    split at h
    · exact absurd h (by simp)
    · rename_i slot hslot
      exact (ih _ _ _ h).trans (set_occupied_freeCount_le slots k slot)

theorem markOccupied_freeCount_lt (count : Nat) (slots : List Slot) (k : Nat)
    (marked : List Slot) (hcount : 0 < count)
    (hfree : ∃ s, slots[k]? = some s ∧ s.occupied = false)
    (h : markOccupied slots k count = some marked) :
    freeCount marked + 1 ≤ freeCount slots := by
  obtain ⟨c, rfl⟩ : ∃ c, count = c + 1 := ⟨count - 1, by omega⟩
  obtain ⟨s, hs, hsfree⟩ := hfree
  unfold markOccupied at h
  rw [hs] at h
  simp only at h
  have h1 := markOccupied_freeCount_le _ _ _ _ h
  have h2 := set_occupied_freeCount_lt slots k s hs hsfree
  omega

theorem map_start_length {a b : List Slot} (h : a.map Slot.start = b.map Slot.start) :
    a.length = b.length := by
  have := congrArg List.length h
  simpa using this

/-! ## Lemmas: one iteration of the task loop -/

/-- The scan throws when some scanned window is free but its first slot is missing. -/
theorem scanWindows_none (task : Task) (slots : List Slot) (slotsNeeded : Nat) :
    ∀ (indices : List Nat) (best : Option Nat × ℚ),
      (∃ i ∈ indices, allAvailable slots i slotsNeeded = some true ∧
        slotScore task slots i = none) →
      scanWindows task slots slotsNeeded indices best = none := by
  intro indices
  induction indices with
  | nil => intro best h; obtain ⟨i, hi, _⟩ := h; simp at hi
  | cons j rest ih =>
    intro best h
    obtain ⟨bestSlotIndex, bestScore⟩ := best
    obtain ⟨i, hi, hav, hsc⟩ := h
    unfold scanWindows
    split
    · rfl
    · rename_i hj
      rcases List.mem_cons.mp hi with rfl | hi
      · rw [hav] at hj; exact absurd hj (by simp)
      · exact ih _ ⟨i, hi, hav, hsc⟩
    · split
      · rfl
      · rename_i score hj
        have hrest : i ∈ rest := by
          rcases List.mem_cons.mp hi with rfl | hi
          · rw [hsc] at hj; exact absurd hj (by simp)
          · exact hi
        split
        · exact ih _ ⟨i, hrest, hav, hsc⟩
        · exact ih _ ⟨i, hrest, hav, hsc⟩

/-- A task that needs no slot (duration 0) makes the scan read `slots[slots.length]`,
which throws. -/
theorem findBestSlot_zero (task : Task) (slots : List Slot) (h : slotsNeededOf task = 0) :
    findBestSlot task slots = none := by
  unfold findBestSlot
  rw [scanWindows_none task slots _ _ _ ⟨slots.length, ?_, ?_, ?_⟩]
  · rfl
  · rw [List.mem_range, h]; omega
  · rw [h]; rfl
  · unfold slotScore
    rw [List.getElem?_eq_none (Nat.le_refl _)]

/-- Effect of one iteration of the task loop. -/
theorem placeTask_spec (slots slots' : List Slot) (items items' : List ScheduleItem)
    (task : Task) (h : placeTask (slots, items) task = some (slots', items')) :
    slots'.map Slot.start = slots.map Slot.start ∧
    ((slots' = slots ∧ items' = items) ∨
      ∃ best s, PlacedAt (slots.map Slot.start) task best s ∧
        freeCount slots' + 1 ≤ freeCount slots ∧
        (items' = items ++ [taskItem task s] ∨
          (isIntensiveOf task = true ∧ 60 ≤ task.duration ∧
            items' = items ++ [taskItem task s, breakItem (addMinutes s task.duration)]))) := by
  have hpos : 0 < slotsNeededOf task := by
    by_contra hc
    have hz : slotsNeededOf task = 0 := by omega
    unfold placeTask at h
    simp only [findBestSlot_zero task slots hz] at h
    exact absurd h (by simp)
  unfold placeTask at h
  simp only at h
  split at h
  · exact absurd h (by simp)
  · simp only [Option.some.injEq, Prod.mk.injEq] at h
    obtain ⟨h1, h2⟩ := h
    subst h1 h2
    exact ⟨rfl, Or.inl ⟨rfl, rfl⟩⟩
  · rename_i best hbest
    obtain ⟨hbound, havail⟩ := findBestSlot_some task slots best hbest
    split at h
    · exact absurd h (by simp)
    · rename_i marked hmarked
      have hstart := markOccupied_map_start _ _ _ _ hmarked
      have hlen := map_start_length hstart
      have hfree := markOccupied_freeCount_lt _ slots best marked hpos
        (allAvailable_true_free slots _ best havail best (Nat.le_refl _) (by omega)) hmarked
      split at h
      · exact absurd h (by simp)
      · rename_i first hfirst
        have hplaced : PlacedAt (slots.map Slot.start) task best first.start := by
          refine ⟨hpos, by simpa using hbound, ?_⟩
          rw [← hstart, List.getElem?_map, hfirst]
          rfl
        split at h
        · rename_i hint
          split at h
          · rename_i breakSlot hbreak
            split at h
            · simp only [Option.some.injEq, Prod.mk.injEq] at h
              obtain ⟨h1, h2⟩ := h
              subst h1 h2
              have hbs : marked[best + slotsNeededOf task]? = some breakSlot := by
                split at hbreak
                · exact hbreak
                · exact absurd hbreak (by simp)
              refine ⟨?_, Or.inr ⟨best, first.start, hplaced, ?_, Or.inr ⟨hint.1, hint.2, ?_⟩⟩⟩
              · rw [set_occupied_map_start marked _ breakSlot hbs, hstart]
              · have := set_occupied_freeCount_le marked (best + slotsNeededOf task) breakSlot
                omega
              · simp
            · simp only [Option.some.injEq, Prod.mk.injEq] at h
              obtain ⟨h1, h2⟩ := h
              subst h1 h2
              exact ⟨hstart, Or.inr ⟨best, first.start, hplaced, hfree, Or.inl rfl⟩⟩
          · simp only [Option.some.injEq, Prod.mk.injEq] at h
            obtain ⟨h1, h2⟩ := h
            subst h1 h2
            exact ⟨hstart, Or.inr ⟨best, first.start, hplaced, hfree, Or.inl rfl⟩⟩
        · simp only [Option.some.injEq, Prod.mk.injEq] at h
          obtain ⟨h1, h2⟩ := h
          subst h1 h2
          exact ⟨hstart, Or.inr ⟨best, first.start, hplaced, hfree, Or.inl rfl⟩⟩

/-- One iteration of the task loop completes for a task of positive duration. -/
theorem placeTask_isSome (state : List Slot × List ScheduleItem) (task : Task)
    (hpos : 0 < task.duration) : ∃ state', placeTask state task = some state' := by
  obtain ⟨slots, items⟩ := state
  obtain ⟨result, hres⟩ := findBestSlot_isSome task slots (slotsNeededOf_pos task hpos)
  unfold placeTask
  simp only [hres]
  cases result with
  | none => exact ⟨_, rfl⟩
  | some best =>
    obtain ⟨hbound, _⟩ := findBestSlot_some task slots best hres
    obtain ⟨marked, hmarked⟩ := markOccupied_isSome _ slots best hbound
    have hlen := map_start_length (markOccupied_map_start _ _ _ _ hmarked)
    have hlt : best < marked.length := by
      have := slotsNeededOf_pos task hpos
      omega
    simp only [hmarked, List.getElem?_eq_getElem hlt]
    split
    · split
      · split
        · exact ⟨_, rfl⟩
        · exact ⟨_, rfl⟩
      · exact ⟨_, rfl⟩
    · exact ⟨_, rfl⟩

/-! ## Lemmas: the whole task loop -/

theorem ItemFrom.mono {starts : List Int} {ts ts' : List Task} {it : ScheduleItem}
    (h : ItemFrom starts ts it) (hsub : ∀ t ∈ ts, t ∈ ts') : ItemFrom starts ts' it := by
  obtain ⟨t, ht, rest⟩ := h
  exact ⟨t, hsub t ht, rest⟩

theorem taskCount_append (a b : List ScheduleItem) :
    taskCount (a ++ b) = taskCount a + taskCount b := by
  simp [taskCount, List.countP_append]

theorem taskCount_taskItem (task : Task) (s : Int) : taskCount [taskItem task s] = 1 := by
  simp [taskCount, taskItem]

theorem taskCount_task_break (task : Task) (s b : Int) :
    taskCount [taskItem task s, breakItem b] = 1 := by
  simp [taskCount, taskItem, breakItem, List.countP_cons]

/-- Effect of the task loop: slot starts are untouched, every new item comes from a
placement, and each new TASK item has used up at least one free slot. -/
theorem scheduleTasks_spec :
    ∀ (ts : List Task) (slots slots' : List Slot) (items items' : List ScheduleItem),
      scheduleTasks ts (slots, items) = some (slots', items') →
      slots'.map Slot.start = slots.map Slot.start ∧
      (∀ it ∈ items', it ∈ items ∨ ItemFrom (slots.map Slot.start) ts it) ∧
      taskCount items' + freeCount slots' ≤ taskCount items + freeCount slots := by
  intro ts
  induction ts with
  | nil =>
    intro slots slots' items items' h
    simp only [scheduleTasks, Option.some.injEq, Prod.mk.injEq] at h
    obtain ⟨h1, h2⟩ := h
    subst h1 h2
    exact ⟨rfl, fun it hit => Or.inl hit, Nat.le_refl _⟩
  | cons task rest ih =>
    intro slots slots' items items' h
    unfold scheduleTasks at h
    split at h
    · exact absurd h (by simp)
    · rename_i state hstate
      obtain ⟨slots1, items1⟩ := state
      obtain ⟨hs1, hcase⟩ := placeTask_spec slots slots1 items items1 task hstate
      obtain ⟨hs2, hmem, hcount⟩ := ih slots1 slots' items1 items' h
      refine ⟨hs2.trans hs1, ?_, ?_⟩
      · intro it hit
        rcases hmem it hit with h1 | h1
        · rcases hcase with ⟨_, hi⟩ | ⟨best, s, hp, _, hi | ⟨hint, hdur, hi⟩⟩
          · rw [hi] at h1; exact Or.inl h1
          · rw [hi, List.mem_append, List.mem_singleton] at h1
            rcases h1 with h1 | h1
            · exact Or.inl h1
            · exact Or.inr ⟨task, List.mem_cons_self _ _, best, s, hp, Or.inl h1⟩
          · rw [hi, List.mem_append] at h1
            rcases h1 with h1 | h1
            · exact Or.inl h1
            · simp only [List.mem_cons, List.mem_singleton, List.not_mem_nil, or_false] at h1
              rcases h1 with h1 | h1
              · exact Or.inr ⟨task, List.mem_cons_self _ _, best, s, hp, Or.inl h1⟩
              · exact Or.inr ⟨task, List.mem_cons_self _ _, best, s, hp,
                  Or.inr ⟨hint, hdur, h1⟩⟩
        · rw [hs1] at h1
          exact Or.inr (h1.mono fun t ht => List.mem_cons_of_mem _ ht)
      · rcases hcase with ⟨hsl, hi⟩ | ⟨best, s, _, hfree, hi | ⟨_, _, hi⟩⟩
        · rw [hsl, hi] at hcount; exact hcount
        · rw [hi, taskCount_append, taskCount_taskItem] at hcount
          omega
        · rw [hi, taskCount_append, taskCount_task_break] at hcount
          omega

/-- The task loop completes when every task has a positive duration. -/
theorem scheduleTasks_isSome :
    ∀ (ts : List Task) (state : List Slot × List ScheduleItem),
      (∀ t ∈ ts, 0 < t.duration) → ∃ state', scheduleTasks ts state = some state' := by
  intro ts
  induction ts with
  | nil => intro state _; exact ⟨state, rfl⟩
  | cons task rest ih =>
    intro state hpos
    obtain ⟨state1, h1⟩ := placeTask_isSome state task (hpos task (List.mem_cons_self _ _))
    unfold scheduleTasks
    rw [h1]
    exact ih state1 fun t ht => hpos t (List.mem_cons_of_mem _ ht)

/-- The task loop only completes when every task has a positive duration. -/
theorem scheduleTasks_some_pos :
    ∀ (ts : List Task) (state state' : List Slot × List ScheduleItem),
      scheduleTasks ts state = some state' → ∀ t ∈ ts, 0 < t.duration := by
  intro ts
  induction ts with
  | nil => intro _ _ _ t ht; simp at ht
  | cons task rest ih =>
    intro state state' h t ht
    unfold scheduleTasks at h
    split at h
    · exact absurd h (by simp)
    · rename_i state1 hstate
      rcases List.mem_cons.mp ht with rfl | ht
      · by_contra hc
        have hz : slotsNeededOf t = 0 := by unfold slotsNeededOf; omega
        unfold placeTask at hstate
        simp only [findBestSlot_zero t state.1 hz] at hstate
        exact absurd hstate (by simp)
      · exact ih _ _ h t ht

/-! ## Lemmas: buffer insertion -/

theorem BufferOf.tail {a : ScheduleItem} {l : List ScheduleItem} {x : ScheduleItem}
    (h : BufferOf l x) : BufferOf (a :: l) x := by
  obtain ⟨c, hc, d, hd, h1, h2, h3⟩ := h
  exact ⟨c, List.mem_cons_of_mem _ hc, d, List.mem_cons_of_mem _ hd, h1, h2, h3⟩

theorem mem_addBuffers : ∀ (l : List ScheduleItem) (x : ScheduleItem),
    x ∈ addBuffers l → x ∈ l ∨ BufferOf l x
  | [], x, h => by simp [addBuffers] at h
  | [a], x, h => by
    simp only [addBuffers] at h
    exact Or.inl h
  | a :: b :: rest, x, h => by
    have ih := mem_addBuffers (b :: rest) x
    unfold addBuffers at h
    simp only at h
    split at h
    · rename_i hgap
      rcases List.mem_cons.mp h with rfl | h
      · exact Or.inl (List.mem_cons_self _ _)
      · rcases List.mem_cons.mp h with rfl | h
        · exact Or.inr ⟨a, List.mem_cons_self _ _, b,
            List.mem_cons_of_mem _ (List.mem_cons_self _ _), hgap.1, hgap.2, rfl⟩
        · rcases ih h with h | h
          · exact Or.inl (List.mem_cons_of_mem _ h)
          · exact Or.inr h.tail
    · rcases List.mem_cons.mp h with rfl | h
      · exact Or.inl (List.mem_cons_self _ _)
      · rcases ih h with h | h
        · exact Or.inl (List.mem_cons_of_mem _ h)
        · exact Or.inr h.tail

theorem mem_addBuffers_of_mem : ∀ (l : List ScheduleItem) (x : ScheduleItem),
    x ∈ l → x ∈ addBuffers l
  | [], x, h => by simp at h
  | [a], x, h => by simpa [addBuffers] using h
  | a :: b :: rest, x, h => by
    have ih := mem_addBuffers_of_mem (b :: rest) x
    unfold addBuffers
    simp only
    rcases List.mem_cons.mp h with rfl | h
    · split <;> exact List.mem_cons_self _ _
    · split
      · exact List.mem_cons_of_mem _ (List.mem_cons_of_mem _ (ih h))
      · exact List.mem_cons_of_mem _ (ih h)

/-- Every item after buffer insertion starts no earlier than some item of the input. -/
theorem addBuffers_start_ge (l : List ScheduleItem)
    (hle : ∀ x ∈ l, x.startTime ≤ x.endTime) (z : ScheduleItem) (hz : z ∈ addBuffers l) :
    ∃ a ∈ l, a.startTime ≤ z.startTime := by
  rcases mem_addBuffers l z hz with h | ⟨a, ha, b, _, _, _, hx⟩
  · exact ⟨z, h, le_refl _⟩
  · refine ⟨a, ha, ?_⟩
    rw [hx]
    exact hle a ha

/-- Buffer insertion keeps a list ordered by start time. -/
theorem addBuffers_sorted : ∀ (l : List ScheduleItem),
    (∀ x ∈ l, x.startTime ≤ x.endTime) →
    l.Pairwise (fun a b => a.startTime ≤ b.startTime) →
    (addBuffers l).Pairwise (fun a b => a.startTime ≤ b.startTime)
  | [], _, _ => by simp [addBuffers]
  | [a], _, _ => by simp [addBuffers]
  | a :: b :: rest, hle, hs => by
    have hle' : ∀ x ∈ b :: rest, x.startTime ≤ x.endTime :=
      fun x hx => hle x (List.mem_cons_of_mem _ hx)
    rw [List.pairwise_cons] at hs
    have ih := addBuffers_sorted (b :: rest) hle' hs.2
    have hb : ∀ z ∈ addBuffers (b :: rest), b.startTime ≤ z.startTime := by
      intro z hz
      obtain ⟨c, hc, hcz⟩ := addBuffers_start_ge (b :: rest) hle' z hz
      rcases List.mem_cons.mp hc with rfl | hc
      · exact hcz
      · exact le_trans ((List.pairwise_cons.mp hs.2).1 c hc) hcz
    have hab : a.startTime ≤ b.startTime := hs.1 b (List.mem_cons_self _ _)
    have ha : ∀ z ∈ addBuffers (b :: rest), a.startTime ≤ z.startTime :=
      fun z hz => le_trans hab (hb z hz)
    unfold addBuffers
    simp only
    split
    · rename_i hgap
      have haa := hle a (List.mem_cons_self _ _)
      refine List.pairwise_cons.mpr ⟨?_, List.pairwise_cons.mpr ⟨?_, ih⟩⟩
      · intro z hz
        rcases List.mem_cons.mp hz with rfl | hz
        · exact haa
        · exact ha z hz
      · intro z hz
        have := hb z hz
        simp only [bufferItem]
        omega
    · exact List.pairwise_cons.mpr ⟨ha, ih⟩

/-! ## Lemmas: the scheduler as a whole -/

/-- Shape of a completed run: the task loop completed from the lunch state and the
output is the buffered, sorted item list. -/
theorem optimizeSchedule_some (tasks : List Task) (profile : Profile) (date : Int)
    (out : List ScheduleItem) (h : optimizeSchedule tasks profile date = some out) :
    ∃ slots items,
      scheduleTasks (jsSort taskCompare tasks)
        (markLunch date (buildSlots profile date), [lunchItem date]) = some (slots, items) ∧
      out = addBuffers (jsSort itemCompare items) := by
  unfold optimizeSchedule at h
  simp only at h
  split at h
  · exact absurd h (by simp)
  · rename_i slots items hrun
    exact ⟨slots, items, hrun, by simpa using h.symm⟩

/-- The scheduler returns a list when every task has a positive duration. -/
theorem optimizeSchedule_isSome (tasks : List Task) (profile : Profile) (date : Int)
    (hpos : ∀ t ∈ tasks, 0 < t.duration) :
    ∃ out, optimizeSchedule tasks profile date = some out := by
  obtain ⟨state, hstate⟩ := scheduleTasks_isSome (jsSort taskCompare tasks)
    (markLunch date (buildSlots profile date), [lunchItem date])
    (fun t ht => hpos t ((mem_jsSort taskCompare tasks t).mp ht))
  unfold optimizeSchedule
  simp only [hstate]
  exact ⟨_, rfl⟩

/-- Items before buffer insertion: the lunch item or an item coming from a placement. -/
theorem scheduled_items (tasks : List Task) (profile : Profile) (date : Int)
    (slots : List Slot) (items : List ScheduleItem)
    (h : scheduleTasks (jsSort taskCompare tasks)
      (markLunch date (buildSlots profile date), [lunchItem date]) = some (slots, items)) :
    ∀ it ∈ items, it = lunchItem date ∨
      ItemFrom ((buildSlots profile date).map Slot.start) tasks it := by
  intro it hit
  obtain ⟨_, hmem, _⟩ := scheduleTasks_spec _ _ _ _ _ h
  rcases hmem it hit with h1 | h1
  · exact Or.inl (List.mem_singleton.mp h1)
  · rw [markLunch_map_start] at h1
    exact Or.inr (h1.mono fun t ht => (mem_jsSort taskCompare tasks t).mp ht)

theorem lunchItem_start_lt_end (date : Int) :
    (lunchItem date).startTime < (lunchItem date).endTime := by
  simp only [lunchItem, setHours, msPerMinute]
  omega

/-- Items pushed by the task loop, and the lunch item, start strictly before they end. -/
theorem scheduled_start_lt_end (date : Int) (starts : List Int) (tasks : List Task)
    (it : ScheduleItem) (h : it = lunchItem date ∨ ItemFrom starts tasks it) :
    it.startTime < it.endTime := by
  rcases h with rfl | ⟨t, _, best, s, ⟨hpos, _, _⟩, rfl | ⟨_, _, rfl⟩⟩
  · exact lunchItem_start_lt_end date
  · simp only [taskItem, addMinutes, msPerMinute]
    unfold slotsNeededOf at hpos
    omega
  · simp only [breakItem, addMinutes, msPerMinute]
    omega

theorem taskCount_addBuffers : ∀ (l : List ScheduleItem),
    taskCount (addBuffers l) = taskCount l
  | [] => rfl
  | [_] => rfl
  | a :: b :: rest => by
    have ih := taskCount_addBuffers (b :: rest)
    unfold addBuffers
    simp only
    split
    · simp only [taskCount, List.countP_cons, bufferItem] at ih ⊢
      simp only [ih]
      simp
    · simp only [taskCount, List.countP_cons] at ih ⊢
      rw [ih]

theorem taskCount_jsSort (cmp : ScheduleItem → ScheduleItem → Int) (l : List ScheduleItem) :
    taskCount (jsSort cmp l) = taskCount l :=
  (jsSort_perm cmp l).countP_eq _

/-- A task needing more slots than the grid has is skipped and changes nothing. -/
theorem placeTask_oversize (slots : List Slot) (items : List ScheduleItem) (task : Task)
    (h : slots.length < slotsNeededOf task) :
    placeTask (slots, items) task = some (slots, items) := by
  have hr : slots.length + 1 - slotsNeededOf task = 0 := by omega
  unfold placeTask findBestSlot
  simp only [hr, List.range_zero, scanWindows, Option.map_some']

theorem scheduleTasks_oversize (slots : List Slot) (items : List ScheduleItem) :
    ∀ (ts : List Task), (∀ t ∈ ts, slots.length < slotsNeededOf t) →
      scheduleTasks ts (slots, items) = some (slots, items) := by
  intro ts
  induction ts with
  | nil => intro _; rfl
  | cons task rest ih =>
    intro h
    unfold scheduleTasks
    rw [placeTask_oversize slots items task (h task (List.mem_cons_self _ _))]
    exact ih fun t ht => h t (List.mem_cons_of_mem _ ht)

/-- More budget than `buildSlots` uses never changes the grid. -/
theorem slotLoop_add_budget (date : Int) (peakTime : String)
    (bedHour bedMin fuel currentHour currentMin : Nat)
    (hfuel : slotMeasure bedHour currentHour currentMin ≤ fuel) (extra : Nat) :
    slotLoop date peakTime bedHour bedMin (fuel + extra) currentHour currentMin =
      slotLoop date peakTime bedHour bedMin fuel currentHour currentMin := by
  induction extra with
  | zero => rfl
  | succ extra ih =>
    rw [← Nat.add_assoc, slotLoop_succ_of_budget _ _ _ _ _ _ _ (by omega), ih]

/-! ## Claims about optimizeSchedule -/

/-- C2: for a task list with positive durations, any profile and any date, `optimizeSchedule`
returns a list ordered by `startTime`, the inserted BUFFER items included: every item
starts no later than every item after it (in particular the next one). -/
theorem optimizeSchedule_sorted_by_startTime (tasks : List Task) (profile : Profile)
    (date : Int) (hpos : ∀ t ∈ tasks, 0 < t.duration) :
    ∃ out, optimizeSchedule tasks profile date = some out ∧
      out.Pairwise (fun a b => a.startTime ≤ b.startTime) := by
  obtain ⟨out, hout⟩ := optimizeSchedule_isSome tasks profile date hpos
  obtain ⟨slots, items, hrun, rfl⟩ := optimizeSchedule_some tasks profile date out hout
  refine ⟨_, hout, addBuffers_sorted _ ?_ (jsSort_itemCompare_sorted items)⟩
  intro x hx
  rw [mem_jsSort] at hx
  exact le_of_lt (scheduled_start_lt_end date _ tasks x
    (scheduled_items tasks profile date slots items hrun x hx))

theorem optimizeSchedule_sorted_by_startTime_witness :
    (∀ t ∈ [reading, deepWork], 0 < t.duration) ∧
      ∃ out, optimizeSchedule [reading, deepWork] seedProfile 0 = some out ∧
        out.Pairwise (fun a b => a.startTime ≤ b.startTime) :=
  ⟨by decide, optimizeSchedule_sorted_by_startTime [reading, deepWork] seedProfile 0 (by decide)⟩

/-- C3: for every profile and date, `optimizeSchedule` with an empty task list returns
exactly one item, the LUNCH item from 12:00 to 13:00 of the target date, wherever the
wake/bed window lies. -/
theorem optimizeSchedule_no_tasks (profile : Profile) (date : Int) :
    optimizeSchedule [] profile date =
      some [{ title := "Pause déjeuner", type := "LUNCH", startTime := setHours date 12 0,
              endTime := setHours date 13 0, taskId := none, task := none }] := by
  rfl

/-- C4: for a task list with positive durations, every returned item has
`startTime < endTime`; LUNCH, BREAK and BUFFER items have no `taskId`; a TASK item carries
the id of an input task and ends that task's duration (in minutes) after it starts. -/
theorem optimizeSchedule_item_invariants (tasks : List Task) (profile : Profile)
    (date : Int) (hpos : ∀ t ∈ tasks, 0 < t.duration) :
    ∃ out, optimizeSchedule tasks profile date = some out ∧
      ∀ it ∈ out, it.startTime < it.endTime ∧
        (it.type = "LUNCH" ∨ it.type = "BREAK" ∨ it.type = "BUFFER" → it.taskId = none) ∧
        (it.type = "TASK" → ∃ t ∈ tasks, it.taskId = some t.id ∧
          it.endTime = it.startTime + (t.duration : Int) * (60 * 1000)) := by
  obtain ⟨out, hout⟩ := optimizeSchedule_isSome tasks profile date hpos
  obtain ⟨slots, items, hrun, rfl⟩ := optimizeSchedule_some tasks profile date out hout
  refine ⟨_, hout, ?_⟩
  intro it hit
  have hitems := scheduled_items tasks profile date slots items hrun
  rcases mem_addBuffers _ it hit with h | ⟨a, _, b, _, h1, _, rfl⟩
  · rw [mem_jsSort] at h
    refine ⟨scheduled_start_lt_end date _ tasks it (hitems it h), ?_, ?_⟩
    · rcases hitems it h with rfl | ⟨t, _, best, s, _, rfl | ⟨_, _, rfl⟩⟩
      · intro _; rfl
      · intro hty; simp [taskItem] at hty
      · intro _; rfl
    · rcases hitems it h with rfl | ⟨t, ht, best, s, _, rfl | ⟨_, _, rfl⟩⟩
      · intro hty; simp [lunchItem] at hty
      · intro _; exact ⟨t, ht, rfl, rfl⟩
      · intro hty; simp [breakItem] at hty
  · refine ⟨?_, fun _ => rfl, ?_⟩
    · simp only [bufferItem]; omega
    · intro hty; simp [bufferItem] at hty

theorem optimizeSchedule_item_invariants_witness :
    (∀ t ∈ [deepWork, reading], 0 < t.duration) ∧
      ∃ out, optimizeSchedule [deepWork, reading] seedProfile 0 = some out ∧
        ∀ it ∈ out, it.startTime < it.endTime ∧
          (it.type = "LUNCH" ∨ it.type = "BREAK" ∨ it.type = "BUFFER" → it.taskId = none) ∧
          (it.type = "TASK" → ∃ t ∈ [deepWork, reading], it.taskId = some t.id ∧
            it.endTime = it.startTime + (t.duration : Int) * (60 * 1000)) :=
  ⟨by decide, optimizeSchedule_item_invariants [deepWork, reading] seedProfile 0 (by decide)⟩

/-- C6: when every task needs more slots than the day's grid has, the output is the single
LUNCH item; in every completed run no item embeds a task whose `slotsNeeded` exceeds the
number of slots of the grid, and the number of TASK items is at most the number of slots
left unoccupied by the lunch reservation. -/
theorem optimizeSchedule_drops_unplaceable (tasks : List Task) (profile : Profile)
    (date : Int) :
    ((∀ t ∈ tasks, (buildSlots profile date).length < slotsNeededOf t) →
      optimizeSchedule tasks profile date = some [lunchItem date]) ∧
    (∀ out, optimizeSchedule tasks profile date = some out →
      (∀ t ∈ tasks, (buildSlots profile date).length < slotsNeededOf t →
        ∀ it ∈ out, it.task ≠ some t) ∧
      taskCount out ≤ freeCount (markLunch date (buildSlots profile date))) := by
  constructor
  · intro hall
    have hrun := scheduleTasks_oversize (markLunch date (buildSlots profile date))
      [lunchItem date] (jsSort taskCompare tasks) (fun t ht => by
        rw [markLunch_length]
        exact hall t ((mem_jsSort taskCompare tasks t).mp ht))
    unfold optimizeSchedule
    simp only [hrun]
    rfl
  · intro out hout
    obtain ⟨slots, items, hrun, rfl⟩ := optimizeSchedule_some tasks profile date out hout
    have hitems := scheduled_items tasks profile date slots items hrun
    constructor
    · intro t _ hbig it hit
      rcases mem_addBuffers _ it hit with h | ⟨a, _, b, _, _, _, rfl⟩
      · rw [mem_jsSort] at h
        rcases hitems it h with rfl | ⟨t', _, best, s, ⟨_, hfit, _⟩, rfl | ⟨_, _, rfl⟩⟩
        · simp [lunchItem]
        · intro heq
          simp only [taskItem, Option.some.injEq] at heq
          subst heq
          simp only [List.length_map] at hfit
          omega
        · simp [breakItem]
      · simp [bufferItem]
    · obtain ⟨_, _, hcount⟩ := scheduleTasks_spec _ _ _ _ _ hrun
      rw [taskCount_addBuffers, taskCount_jsSort]
      have h0 : taskCount [lunchItem date] = 0 := by simp [taskCount, lunchItem]
      omega

theorem optimizeSchedule_drops_unplaceable_witness :
    optimizeSchedule (List.replicate 10 marathon) shortDay 0 = some [lunchItem 0] ∧
      ∀ out, optimizeSchedule [marathon, reading] shortDay 0 = some out →
        (∀ t ∈ [marathon, reading], (buildSlots shortDay 0).length < slotsNeededOf t →
          ∀ it ∈ out, it.task ≠ some t) ∧
        taskCount out ≤ freeCount (markLunch 0 (buildSlots shortDay 0)) :=
  ⟨(optimizeSchedule_drops_unplaceable (List.replicate 10 marathon) shortDay 0).1 (by decide),
    (optimizeSchedule_drops_unplaceable [marathon, reading] shortDay 0).2⟩

/-- C8: for a task list with positive durations and a profile with whole-number clock
times, the slot loop stops on its guard (a larger iteration budget never changes the
grid) and `optimizeSchedule` returns a list: no slot read of the window scan, the energy
lookup, the occupancy marking or the break-slot check falls outside the grid. -/
theorem optimizeSchedule_never_fails (tasks : List Task) (profile : Profile) (date : Int)
    (hpos : ∀ t ∈ tasks, 0 < t.duration) :
    (∀ extra, slotLoop date profile.energyPeakTime (bedOf profile).hour (bedOf profile).minute
        (slotBudget (wakeOf profile).hour (bedOf profile).hour + extra)
        (wakeOf profile).hour (wakeOf profile).minute = buildSlots profile date) ∧
      ∃ out, optimizeSchedule tasks profile date = some out :=
  ⟨fun extra => slotLoop_add_budget _ _ _ _ _ _ _ (buildSlots_budget profile) extra,
    optimizeSchedule_isSome tasks profile date hpos⟩

theorem optimizeSchedule_never_fails_witness :
    (∀ t ∈ [deepWork, marathon, reading], 0 < t.duration) ∧
      (∀ extra, slotLoop 0 seedProfile.energyPeakTime (bedOf seedProfile).hour
          (bedOf seedProfile).minute
          (slotBudget (wakeOf seedProfile).hour (bedOf seedProfile).hour + extra)
          (wakeOf seedProfile).hour (wakeOf seedProfile).minute = buildSlots seedProfile 0) ∧
        ∃ out, optimizeSchedule [deepWork, marathon, reading] seedProfile 0 = some out :=
  ⟨by decide,
    optimizeSchedule_never_fails [deepWork, marathon, reading] seedProfile 0 (by decide)⟩

/-! ## Lemmas: the grid of a wake time on the half hour -/

/-- When the loop starts on a full or half hour, slot `k` starts `30 * k` minutes after
the first one, and every slot starts strictly before bed time. -/
theorem slotLoop_aligned_start (date : Int) (peakTime : String) (bedHour bedMin : Nat) :
    ∀ (fuel currentHour currentMin : Nat), currentMin = 0 ∨ currentMin = 30 →
      ∀ (k : Nat) (s : Int),
        ((slotLoop date peakTime bedHour bedMin fuel currentHour currentMin).map
          Slot.start)[k]? = some s →
        s = setHours date currentHour currentMin + 30 * (k : Int) * msPerMinute ∧
          s < setHours date bedHour bedMin := by
  intro fuel
  induction fuel with
  | zero => intro h m _ k s hs; simp [slotLoop] at hs
  | succ fuel ih =>
    intro h m hm k s hs
    rw [slotLoop] at hs
    split at hs
    · rename_i hg
      cases k with
      | zero =>
        simp only [List.map_cons, List.getElem?_cons_zero, Option.some.injEq] at hs
        subst hs
        refine ⟨by simp, ?_⟩
        simp only [setHours, msPerMinute]
        omega
      | succ k =>
        simp only [List.map_cons, List.getElem?_cons_succ] at hs
        split at hs
        · obtain ⟨h1, h2⟩ := ih (h + 1) 0 (Or.inl rfl) k s hs
          refine ⟨?_, h2⟩
          rw [h1]
          simp only [setHours, msPerMinute]
          push_cast
          omega
        · obtain ⟨h1, h2⟩ := ih h (m + 30) (by omega) k s hs
          refine ⟨?_, h2⟩
          rw [h1]
          simp only [setHours, msPerMinute]
          push_cast
          omega
    · simp at hs

/-- Time window of a placed task on the grid of a wake time on the half hour. -/
theorem placedAt_window (profile : Profile) (date : Int) (task : Task) (best : Nat) (s : Int)
    (hwake : (wakeOf profile).minute = 0 ∨ (wakeOf profile).minute = 30)
    (hp : PlacedAt ((buildSlots profile date).map Slot.start) task best s) :
    setHours date (wakeOf profile).hour (wakeOf profile).minute ≤ s ∧
      s < setHours date (bedOf profile).hour (bedOf profile).minute ∧
      addMinutes s task.duration <
        setHours date (bedOf profile).hour (bedOf profile).minute + 30 * msPerMinute ∧
      ((bedOf profile).minute = 0 ∨ (bedOf profile).minute = 30 →
        addMinutes s task.duration ≤
          setHours date (bedOf profile).hour (bedOf profile).minute) := by
  obtain ⟨hpos, hfit, hs⟩ := hp
  have hlast : best + slotsNeededOf task - 1 < ((buildSlots profile date).map Slot.start).length :=
    by omega
  obtain ⟨h1, h2⟩ := slotLoop_aligned_start date profile.energyPeakTime (bedOf profile).hour
    (bedOf profile).minute _ _ _ hwake best s hs
  obtain ⟨h3, h4⟩ := slotLoop_aligned_start date profile.energyPeakTime (bedOf profile).hour
    (bedOf profile).minute _ _ _ hwake (best + slotsNeededOf task - 1) _
    (List.getElem?_eq_getElem hlast)
  generalize ((buildSlots profile date).map Slot.start)[best + slotsNeededOf task - 1] = e at h3 h4
  have hcast : ((best + slotsNeededOf task - 1 : Nat) : Int) =
      (best : Int) + (slotsNeededOf task : Int) - 1 := by omega
  rw [hcast] at h3
  have hdur : (task.duration : Int) ≤ 30 * (slotsNeededOf task : Int) := by
    unfold slotsNeededOf
    omega
  simp only [setHours, msPerMinute, addMinutes] at *
  refine ⟨by omega, by omega, by omega, ?_⟩
  intro hbed
  omega

/-! ## Claims about overlaps and the waking window -/

/-- C1, the code at the failing input: with wake 07:45 the grid's first two slots are
07:45-08:15 and 08:00-08:30 (the minute carry of the slot loop restarts at 0), and two
half-hour tasks placed in them overlap from 08:00 to 08:15. -/
theorem optimizeSchedule_overlap_at_lateWake :
    (∀ t ∈ [callA, callB], 0 < t.duration) ∧
    setHours 0 7 45 < setHours 0 23 0 ∧
    ((buildSlots lateWake 0).take 2).map (fun s => (s.start, s.end_)) =
      [(setHours 0 7 45, setHours 0 8 15), (setHours 0 8 0, setHours 0 8 30)] ∧
    optimizeSchedule [callA, callB] lateWake 0 =
      some [taskItem callA (setHours 0 7 45), taskItem callB (setHours 0 8 0), lunchItem 0] ∧
    ¬ ((taskItem callA (setHours 0 7 45)).endTime ≤ (taskItem callB (setHours 0 8 0)).startTime ∨
        (taskItem callB (setHours 0 8 0)).endTime ≤ (taskItem callA (setHours 0 7 45)).startTime) := by
  decide!

/-- C7, counterexample: with wake 07:00 and bed 07:15 the only slot is 07:00-07:30, and
a half-hour task placed in it ends at 07:30, after bed time. -/
theorem optimizeSchedule_task_ends_after_bedTime :
    (∀ t ∈ [reading], 0 < t.duration) ∧
    setHours 0 7 0 < setHours 0 7 15 ∧
    optimizeSchedule [reading] earlyBed 0 =
      some [taskItem reading (setHours 0 7 0), lunchItem 0] ∧
    (taskItem reading (setHours 0 7 0)).type = "TASK" ∧
    ¬ ((taskItem reading (setHours 0 7 0)).endTime ≤ setHours 0 7 15) := by
  decide!

/-- C7, amended: when the wake minute is 00 or 30 and all durations are positive, every
returned TASK item starts at or after wake time and strictly before bed time, and ends
less than 30 minutes after bed time; it ends at or before bed time when the bed minute
is 00 or 30 as well. -/
theorem optimizeSchedule_task_window (tasks : List Task) (profile : Profile) (date : Int)
    (hwake : (wakeOf profile).minute = 0 ∨ (wakeOf profile).minute = 30)
    (hpos : ∀ t ∈ tasks, 0 < t.duration) :
    ∃ out, optimizeSchedule tasks profile date = some out ∧
      ∀ it ∈ out, it.type = "TASK" →
        setHours date (wakeOf profile).hour (wakeOf profile).minute ≤ it.startTime ∧
        it.startTime < setHours date (bedOf profile).hour (bedOf profile).minute ∧
        it.endTime < setHours date (bedOf profile).hour (bedOf profile).minute + 30 * 60 * 1000 ∧
        ((bedOf profile).minute = 0 ∨ (bedOf profile).minute = 30 →
          it.endTime ≤ setHours date (bedOf profile).hour (bedOf profile).minute) := by
  obtain ⟨out, hout⟩ := optimizeSchedule_isSome tasks profile date hpos
  obtain ⟨slots, items, hrun, rfl⟩ := optimizeSchedule_some tasks profile date out hout
  refine ⟨_, hout, ?_⟩
  intro it hit hty
  rcases mem_addBuffers _ it hit with h | ⟨a, _, b, _, _, _, rfl⟩
  · rw [mem_jsSort] at h
    rcases scheduled_items tasks profile date slots items hrun it h with
      rfl | ⟨t, _, best, s, hp, rfl | ⟨_, _, rfl⟩⟩
    · simp [lunchItem] at hty
    · have := placedAt_window profile date t best s hwake hp
      simpa [taskItem, msPerMinute] using this
    · simp [breakItem] at hty
  · simp [bufferItem] at hty

theorem optimizeSchedule_task_window_witness :
    ((wakeOf earlyBed).minute = 0 ∨ (wakeOf earlyBed).minute = 30) ∧
    (∀ t ∈ [reading], 0 < t.duration) ∧
    ∃ out, optimizeSchedule [reading] earlyBed 0 = some out ∧
      ∀ it ∈ out, it.type = "TASK" →
        setHours 0 (wakeOf earlyBed).hour (wakeOf earlyBed).minute ≤ it.startTime ∧
        it.startTime < setHours 0 (bedOf earlyBed).hour (bedOf earlyBed).minute ∧
        it.endTime < setHours 0 (bedOf earlyBed).hour (bedOf earlyBed).minute + 30 * 60 * 1000 ∧
        ((bedOf earlyBed).minute = 0 ∨ (bedOf earlyBed).minute = 30 →
          it.endTime ≤ setHours 0 (bedOf earlyBed).hour (bedOf earlyBed).minute) :=
  ⟨by decide, by decide, optimizeSchedule_task_window [reading] earlyBed 0 (by decide) (by decide)⟩

/-! ## Lemmas: the urgent work scenario -/

/-- The scan keeps its current best when no window scores above it. -/
theorem scanWindows_keep (task : Task) (slots : List Slot) (slotsNeeded : Nat) :
    ∀ (indices : List Nat) (best : Option Nat) (bestScore : ℚ),
      (∀ i ∈ indices, i + slotsNeeded ≤ slots.length ∧ i < slots.length) →
      (∀ i ∈ indices, ∀ score, slotScore task slots i = some score → score ≤ bestScore) →
      scanWindows task slots slotsNeeded indices (best, bestScore) = some (best, bestScore) := by
  intro indices
  induction indices with
  | nil => intro best bestScore _ _; rfl
  | cons i rest ih =>
    intro best bestScore hin hle
    have hi := hin i (List.mem_cons_self _ _)
    have hrest := ih best bestScore (fun k hk => hin k (List.mem_cons_of_mem _ hk))
      (fun k hk => hle k (List.mem_cons_of_mem _ hk))
    obtain ⟨b, hb⟩ := allAvailable_isSome slots slotsNeeded i hi.1
    obtain ⟨score, hscore⟩ := slotScore_isSome task slots i hi.2
    have hsc := hle i (List.mem_cons_self _ _) score hscore
    unfold scanWindows
    rw [hb]
    cases b with
    | false => exact hrest
    | true =>
      simp only [hscore]
      rw [if_neg (not_lt.mpr hsc)]
      exact hrest

/-- Without a preferred time no window scores above 5. -/
theorem slotScore_le_five (task : Task) (slots : List Slot) (i : Nat) (score : ℚ)
    (hpref : task.preferredTime = none) (h : slotScore task slots i = some score) :
    score ≤ 5 := by
  unfold slotScore at h
  split at h
  · exact absurd h (by simp)
  · rename_i slot hslot
    have hi : i < slots.length := by
      by_contra hc
      rw [List.getElem?_eq_none (by omega)] at hslot
      exact absurd hslot (by simp)
    have hlen : (0 : ℚ) < (slots.length : ℚ) := by
      exact_mod_cast (by omega : 0 < slots.length)
    have hile : (i : ℚ) ≤ (slots.length : ℚ) := by exact_mod_cast hi.le
    have hu0 : 0 ≤ ((slots.length : ℚ) - (i : ℚ)) / (slots.length : ℚ) :=
      div_nonneg (by linarith) hlen.le
    have hu1 : ((slots.length : ℚ) - (i : ℚ)) / (slots.length : ℚ) ≤ 1 := by
      rw [div_le_one hlen]
      have : (0 : ℚ) ≤ (i : ℚ) := Nat.cast_nonneg i
      linarith
    have hud := toDouble_le _ 1 hu0 hu1 toDouble_one
    have hud0 := toDouble_nonneg _ hu0
    have hurg : toDouble (toDouble (((slots.length : ℚ) - (i : ℚ)) / (slots.length : ℚ)) * 2)
        ≤ 2 := toDouble_le _ 2 (by linarith) (by linarith) toDouble_two
    have hurg0 : 0 ≤
        toDouble (toDouble (((slots.length : ℚ) - (i : ℚ)) / (slots.length : ℚ)) * 2) :=
      toDouble_nonneg _ (by linarith)
    have he : ∀ (a b : Prop) [Decidable a] [Decidable b],
        0 ≤ toDouble (0 + (if a then (3 : ℚ) else if b then 2 else 1)) ∧
          toDouble (0 + (if a then (3 : ℚ) else if b then 2 else 1)) ≤ 3 := by
      intro a b _ _
      rw [zero_add]
      split_ifs
      · rw [toDouble_three]; norm_num
      · rw [toDouble_two]; norm_num
      · rw [toDouble_one]; norm_num
    simp only [hpref, Option.some.injEq] at h
    rw [← h]
    have h1 := he (slot.energyLevel = EnergyLevel.high) (slot.energyLevel = EnergyLevel.medium)
    have h2 := he (slot.energyLevel = EnergyLevel.low) (slot.energyLevel = EnergyLevel.medium)
    generalize toDouble (0 + (if slot.energyLevel = EnergyLevel.high then (3 : ℚ)
      else if slot.energyLevel = EnergyLevel.medium then 2 else 1)) = e1 at h1 ⊢
    generalize toDouble (0 + (if slot.energyLevel = EnergyLevel.low then (3 : ℚ)
      else if slot.energyLevel = EnergyLevel.medium then 2 else 1)) = e2 at h2 ⊢
    generalize toDouble (toDouble (((slots.length : ℚ) - (i : ℚ)) / (slots.length : ℚ)) * 2)
      = u at hurg hurg0 ⊢
    split_ifs <;>
      first
        | linarith
        | exact toDouble_le _ 5 (by linarith) (by linarith) toDouble_five

/-- One iteration of the slot loop from a full hour. -/
theorem slotLoop_full_hour (date : Int) (peakTime : String) (bedHour bedMin fuel h : Nat)
    (hfuel : slotMeasure bedHour h 0 ≤ fuel) :
    slotLoop date peakTime bedHour bedMin fuel h 0 =
      if h < bedHour ∨ (h = bedHour ∧ 0 < bedMin) then
        { start := setHours date h 0, end_ := addMinutes (setHours date h 0) 30,
          occupied := false, energyLevel := getEnergyLevel h peakTime } ::
          slotLoop date peakTime bedHour bedMin fuel h 30
      else [] := by
  rw [slotLoop_unfold _ _ _ _ _ _ _ hfuel, if_neg (by omega : ¬ (0 + 30 ≥ 60))]

/-- One iteration of the slot loop from a half hour. -/
theorem slotLoop_half_hour (date : Int) (peakTime : String) (bedHour bedMin fuel h h' : Nat)
    (hnext : h' = h + 1) (hfuel : slotMeasure bedHour h 30 ≤ fuel) :
    slotLoop date peakTime bedHour bedMin fuel h 30 =
      if h < bedHour ∨ (h = bedHour ∧ 30 < bedMin) then
        { start := setHours date h 30, end_ := addMinutes (setHours date h 30) 30,
          occupied := false, energyLevel := getEnergyLevel h peakTime } ::
          slotLoop date peakTime bedHour bedMin fuel h' 0
      else [] := by
  rw [slotLoop_unfold _ _ _ _ _ _ _ hfuel, if_pos (by omega : 30 + 30 ≥ 60), hnext]

/-- With wake 07:00, a morning peak and at least five slots, the grid starts with the
slots of 07:00, 07:30, 08:00, 08:30 and 09:00. -/
theorem buildSlots_first_five (profile : Profile) (date : Int)
    (hwake : profile.wakeUpTime = some ⟨7, 0⟩) (hpeak : profile.energyPeakTime = "morning")
    (hslots : 5 ≤ (buildSlots profile date).length) :
    ∃ rest, buildSlots profile date =
      morningSlot date 7 0 :: morningSlot date 7 30 :: morningSlot date 8 0 ::
        morningSlot date 8 30 :: morningSlot date 9 0 :: rest := by
  have hw : wakeOf profile = ⟨7, 0⟩ := by simp [wakeOf, hwake]
  generalize hbh : (bedOf profile).hour = bh at *
  generalize hbm : (bedOf profile).minute = bm at *
  have hb : ∀ h m, 7 ≤ h → slotMeasure bh h m ≤ slotBudget 7 bh := by
    intro h m hh
    unfold slotMeasure slotBudget
    omega
  have heq : buildSlots profile date =
      slotLoop date "morning" bh bm (slotBudget 7 bh) 7 0 := by
    simp [buildSlots, hw, hpeak, hbh, hbm]
  rw [heq] at hslots ⊢
  rw [slotLoop_full_hour _ _ _ _ _ 7 (hb _ _ (by omega)),
    slotLoop_half_hour _ _ _ _ _ 7 8 rfl (hb _ _ (by omega)),
    slotLoop_full_hour _ _ _ _ _ 8 (hb _ _ (by omega)),
    slotLoop_half_hour _ _ _ _ _ 8 9 rfl (hb _ _ (by omega)),
    slotLoop_full_hour _ _ _ _ _ 9 (hb _ _ (by omega))] at hslots ⊢
  by_cases hg : 9 < bh ∨ (9 = bh ∧ 0 < bm)
  · have g1 : 7 < bh ∨ (7 = bh ∧ 0 < bm) := by omega
    have g2 : 7 < bh ∨ (7 = bh ∧ 30 < bm) := by omega
    have g3 : 8 < bh ∨ (8 = bh ∧ 0 < bm) := by omega
    have g4 : 8 < bh ∨ (8 = bh ∧ 30 < bm) := by omega
    simp only [if_pos hg, if_pos g1, if_pos g2, if_pos g3, if_pos g4]
    refine ⟨slotLoop date "morning" bh bm (slotBudget 7 bh) 9 30, ?_⟩
    simp [morningSlot, getEnergyLevel]
  · exfalso
    simp only [if_neg hg] at hslots
    split_ifs at hslots <;> simp at hslots

/-- The lunch reservation leaves the five first slots of a 07:00 grid untouched. -/
theorem markLunch_first_five (date : Int) (rest : List Slot) :
    markLunch date (morningSlot date 7 0 :: morningSlot date 7 30 :: morningSlot date 8 0 ::
        morningSlot date 8 30 :: morningSlot date 9 0 :: rest) =
      morningSlot date 7 0 :: morningSlot date 7 30 :: morningSlot date 8 0 ::
        morningSlot date 8 30 :: morningSlot date 9 0 :: markLunch date rest := by
  have h : ∀ h m : Nat, h * 60 + m < 12 * 60 →
      ¬ ((morningSlot date h m).start ≥ setHours date 12 0 ∧
        (morningSlot date h m).end_ ≤ setHours date 13 0) := by
    intro h m hh
    simp only [morningSlot, setHours, addMinutes, msPerMinute]
    omega
  simp only [markLunch, List.map_cons, if_neg (h 7 0 (by omega)), if_neg (h 7 30 (by omega)),
    if_neg (h 8 0 (by omega)), if_neg (h 8 30 (by omega)), if_neg (h 9 0 (by omega))]

/-- The scan picks the 07:00 window for a two-hour urgent work task. -/
theorem findBestSlot_urgent_work (task : Task) (date : Int) (rest : List Slot)
    (hcat : task.category = "WORK") (hprio : task.priority = "URGENT")
    (hdur : task.duration = 120) (hpref : task.preferredTime = none) :
    findBestSlot task (morningSlot date 7 0 :: morningSlot date 7 30 :: morningSlot date 8 0 ::
        morningSlot date 8 30 :: morningSlot date 9 0 :: rest) = some (some 0) := by
  have hn : slotsNeededOf task = 4 := by simp [slotsNeededOf, hdur]
  have hint : isIntensiveOf task = true := by simp [isIntensiveOf, hcat]
  generalize hs : (morningSlot date 7 0 :: morningSlot date 7 30 :: morningSlot date 8 0 ::
        morningSlot date 8 30 :: morningSlot date 9 0 :: rest) = slots
  have hlen : slots.length = rest.length + 5 := by rw [← hs]; simp
  have hrange : List.range (slots.length + 1 - 4) =
      0 :: (List.range (rest.length + 1)).map Nat.succ := by
    rw [hlen, show rest.length + 5 + 1 - 4 = (rest.length + 1) + 1 by omega,
      List.range_succ_eq_map]
  have hav : allAvailable slots 0 4 = some true := by
    rw [← hs]; simp [allAvailable, morningSlot]
  have hsc : slotScore task slots 0 = some 5 := by
    have hne : ((rest.length : ℚ) + 5) ≠ 0 := by positivity
    rw [← hs]
    have hone : (((rest.length : ℚ) + 5) - 0) / ((rest.length : ℚ) + 5) = 1 := by
      rw [sub_zero, div_self hne]
    simp only [slotScore, List.getElem?_cons_zero, hint, hprio, hpref, morningSlot,
      List.length_cons]
    simp only [if_true, true_or, Nat.cast_add, Nat.cast_one, Nat.cast_zero, zero_add]
    have hlen5 : (rest.length : ℚ) + 1 + 1 + 1 + 1 + 1 = (rest.length : ℚ) + 5 := by ring
    rw [hlen5, hone, toDouble_three, toDouble_one, one_mul, toDouble_two]
    norm_num
    exact toDouble_five
  unfold findBestSlot
  rw [hn, hrange]
  unfold scanWindows
  simp only [hav, hsc]
  rw [if_pos (by norm_num), scanWindows_keep]
  · rfl
  · intro i hi
    rw [List.mem_map] at hi
    obtain ⟨k, hk, rfl⟩ := hi
    rw [List.mem_range] at hk
    omega
  · intro i _ score hscore
    exact slotScore_le_five task slots i score hpref hscore

/-! ## Claim about the urgent work scenario -/

/-- C5: a single WORK / URGENT task of 120 minutes without preferred time (whatever its
deadline), wake 07:00, morning peak and a bed time leaving at least five slots: the first
slot of the grid starts at 07:00 with energy `high`, and the output is exactly the task
from 07:00 to 09:00, then a BREAK from 09:00 (the task's end) to 09:15, then lunch. -/
theorem optimizeSchedule_urgent_work_scenario (task : Task) (profile : Profile) (date : Int)
    (hcat : task.category = "WORK") (hprio : task.priority = "URGENT")
    (hdur : task.duration = 120) (hpref : task.preferredTime = none)
    (hwake : profile.wakeUpTime = some ⟨7, 0⟩) (hpeak : profile.energyPeakTime = "morning")
    (hslots : 5 ≤ (buildSlots profile date).length) :
    (∃ slot, (buildSlots profile date)[0]? = some slot ∧ slot.start = setHours date 7 0 ∧
      slot.energyLevel = EnergyLevel.high) ∧
    optimizeSchedule [task] profile date = some [
      { title := task.title, type := "TASK", startTime := setHours date 7 0,
        endTime := setHours date 9 0, taskId := some task.id, task := some task },
      { title := "Pause", type := "BREAK", startTime := setHours date 9 0,
        endTime := setHours date 9 15, taskId := none, task := none },
      { title := "Pause déjeuner", type := "LUNCH", startTime := setHours date 12 0,
        endTime := setHours date 13 0, taskId := none, task := none }] := by
  obtain ⟨rest, hgrid⟩ := buildSlots_first_five profile date hwake hpeak hslots
  refine ⟨⟨morningSlot date 7 0, by rw [hgrid]; rfl, rfl, rfl⟩, ?_⟩
  have hn : slotsNeededOf task = 4 := by simp [slotsNeededOf, hdur]
  have hint : isIntensiveOf task = true := by simp [isIntensiveOf, hcat]
  have hfind := findBestSlot_urgent_work task date (markLunch date rest) hcat hprio hdur hpref
  have hplace : placeTask (markLunch date (buildSlots profile date), [lunchItem date]) task =
      some ({ morningSlot date 7 0 with occupied := true } ::
          { morningSlot date 7 30 with occupied := true } ::
          { morningSlot date 8 0 with occupied := true } ::
          { morningSlot date 8 30 with occupied := true } ::
          { morningSlot date 9 0 with occupied := true } :: markLunch date rest,
        [lunchItem date, taskItem task (setHours date 7 0),
          breakItem (addMinutes (setHours date 7 0) task.duration)]) := by
    rw [hgrid, markLunch_first_five]
    unfold placeTask
    simp only [hfind, hn]
    simp [markOccupied, morningSlot, hint, hdur]
  have e1 : (setHours date 7 0 + 120 * (60 * 1000) : Int) = setHours date 9 0 := by
    simp only [setHours, msPerMinute]; omega
  have e2 : (setHours date 9 0 + 15 * (60 * 1000) : Int) = setHours date 9 15 := by
    simp only [setHours, msPerMinute]; omega
  have c1 : ¬ (setHours date 12 0 - setHours date 7 0 ≤ 0) := by
    simp only [setHours, msPerMinute]; omega
  have c2 : ¬ (setHours date 12 0 - setHours date 9 0 ≤ 0) := by
    simp only [setHours, msPerMinute]; omega
  have c3 : setHours date 7 0 - setHours date 9 0 ≤ 0 := by
    simp only [setHours, msPerMinute]; omega
  have c4 : ¬ (setHours date 9 0 - setHours date 9 0 ≥ 5 * 60 * 1000 ∧
      setHours date 9 0 - setHours date 9 0 < 30 * 60 * 1000) := by omega
  have c5 : ¬ (setHours date 12 0 - setHours date 9 15 ≥ 5 * 60 * 1000 ∧
      setHours date 12 0 - setHours date 9 15 < 30 * 60 * 1000) := by
    simp only [setHours, msPerMinute]; omega
  unfold optimizeSchedule
  simp only [jsSort, scheduleTasks, hplace]
  simp only [taskItem, breakItem, lunchItem, addMinutes, msPerMinute, hdur, Nat.cast_ofNat,
    e1, e2]
  simp only [sortInsert, itemCompare, if_pos c3, if_neg c1, if_neg c2, addBuffers,
    if_neg c4, if_neg c5]

theorem optimizeSchedule_urgent_work_scenario_witness :
    deepWork.category = "WORK" ∧ deepWork.priority = "URGENT" ∧ deepWork.duration = 120 ∧
    deepWork.preferredTime = none ∧ seedProfile.wakeUpTime = some ⟨7, 0⟩ ∧
    seedProfile.energyPeakTime = "morning" ∧ 5 ≤ (buildSlots seedProfile 0).length ∧
    (∃ slot, (buildSlots seedProfile 0)[0]? = some slot ∧ slot.start = setHours 0 7 0 ∧
      slot.energyLevel = EnergyLevel.high) ∧
    optimizeSchedule [deepWork] seedProfile 0 = some [
      { title := deepWork.title, type := "TASK", startTime := setHours 0 7 0,
        endTime := setHours 0 9 0, taskId := some deepWork.id, task := some deepWork },
      { title := "Pause", type := "BREAK", startTime := setHours 0 9 0,
        endTime := setHours 0 9 15, taskId := none, task := none },
      { title := "Pause déjeuner", type := "LUNCH", startTime := setHours 0 12 0,
        endTime := setHours 0 13 0, taskId := none, task := none }] :=
  ⟨rfl, rfl, rfl, rfl, rfl, rfl, by decide,
    optimizeSchedule_urgent_work_scenario deepWork seedProfile 0 rfl rfl rfl rfl rfl rfl
      (by decide)⟩

/-! ## Lemmas: calculateMentalLoad -/

theorem categoryWeight_eq_lookup (category : String) :
    categoryWeight category = (specWeightTable.lookup category).getD 1.0 := by
  unfold categoryWeight specWeightTable
  simp only [List.lookup]
  split_ifs <;> first | simp_all | simp [beq_false_of_ne, *]

theorem priorityMultiplierOf_eq_lookup (priority : String) :
    priorityMultiplierOf priority = (specMultiplierTable.lookup priority).getD 1.0 := by
  unfold priorityMultiplierOf specMultiplierTable
  simp only [List.lookup]
  split_ifs <;> first | simp_all | simp [beq_false_of_ne, *]

theorem loadCategory_eq_spec (item : ScheduleItem) : loadCategory item = specCategory item := by
  unfold loadCategory specCategory
  cases item.task with
  | some task => rfl
  | none =>
    by_cases ht : item.title = ""
    · simp only [ht, ne_eq, not_true_eq_false, if_false]
      decide
    · simp only [ne_eq, ht, not_false_eq_true, if_true, Bool.or_eq_true]

/-- Contribution of a counted item as the source computes it. -/
theorem load_term_eq_spec (item : ScheduleItem) :
    toDouble (toDouble
      (toDouble (toDouble ((item.endTime - item.startTime : Int) : ℚ) / (1000 * 60 * 60)) *
        toDouble (categoryWeight (loadCategory item))) *
      toDouble (match item.task with
        | some task => priorityMultiplierOf task.priority
        | none => 1.0)) = specTermDouble item := by
  have h1 : ((1000 : ℚ) * 60 * 60) = 3600000 := by norm_num
  have h2 : categoryWeight (loadCategory item) = specWeight item := by
    rw [categoryWeight_eq_lookup, loadCategory_eq_spec]
    rfl
  have h3 : (match item.task with
      | some task => priorityMultiplierOf task.priority
      | none => (1.0 : ℚ)) = specMultiplier item := by
    unfold specMultiplier
    cases item.task with
    | none => rfl
    | some task => exact priorityMultiplierOf_eq_lookup task.priority
  unfold specTermDouble
  rw [h1, h2, h3]

/-- The source loop is the rounded accumulation over the counted items. -/
theorem loadLoop_eq_foldl : ∀ (items : List ScheduleItem) (total : ℚ),
    loadLoop items total =
      ((items.filter fun item => item.type ∉ ["BREAK", "BUFFER", "SLEEP", "LUNCH"]).map
        specTermDouble).foldl (fun total term => toDouble (total + term)) total := by
  intro items
  induction items with
  | nil => intro total; rfl
  | cons item rest ih =>
    intro total
    unfold loadLoop
    by_cases hty : item.type ∈ ["BREAK", "BUFFER", "SLEEP", "LUNCH"]
    · rw [if_pos hty, ih,
        List.filter_cons_of_neg (by simp only [decide_eq_true_eq, not_not]; exact hty)]
    · rw [if_neg hty]
      simp only
      rw [ih, load_term_eq_spec,
        List.filter_cons_of_pos (by simp only [decide_eq_true_eq]; exact hty), List.map_cons,
        List.foldl_cons]

/-! ## Claims about calculateMentalLoad -/

theorem calculateMentalLoad_nil : calculateMentalLoad (some []) = 0 := by
  simp only [calculateMentalLoad, List.length_nil, if_true]

theorem calculateMentalLoad_cons (item : ScheduleItem) (rest : List ScheduleItem) :
    calculateMentalLoad (some (item :: rest)) =
      min ((mathRound (toDouble (toDouble (toDouble (loadLoop (item :: rest) 0 / 12) * 10)
        * 10)) : ℚ) / 10) 10 := by
  simp only [calculateMentalLoad, List.length_cons]
  rw [if_neg (by omega)]

theorem mathRound_zero : mathRound 0 = 0 := by
  unfold mathRound
  rw [Int.floor_eq_iff]
  norm_num

/-- The score of any list, empty or not, as the rounded formula. -/
theorem calculateMentalLoad_some (items : List ScheduleItem) :
    calculateMentalLoad (some items) = specMentalLoadDouble items := by
  cases items with
  | nil =>
    rw [calculateMentalLoad_nil]
    unfold specMentalLoadDouble specSumDouble
    simp [toDouble_zero, mathRound_zero]
  | cons item rest =>
    rw [calculateMentalLoad_cons, loadLoop_eq_foldl]
    rfl

/-- C9, counterexample: for one WORK / URGENT item of 72 minutes the formula of the
specification gives `round1(1.2 * 1.5 * 1.3 / 12 * 10) = round1(1.95) = 2.0`, whereas
the code returns 1.9: in doubles `score * 10` is 19.499999999999996, which `Math.round`
takes to 19. -/
theorem calculateMentalLoad_below_formula :
    [taskItem report72 (setHours 0 9 0)] ≠ [] ∧
    specSum [taskItem report72 (setHours 0 9 0)] / 12 * 10 = 39 / 20 ∧
    specMentalLoad [taskItem report72 (setHours 0 9 0)] = 2 ∧
    calculateMentalLoad (some [taskItem report72 (setHours 0 9 0)]) = 19 / 10 := by
  decide!

/-- C9, amended: for a non-empty item list `calculateMentalLoad` returns
`min(round1(S / 12 * 10), 10)` evaluated in double arithmetic (`specMentalLoadDouble`):
`S` is accumulated in item order over the items whose type is not BREAK, BUFFER, SLEEP or
LUNCH, each term being hours * weight * multiplier, and every subtraction, division,
multiplication and addition rounds to the nearest double; the category, weight and
multiplier are chosen as the specification words them. -/
theorem calculateMentalLoad_eq_spec (items : List ScheduleItem) (hne : items ≠ []) :
    calculateMentalLoad (some items) = specMentalLoadDouble items := by
  cases items with
  | nil => exact absurd rfl hne
  | cons item rest =>
    rw [calculateMentalLoad_cons, loadLoop_eq_foldl]
    rfl

theorem categoryWeight_pos (category : String) : 0 < categoryWeight category := by
  unfold categoryWeight
  split_ifs <;> norm_num

theorem priorityMultiplierOf_pos (priority : String) : 0 < priorityMultiplierOf priority := by
  unfold priorityMultiplierOf
  split_ifs <;> norm_num

theorem specWeight_pos (item : ScheduleItem) : 0 < specWeight item := by
  unfold specWeight
  rw [← categoryWeight_eq_lookup]
  exact categoryWeight_pos _

theorem specMultiplier_pos (item : ScheduleItem) : 0 < specMultiplier item := by
  unfold specMultiplier
  cases item.task with
  | none => norm_num
  | some task =>
    simp only
    rw [← priorityMultiplierOf_eq_lookup]
    exact priorityMultiplierOf_pos _

/-- The contribution of an item that does not end before it starts is non-negative. -/
theorem specTermDouble_nonneg (item : ScheduleItem) (h : item.startTime ≤ item.endTime) :
    0 ≤ specTermDouble item := by
  unfold specTermDouble
  have h0 : (0 : ℚ) ≤ ((item.endTime - item.startTime : Int) : ℚ) := by
    exact_mod_cast (by omega : (0 : Int) ≤ item.endTime - item.startTime)
  have hd : 0 ≤ toDouble (toDouble ((item.endTime - item.startTime : Int) : ℚ) / 3600000) :=
    toDouble_nonneg _ (div_nonneg (toDouble_nonneg _ h0) (by norm_num))
  have hw := toDouble_nonneg _ (specWeight_pos item).le
  have hm := toDouble_nonneg _ (specMultiplier_pos item).le
  exact toDouble_nonneg _ (mul_nonneg (toDouble_nonneg _ (mul_nonneg hd hw)) hm)

/-- The rounded accumulation of non-negative terms from a non-negative double is a
non-negative double, no smaller than the start. -/
theorem foldl_toDouble_add : ∀ (terms : List ℚ) (total : ℚ), (∀ t ∈ terms, 0 ≤ t) →
    0 ≤ total → toDouble total = total →
    total ≤ terms.foldl (fun total term => toDouble (total + term)) total ∧
      toDouble (terms.foldl (fun total term => toDouble (total + term)) total) =
        terms.foldl (fun total term => toDouble (total + term)) total := by
  intro terms
  induction terms with
  | nil => intro total _ _ hd; exact ⟨le_refl _, hd⟩
  | cons t rest ih =>
    intro total hterms h0 hd
    have ht := hterms t (List.mem_cons_self _ _)
    have hstep : total ≤ toDouble (total + t) := by
      calc total = toDouble total := hd.symm
        _ ≤ toDouble (total + t) := toDouble_mono _ _ h0 (by linarith)
    obtain ⟨h1, h2⟩ := ih (toDouble (total + t))
      (fun u hu => hterms u (List.mem_cons_of_mem _ hu)) (le_trans h0 hstep)
      (toDouble_idem _ (by linarith))
    exact ⟨le_trans hstep h1, h2⟩

theorem specSumDouble_terms_nonneg (items : List ScheduleItem)
    (hle : ∀ it ∈ items, it.startTime ≤ it.endTime) :
    ∀ t ∈ (items.filter fun item => item.type ∉ ["BREAK", "BUFFER", "SLEEP", "LUNCH"]).map
      specTermDouble, 0 ≤ t := by
  intro t ht
  rw [List.mem_map] at ht
  obtain ⟨it, hit, rfl⟩ := ht
  exact specTermDouble_nonneg it (hle it (List.mem_filter.mp hit).1)

/-- The accumulated load is non-negative when no item ends before it starts. -/
theorem specSumDouble_nonneg (items : List ScheduleItem)
    (hle : ∀ it ∈ items, it.startTime ≤ it.endTime) : 0 ≤ specSumDouble items :=
  (foldl_toDouble_add _ 0 (specSumDouble_terms_nonneg items hle) (le_refl _) toDouble_zero).1

/-- C10: when no item ends before it starts, the score of `calculateMentalLoad` lies in
the closed range from 0 to 10 and ten times the score is an integer. -/
theorem calculateMentalLoad_range (items : List ScheduleItem)
    (hle : ∀ it ∈ items, it.startTime ≤ it.endTime) :
    0 ≤ calculateMentalLoad (some items) ∧ calculateMentalLoad (some items) ≤ 10 ∧
      ∃ k : Int, 10 * calculateMentalLoad (some items) = (k : ℚ) := by
  rw [calculateMentalLoad_some]
  unfold specMentalLoadDouble
  have hT := specSumDouble_nonneg items hle
  generalize specSumDouble items = T at hT
  have hx : 0 ≤ toDouble (toDouble (toDouble (T / 12) * 10) * 10) :=
    toDouble_nonneg _ (mul_nonneg (toDouble_nonneg _
      (mul_nonneg (toDouble_nonneg _ (div_nonneg hT (by norm_num))) (by norm_num)))
      (by norm_num))
  generalize toDouble (toDouble (toDouble (T / 12) * 10) * 10) = x at hx
  have hr : (0 : Int) ≤ mathRound x := by
    unfold mathRound
    apply Int.floor_nonneg.mpr
    positivity
  have hrq : (0 : ℚ) ≤ (mathRound x : ℚ) := by exact_mod_cast hr
  refine ⟨le_min (by positivity) (by norm_num), min_le_right _ _, ?_⟩
  by_cases hc : (mathRound x : ℚ) / 10 ≤ 10
  · exact ⟨mathRound x, by rw [min_eq_left hc]; field_simp⟩
  · exact ⟨100, by rw [min_eq_right (le_of_not_le hc)]; norm_num⟩

theorem calculateMentalLoad_eq_spec_witness :
    sampleDay ≠ [] ∧ calculateMentalLoad (some sampleDay) = specMentalLoadDouble sampleDay :=
  ⟨by decide, calculateMentalLoad_eq_spec sampleDay (by decide)⟩

theorem calculateMentalLoad_range_witness :
    (∀ it ∈ sampleDay, it.startTime ≤ it.endTime) ∧
      0 ≤ calculateMentalLoad (some sampleDay) ∧ calculateMentalLoad (some sampleDay) ≤ 10 ∧
      ∃ k : Int, 10 * calculateMentalLoad (some sampleDay) = (k : ℚ) :=
  ⟨by decide, calculateMentalLoad_range sampleDay (by decide)⟩

/-! ## Claims about empty lists and skipped items -/

/-- C11: `calculateMentalLoad` returns exactly 0 for a null item list and for an empty
item list. -/
theorem calculateMentalLoad_empty :
    calculateMentalLoad none = 0 ∧ calculateMentalLoad (some []) = 0 :=
  ⟨rfl, calculateMentalLoad_nil⟩

theorem filter_insertItemAt (l : List ScheduleItem) (k : Nat) (x : ScheduleItem)
    (hx : x.type ∈ ["BREAK", "BUFFER", "SLEEP", "LUNCH"]) :
    (insertItemAt l k x).filter (fun item => item.type ∉ ["BREAK", "BUFFER", "SLEEP", "LUNCH"]) =
      l.filter fun item => item.type ∉ ["BREAK", "BUFFER", "SLEEP", "LUNCH"] := by
  unfold insertItemAt
  rw [List.filter_append,
    List.filter_cons_of_neg (by simp only [decide_eq_true_eq, not_not]; exact hx),
    ← List.filter_append, List.take_append_drop]

theorem filter_insertItems : ∀ (ins : List (Nat × ScheduleItem)) (l : List ScheduleItem),
    (∀ p ∈ ins, p.2.type ∈ ["BREAK", "BUFFER", "SLEEP", "LUNCH"]) →
    (insertItems l ins).filter
        (fun item => item.type ∉ ["BREAK", "BUFFER", "SLEEP", "LUNCH"]) =
      l.filter fun item => item.type ∉ ["BREAK", "BUFFER", "SLEEP", "LUNCH"] := by
  intro ins
  induction ins with
  | nil => intro l _; rfl
  | cons p rest ih =>
    intro l h
    have : insertItems l (p :: rest) = insertItems (insertItemAt l p.1 p.2) rest := rfl
    rw [this, ih _ (fun q hq => h q (List.mem_cons_of_mem _ hq)),
      filter_insertItemAt l p.1 p.2 (h p (List.mem_cons_self _ _))]

/-- C12: inserting items of type BREAK, BUFFER, SLEEP or LUNCH (whatever their duration,
title or embedded task) at any positions of an item list, empty or not, leaves the
score of `calculateMentalLoad` unchanged. -/
theorem calculateMentalLoad_insert_skipped (l : List ScheduleItem)
    (ins : List (Nat × ScheduleItem))
    (hskip : ∀ p ∈ ins, p.2.type ∈ ["BREAK", "BUFFER", "SLEEP", "LUNCH"]) :
    calculateMentalLoad (some (insertItems l ins)) = calculateMentalLoad (some l) := by
  rw [calculateMentalLoad_some, calculateMentalLoad_some]
  unfold specMentalLoadDouble specSumDouble
  rw [filter_insertItems ins l hskip]

theorem calculateMentalLoad_insert_skipped_witness :
    (∀ p ∈ [(0, lunchItem 0), (5, breakItem 0), (1, bufferItem (lunchItem 0) (lunchItem 0))],
        p.2.type ∈ ["BREAK", "BUFFER", "SLEEP", "LUNCH"]) ∧
      calculateMentalLoad (some (insertItems sampleDay
        [(0, lunchItem 0), (5, breakItem 0), (1, bufferItem (lunchItem 0) (lunchItem 0))])) =
        calculateMentalLoad (some sampleDay) :=
  ⟨by decide, calculateMentalLoad_insert_skipped sampleDay _ (by decide)⟩

/-! ## Claims about getMentalLoadLevel -/

/-- C13: `getMentalLoadLevel` is light iff score <= 3, balanced iff 3 < score <= 5, busy
iff 5 < score <= 7, overloaded iff 7 < score <= 9, critical iff score > 9; the boundary
scores 3, 3.01, 5, 5.01, 7, 7.01, 9, 9.01 get the levels of the specification; and the
level never goes down when the score goes up. -/
theorem getMentalLoadLevel_thresholds :
    (∀ score : ℚ,
      (getMentalLoadLevel score = "light" ↔ score ≤ 3) ∧
      (getMentalLoadLevel score = "balanced" ↔ 3 < score ∧ score ≤ 5) ∧
      (getMentalLoadLevel score = "busy" ↔ 5 < score ∧ score ≤ 7) ∧
      (getMentalLoadLevel score = "overloaded" ↔ 7 < score ∧ score ≤ 9) ∧
      (getMentalLoadLevel score = "critical" ↔ 9 < score)) ∧
    (getMentalLoadLevel 3.0 = "light" ∧ getMentalLoadLevel 3.01 = "balanced" ∧
      getMentalLoadLevel 5.0 = "balanced" ∧ getMentalLoadLevel 5.01 = "busy" ∧
      getMentalLoadLevel 7.0 = "busy" ∧ getMentalLoadLevel 7.01 = "overloaded" ∧
      getMentalLoadLevel 9.0 = "overloaded" ∧ getMentalLoadLevel 9.01 = "critical") ∧
    (∀ s t : ℚ, s ≤ t →
      levelRank (getMentalLoadLevel s) ≤ levelRank (getMentalLoadLevel t)) := by
  refine ⟨?_, ?_, ?_⟩
  · intro score
    unfold getMentalLoadLevel
    split_ifs with h1 h2 h3 h4 <;>
      refine ⟨⟨fun h => ?_, fun h => ?_⟩, ⟨fun h => ?_, fun h => ?_⟩,
        ⟨fun h => ?_, fun h => ?_⟩, ⟨fun h => ?_, fun h => ?_⟩, ⟨fun h => ?_, fun h => ?_⟩⟩ <;>
      first
        | rfl
        | exact absurd h (by decide)
        | linarith
        | exact ⟨by linarith, by linarith⟩
  · unfold getMentalLoadLevel
    norm_num
  · intro s t hst
    unfold getMentalLoadLevel
    split_ifs <;> simp [levelRank] <;> linarith

theorem getMentalLoadLevel_thresholds_witness :
    (3 : ℚ) ≤ 7.01 ∧
      levelRank (getMentalLoadLevel 3) ≤ levelRank (getMentalLoadLevel 7.01) :=
  ⟨by norm_num, getMentalLoadLevel_thresholds.2.2 3 7.01 (by norm_num)⟩

/-! ## Claims about analyzeMentalLoad and generateOverloadSuggestions -/

/-- C14: `analyzeMentalLoad(score, items)` returns the level of `getMentalLoadLevel`, the
fixed message of that level (two calls with the same level give the same message), the
distribution of `calculateTimeDistribution`, and as suggestions those of
`generateOverloadSuggestions` when score > 7 and the empty list otherwise. -/
theorem analyzeMentalLoad_fields (score : ℚ) (items : List ScheduleItem) :
    (analyzeMentalLoad score items).level = getMentalLoadLevel score ∧
    (analyzeMentalLoad score items).message = levelMessage (getMentalLoadLevel score) ∧
    (∀ (score' : ℚ) (items' : List ScheduleItem),
      getMentalLoadLevel score' = getMentalLoadLevel score →
      (analyzeMentalLoad score' items').message = (analyzeMentalLoad score items).message) ∧
    (analyzeMentalLoad score items).distribution = calculateTimeDistribution items ∧
    (7 < score → (analyzeMentalLoad score items).suggestions =
      generateOverloadSuggestions score items) ∧
    (score ≤ 7 → (analyzeMentalLoad score items).suggestions = []) := by
  have hmsg : ∀ (s : ℚ) (l : List ScheduleItem),
      (analyzeMentalLoad s l).message = levelMessage (getMentalLoadLevel s) := by
    intro s l
    unfold analyzeMentalLoad
    split_ifs <;> rfl
  refine ⟨?_, hmsg score items, ?_, ?_, ?_, ?_⟩
  · unfold analyzeMentalLoad
    split_ifs <;> rfl
  · intro score' items' h
    rw [hmsg, hmsg, h]
  · unfold analyzeMentalLoad
    split_ifs <;> rfl
  · intro h
    unfold analyzeMentalLoad
    simp only [gt_iff_lt, if_pos h]
  · intro h
    unfold analyzeMentalLoad
    simp only [gt_iff_lt, if_neg (not_lt.mpr h)]

theorem analyzeMentalLoad_fields_witness :
    ((7 : ℚ) < 8 ∧ (analyzeMentalLoad 8 sampleDay).suggestions =
      generateOverloadSuggestions 8 sampleDay) ∧
    ((2 : ℚ) ≤ 7 ∧ (analyzeMentalLoad 2 sampleDay).suggestions = []) :=
  ⟨⟨by norm_num, (analyzeMentalLoad_fields 8 sampleDay).2.2.2.2.1 (by norm_num)⟩,
    ⟨by norm_num, (analyzeMentalLoad_fields 2 sampleDay).2.2.2.2.2 (by norm_num)⟩⟩

/-- The suggestions as four optional pieces in the order of the source. -/
theorem generateOverloadSuggestions_eq (score : ℚ) (items : List ScheduleItem) :
    generateOverloadSuggestions score items =
      (if (taskItemsOfPriority items "LOW").length > 0 then
          [postponeSuggestion (taskItemsOfPriority items "LOW")] else []) ++
      ((if (taskItemsOfPriority items "MEDIUM").length > 0 ∧ score > 8 then
          [shortenSuggestion] else []) ++
      ((if (items.filter fun i => i.type = "BREAK").length < 3 then
          [breaksSuggestion] else []) ++
      (if score > 9 then [rescheduleSuggestion] else []))) := by
  unfold generateOverloadSuggestions taskItemsOfPriority postponeSuggestion shortenSuggestion
    breaksSuggestion rescheduleSuggestion
  simp only []
  split_ifs <;> rfl

/-- The source's filter finds an item exactly when some TASK item embeds a task of the
priority. -/
theorem taskItemsOfPriority_pos_iff (items : List ScheduleItem) (priority : String) :
    (taskItemsOfPriority items priority).length > 0 ↔ HasTaskOfPriority items priority := by
  unfold taskItemsOfPriority HasTaskOfPriority
  rw [gt_iff_lt, List.length_pos_iff_exists_mem]
  constructor
  · rintro ⟨it, hit⟩
    simp only [List.mem_filter, decide_eq_true_eq] at hit
    obtain ⟨⟨hmem, hty, hsome⟩, hp⟩ := hit
    cases htask : it.task with
    | none => rw [htask] at hsome; simp at hsome
    | some t =>
      rw [htask] at hp
      exact ⟨it, hmem, hty, t, htask, by simpa using hp⟩
  · rintro ⟨it, hmem, hty, t, ht, hp⟩
    exact ⟨it, by simp [List.mem_filter, hmem, hty, ht, hp]⟩

/-- The types of the returned suggestions, piece by piece. -/
theorem generateOverloadSuggestions_types (score : ℚ) (items : List ScheduleItem) :
    (generateOverloadSuggestions score items).map (·.type) =
      (if (taskItemsOfPriority items "LOW").length > 0 then ["postpone"] else []) ++
      ((if (taskItemsOfPriority items "MEDIUM").length > 0 ∧ score > 8 then ["shorten"]
          else []) ++
      ((if (items.filter fun i => i.type = "BREAK").length < 3 then ["breaks"] else []) ++
      (if score > 9 then ["reschedule"] else []))) := by
  rw [generateOverloadSuggestions_eq]
  split_ifs <;> rfl

/-- C15: `generateOverloadSuggestions` returns the applicable suggestions, each at most
once and in the order postpone, shorten, breaks, reschedule: postpone iff some TASK item
embeds a LOW-priority task; shorten (impact -0.8) iff some TASK item embeds a
MEDIUM-priority task and score > 8; breaks (impact -0.3) iff fewer than 3 items have
type BREAK; reschedule (impact -1.5) iff score > 9. -/
theorem generateOverloadSuggestions_applicable (score : ℚ) (items : List ScheduleItem) :
    ((generateOverloadSuggestions score items).map (·.type)).Sublist suggestionOrder ∧
    ("postpone" ∈ (generateOverloadSuggestions score items).map (·.type) ↔
      HasTaskOfPriority items "LOW") ∧
    ("shorten" ∈ (generateOverloadSuggestions score items).map (·.type) ↔
      HasTaskOfPriority items "MEDIUM" ∧ score > 8) ∧
    ("breaks" ∈ (generateOverloadSuggestions score items).map (·.type) ↔
      items.countP (fun i => i.type = "BREAK") < 3) ∧
    ("reschedule" ∈ (generateOverloadSuggestions score items).map (·.type) ↔ score > 9) ∧
    (∀ s ∈ generateOverloadSuggestions score items,
      (s.type = "postpone" ∨ s.type = "shorten" ∨ s.type = "breaks" ∨
        s.type = "reschedule") ∧
      (s.type = "shorten" → s.impact = -0.8) ∧ (s.type = "breaks" → s.impact = -0.3) ∧
      (s.type = "reschedule" → s.impact = -1.5)) := by
  have hlow := taskItemsOfPriority_pos_iff items "LOW"
  have hmed := taskItemsOfPriority_pos_iff items "MEDIUM"
  have hbreak : (items.filter fun i => i.type = "BREAK").length =
      items.countP (fun i => i.type = "BREAK") := by
    rw [List.countP_eq_length_filter]
  rw [← hlow, ← hmed, ← hbreak, generateOverloadSuggestions_types]
  clear hlow hmed hbreak
  refine ⟨?_, ?_, ?_, ?_, ?_, ?_⟩
  · unfold suggestionOrder
    split_ifs <;> decide
  · split_ifs <;> simp [*]
  · split_ifs <;> simp [*]
  · split_ifs <;> simp [*]
  · split_ifs <;> simp [*]
  · intro s hs
    rw [generateOverloadSuggestions_eq] at hs
    simp only [List.mem_append] at hs
    rcases hs with hs | hs | hs | hs <;> split_ifs at hs <;>
      simp only [List.mem_singleton, List.not_mem_nil] at hs <;> subst hs <;>
      simp [postponeSuggestion, shortenSuggestion, breaksSuggestion, rescheduleSuggestion]

/-- The titles listed by the source are the titles of the embedded LOW-priority tasks of
the TASK items, in item order, and there are as many as filtered items. -/
theorem lowPriorityTitles_eq (items : List ScheduleItem) :
    (taskItemsOfPriority items "LOW").filterMap (fun t => t.task.map (·.title)) =
        lowPriorityTitles items ∧
      (taskItemsOfPriority items "LOW").length = (lowPriorityTitles items).length := by
  induction items with
  | nil => exact ⟨rfl, rfl⟩
  | cons it rest ih =>
    unfold taskItemsOfPriority lowPriorityTitles at ih ⊢
    by_cases hty : it.type = "TASK"
    · cases htask : it.task with
      | none => simpa [List.filter_cons, List.filterMap_cons, hty, htask] using ih
      | some t =>
        by_cases hp : t.priority = "LOW"
        · simpa [List.filter_cons, List.filterMap_cons, hty, htask, hp] using ih
        · simpa [List.filter_cons, List.filterMap_cons, hty, htask, hp] using ih
    · simpa [List.filter_cons, List.filterMap_cons, hty] using ih

/-- C16: with n >= 1 TASK items embedding a LOW-priority task, the suggestions start with
the postpone suggestion, the only one of that type; its impact is -0.5 * n and its tasks
list is the titles of those embedded tasks in item order; with a single such item the
impact is -0.5 and the list is that one title. -/
theorem generateOverloadSuggestions_postpone (score : ℚ) (items : List ScheduleItem)
    (hn : 1 ≤ (lowPriorityTitles items).length) :
    ∃ s rest, generateOverloadSuggestions score items = s :: rest ∧
      s.type = "postpone" ∧ (∀ r ∈ rest, r.type ≠ "postpone") ∧
      s.impact = -0.5 * ((lowPriorityTitles items).length : ℚ) ∧
      s.tasks = some (lowPriorityTitles items) ∧
      (∀ title, lowPriorityTitles items = [title] →
        s.impact = -0.5 ∧ s.tasks = some [title]) := by
  obtain ⟨htitles, hlen⟩ := lowPriorityTitles_eq items
  have hpos : (taskItemsOfPriority items "LOW").length > 0 := by omega
  refine ⟨postponeSuggestion (taskItemsOfPriority items "LOW"),
    (if (taskItemsOfPriority items "MEDIUM").length > 0 ∧ score > 8 then
        [shortenSuggestion] else []) ++
    ((if (items.filter fun i => i.type = "BREAK").length < 3 then
        [breaksSuggestion] else []) ++
    (if score > 9 then [rescheduleSuggestion] else [])), ?_, rfl, ?_, ?_, ?_, ?_⟩
  · rw [generateOverloadSuggestions_eq, if_pos hpos]
    rfl
  · intro r hr
    simp only [List.mem_append] at hr
    rcases hr with hr | hr | hr <;> split_ifs at hr <;>
      simp only [List.mem_singleton, List.not_mem_nil] at hr <;> subst hr <;>
      simp [shortenSuggestion, breaksSuggestion, rescheduleSuggestion]
  · simp only [postponeSuggestion, hlen]
  · simp only [postponeSuggestion, htitles]
  · intro title ht
    rw [ht] at htitles hlen
    simp only [postponeSuggestion, htitles, hlen]
    norm_num

theorem generateOverloadSuggestions_postpone_witness :
    1 ≤ (lowPriorityTitles [taskItem reading 0]).length ∧
    ∃ s rest, generateOverloadSuggestions 8 [taskItem reading 0] = s :: rest ∧
      s.type = "postpone" ∧ (∀ r ∈ rest, r.type ≠ "postpone") ∧
      s.impact = -0.5 * ((lowPriorityTitles [taskItem reading 0]).length : ℚ) ∧
      s.tasks = some (lowPriorityTitles [taskItem reading 0]) ∧
      (∀ title, lowPriorityTitles [taskItem reading 0] = [title] →
        s.impact = -0.5 ∧ s.tasks = some [title]) :=
  ⟨by decide, generateOverloadSuggestions_postpone 8 [taskItem reading 0] (by decide)⟩

/-! ## Lemmas: calculateTimeDistribution -/

theorem addToCategory_keys (category : String) (m : ℚ) :
    ∀ (d : List (String × ℚ)),
      (addToCategory category m d).map Prod.fst =
        if category ∈ d.map Prod.fst then d.map Prod.fst else d.map Prod.fst ++ [category] := by
  intro d
  induction d with
  | nil => simp [addToCategory]
  | cons entry rest ih =>
    obtain ⟨key, minutes⟩ := entry
    unfold addToCategory
    by_cases hk : key = category
    · simp [hk]
    · have hk' : ¬ category = key := fun h => hk h.symm
      simp only [if_neg hk, List.map_cons, ih, List.mem_cons, hk', false_or]
      split_ifs <;> simp

theorem addToCategory_valueAt (category : String) (m : ℚ) (c : String) :
    ∀ (d : List (String × ℚ)),
      valueAt (addToCategory category m d) c =
        valueAt d c + (if category = c then m else 0) := by
  intro d
  induction d with
  | nil =>
    by_cases hc : category = c
    · simp [addToCategory, valueAt, hc]
    · simp [addToCategory, valueAt, hc]
  | cons entry rest ih =>
    obtain ⟨key, minutes⟩ := entry
    unfold addToCategory
    by_cases hk : key = category
    · by_cases hc : category = c
      · simp [valueAt, hk, hc, List.filter_cons]
        ring
      · simp [valueAt, hk, hc, List.filter_cons]
    · rw [if_neg hk]
      unfold valueAt at ih ⊢
      by_cases hkc : key = c
      · simp only [List.filter_cons, hkc, decide_True, if_true, List.map_cons, List.sum_cons]
        rw [ih]
        ring
      · simp only [List.filter_cons, hkc, decide_False, Bool.false_eq_true, if_false]
        rw [ih]

theorem addToCategory_sum (category : String) (m : ℚ) :
    ∀ (d : List (String × ℚ)),
      ((addToCategory category m d).map Prod.snd).sum = (d.map Prod.snd).sum + m := by
  intro d
  induction d with
  | nil => simp [addToCategory]
  | cons entry rest ih =>
    obtain ⟨key, minutes⟩ := entry
    unfold addToCategory
    by_cases hk : key = category
    · simp [hk]
      ring
    · simp only [if_neg hk, List.map_cons, List.sum_cons, ih]
      ring

theorem minutesUnder_cons (it : ScheduleItem) (rest : List ScheduleItem) (c : String) :
    minutesUnder (it :: rest) c =
      (if countedInDistribution it = true ∧ distributionCategory it = c then
        durationMinutesOf it else 0) + minutesUnder rest c := by
  unfold minutesUnder
  by_cases h : countedInDistribution it = true ∧ distributionCategory it = c
  · rw [List.filter_cons_of_pos (by simpa using h), if_pos h, List.map_cons, List.sum_cons]
  · rw [List.filter_cons_of_neg (by simpa using h), if_neg h, zero_add]

theorem countedMinutes_cons (it : ScheduleItem) (rest : List ScheduleItem) :
    countedMinutes (it :: rest) =
      (if countedInDistribution it = true then durationMinutesOf it else 0) +
        countedMinutes rest := by
  unfold countedMinutes
  by_cases h : countedInDistribution it = true
  · rw [List.filter_cons_of_pos h, if_pos h, List.map_cons, List.sum_cons]
  · rw [List.filter_cons_of_neg h, if_neg h, zero_add]

theorem distributionLoop_skip (it : ScheduleItem) (rest : List ScheduleItem)
    (state : List (String × ℚ) × ℚ) (h : countedInDistribution it = false) :
    distributionLoop (it :: rest) state = distributionLoop rest state := by
  obtain ⟨d, total⟩ := state
  have hty : it.type ∈ ["BREAK", "BUFFER", "SLEEP"] := by
    unfold countedInDistribution at h
    by_contra hn
    rw [decide_eq_false_iff_not] at h
    exact h hn
  rw [distributionLoop, if_pos hty]

theorem distributionLoop_count (it : ScheduleItem) (rest : List ScheduleItem)
    (d : List (String × ℚ)) (total : ℚ) (h : countedInDistribution it = true) :
    distributionLoop (it :: rest) (d, total) =
      distributionLoop rest
        (addToCategory (distributionCategory it) (durationMinutesOf it) d,
          total + durationMinutesOf it) := by
  have hty : it.type ∉ ["BREAK", "BUFFER", "SLEEP"] := by
    unfold countedInDistribution at h
    simpa using h
  have hdur : ((it.endTime - it.startTime : Int) : ℚ) / (1000 * 60) = durationMinutesOf it := by
    unfold durationMinutesOf
    norm_num
  rw [distributionLoop, if_neg hty]
  simp only [hdur]

/-- State of the first loop of `calculateTimeDistribution` after a list of items. -/
theorem distributionLoop_spec : ∀ (items : List ScheduleItem) (d : List (String × ℚ)) (total : ℚ),
    ((d.map Prod.fst).Nodup → ((distributionLoop items (d, total)).1.map Prod.fst).Nodup) ∧
    (∀ c, c ∈ (distributionLoop items (d, total)).1.map Prod.fst ↔
      c ∈ d.map Prod.fst ∨
        ∃ it ∈ items, countedInDistribution it = true ∧ distributionCategory it = c) ∧
    (∀ c, valueAt (distributionLoop items (d, total)).1 c = valueAt d c + minutesUnder items c) ∧
    (distributionLoop items (d, total)).2 = total + countedMinutes items ∧
    ((distributionLoop items (d, total)).1.map Prod.snd).sum =
      (d.map Prod.snd).sum + countedMinutes items := by
  intro items
  induction items with
  | nil =>
    intro d total
    simp [distributionLoop, minutesUnder, countedMinutes]
  | cons it rest ih =>
    intro d total
    by_cases hc : countedInDistribution it = true
    · rw [distributionLoop_count it rest d total hc]
      obtain ⟨h1, h2, h3, h4, h5⟩ := ih
        (addToCategory (distributionCategory it) (durationMinutesOf it) d)
        (total + durationMinutesOf it)
      refine ⟨?_, ?_, ?_, ?_, ?_⟩
      · intro hnd
        apply h1
        rw [addToCategory_keys]
        split_ifs with hmem
        · exact hnd
        · refine List.Nodup.append hnd (List.nodup_singleton _) ?_
          intro a ha hs
          rw [List.mem_singleton] at hs
          rw [hs] at ha
          exact hmem ha
      · intro c
        rw [h2, addToCategory_keys]
        constructor
        · rintro (h | ⟨x, hx, hxc, hxk⟩)
          · split_ifs at h with hmem
            · exact Or.inl h
            · rcases List.mem_append.mp h with h | h
              · exact Or.inl h
              · exact Or.inr ⟨it, List.mem_cons_self _ _, hc, (List.mem_singleton.mp h).symm⟩
          · exact Or.inr ⟨x, List.mem_cons_of_mem _ hx, hxc, hxk⟩
        · rintro (h | ⟨x, hx, hxc, hxk⟩)
          · left
            split_ifs
            · exact h
            · exact List.mem_append_left _ h
          · rcases List.mem_cons.mp hx with rfl | hx
            · left
              split_ifs with hmem
              · rw [← hxk]; exact hmem
              · rw [← hxk]; exact List.mem_append_right _ (List.mem_singleton_self _)
            · exact Or.inr ⟨x, hx, hxc, hxk⟩
      · intro c
        rw [h3, addToCategory_valueAt, minutesUnder_cons]
        by_cases hcat : distributionCategory it = c
        · simp only [hcat, hc, and_self, if_true]
          ring
        · simp only [hcat, and_false, if_false]
          ring
      · rw [h4, countedMinutes_cons, if_pos hc]
        ring
      · rw [h5, addToCategory_sum, countedMinutes_cons, if_pos hc]
        ring
    · have hc' : countedInDistribution it = false := by simpa using hc
      rw [distributionLoop_skip it rest (d, total) hc']
      obtain ⟨h1, h2, h3, h4, h5⟩ := ih d total
      refine ⟨h1, ?_, ?_, ?_, ?_⟩
      · intro c
        rw [h2]
        constructor
        · rintro (h | ⟨x, hx, hxc, hxk⟩)
          · exact Or.inl h
          · exact Or.inr ⟨x, List.mem_cons_of_mem _ hx, hxc, hxk⟩
        · rintro (h | ⟨x, hx, hxc, hxk⟩)
          · exact Or.inl h
          · rcases List.mem_cons.mp hx with rfl | hx
            · rw [hc'] at hxc; exact absurd hxc (by simp)
            · exact Or.inr ⟨x, hx, hxc, hxk⟩
      · intro c
        rw [h3, minutesUnder_cons]
        simp [hc']
      · rw [h4, countedMinutes_cons]
        simp [hc']
      · rw [h5, countedMinutes_cons]
        simp [hc']

theorem valueAt_of_mem : ∀ (d : List (String × ℚ)) (c : String) (v : ℚ),
    (d.map Prod.fst).Nodup → (c, v) ∈ d → valueAt d c = v := by
  intro d
  induction d with
  | nil => intro c v _ h; simp at h
  | cons entry rest ih =>
    intro c v hnd h
    obtain ⟨key, minutes⟩ := entry
    rw [List.map_cons, List.nodup_cons] at hnd
    rcases List.mem_cons.mp h with heq | hmem
    · simp only [Prod.mk.injEq] at heq
      obtain ⟨rfl, rfl⟩ := heq
      have hrest : List.filter (fun entry : String × ℚ => decide (entry.1 = c)) rest = [] := by
        rw [List.filter_eq_nil_iff]
        intro e he hd
        simp only [decide_eq_true_eq] at hd
        exact hnd.1 (List.mem_map.mpr ⟨e, he, hd⟩)
      simp [valueAt, List.filter_cons, hrest]
    · have hne : key ≠ c := by
        intro hk
        exact hnd.1 (List.mem_map.mpr ⟨(c, v), hmem, hk.symm⟩)
      have := ih c v hnd.2 hmem
      unfold valueAt at this ⊢
      simp only [List.filter_cons, hne, decide_False, Bool.false_eq_true, if_false]
      exact this

theorem distributionLoop_filter : ∀ (items : List ScheduleItem) (state : List (String × ℚ) × ℚ),
    distributionLoop (items.filter countedInDistribution) state =
      distributionLoop items state := by
  intro items
  induction items with
  | nil => intro _; rfl
  | cons it rest ih =>
    intro state
    obtain ⟨d, total⟩ := state
    by_cases hc : countedInDistribution it = true
    · rw [List.filter_cons_of_pos hc, distributionLoop_count _ _ _ _ hc,
        distributionLoop_count _ _ _ _ hc, ih]
    · rw [List.filter_cons_of_neg hc, distributionLoop_skip it rest _ (by simpa using hc), ih]

theorem calculateTimeDistribution_keys (items : List ScheduleItem) :
    (calculateTimeDistribution items).map Prod.fst =
      (distributionLoop items ([], 0)).1.map Prod.fst := by
  unfold calculateTimeDistribution
  simp only [List.map_map]
  rfl

theorem mem_calculateTimeDistribution (items : List ScheduleItem) (c : String)
    (e : DistributionEntry) (h : (c, e) ∈ calculateTimeDistribution items) :
    (c, e.minutes) ∈ (distributionLoop items ([], 0)).1 ∧
      e.percentage = if (distributionLoop items ([], 0)).2 > 0 then
        mathRound (toDouble (toDouble (e.minutes / (distributionLoop items ([], 0)).2) * 100))
        else 0 := by
  unfold calculateTimeDistribution at h
  simp only [List.mem_map, Prod.mk.injEq] at h
  obtain ⟨⟨k, v⟩, hmem, hk, he⟩ := h
  simp only at hk he
  subst hk
  rw [← he]
  exact ⟨hmem, rfl⟩

/-- A category is returned exactly when some counted item falls under it. -/
theorem calculateTimeDistribution_mem_keys (items : List ScheduleItem) (c : String) :
    c ∈ (calculateTimeDistribution items).map Prod.fst ↔
      ∃ it ∈ items, it.type ∉ ["BREAK", "BUFFER", "SLEEP"] ∧ distributionCategory it = c := by
  obtain ⟨_, h2, _, _, _⟩ := distributionLoop_spec items [] 0
  rw [calculateTimeDistribution_keys, h2]
  simp [countedInDistribution]

/-- C17, counterexample: a LUNCH item that embeds a WORK task is counted under WORK, not
under REST. -/
theorem calculateTimeDistribution_lunch_with_task :
    workingLunch.type = "LUNCH" ∧
      (calculateTimeDistribution [workingLunch]).map (fun e => (e.1, e.2.minutes)) =
        [("WORK", 60)] := by
  decide!

/-- C17, amended: `calculateTimeDistribution` ignores the items of type BREAK, BUFFER and
SLEEP; it counts an item with an embedded task under that task's category (a LUNCH item
too), a LUNCH item without embedded task under REST and any other item without embedded
task under OTHER; each category is returned once, exactly when a counted item falls under
it, with minutes equal to the sum of the durations of the items counted under it. -/
theorem calculateTimeDistribution_buckets (items : List ScheduleItem) :
    calculateTimeDistribution items =
      calculateTimeDistribution (items.filter fun it => it.type ∉ ["BREAK", "BUFFER", "SLEEP"]) ∧
    (∀ it : ScheduleItem,
      (∀ task, it.task = some task → distributionCategory it = task.category) ∧
      (it.task = none → it.type = "LUNCH" → distributionCategory it = "REST") ∧
      (it.task = none → it.type ≠ "LUNCH" → distributionCategory it = "OTHER")) ∧
    ((calculateTimeDistribution items).map Prod.fst).Nodup ∧
    (∀ c, c ∈ (calculateTimeDistribution items).map Prod.fst ↔
      ∃ it ∈ items, it.type ∉ ["BREAK", "BUFFER", "SLEEP"] ∧ distributionCategory it = c) ∧
    (∀ c e, (c, e) ∈ calculateTimeDistribution items → e.minutes = minutesUnder items c) := by
  obtain ⟨h1, h2, h3, _, _⟩ := distributionLoop_spec items [] 0
  refine ⟨?_, ?_, ?_, ?_, ?_⟩
  · have := distributionLoop_filter items ([], 0)
    unfold calculateTimeDistribution
    unfold countedInDistribution at this
    rw [this]
  · intro it
    unfold distributionCategory
    refine ⟨?_, ?_, ?_⟩
    · intro task h; rw [h]
    · intro h hty; rw [h]; simp [hty]
    · intro h hty; rw [h]; simp [hty]
  · rw [calculateTimeDistribution_keys]
    exact h1 (by simp)
  · intro c
    rw [calculateTimeDistribution_keys, h2]
    simp [countedInDistribution]
  · intro c e he
    obtain ⟨hmem, _⟩ := mem_calculateTimeDistribution items c e he
    have := valueAt_of_mem _ c e.minutes (h1 (by simp)) hmem
    rw [h3] at this
    simpa [valueAt] using this.symm

/-- C18, counterexample: a TASK item without embedded task yields the key OTHER, which is
none of the eight categories. -/
theorem calculateTimeDistribution_other_key :
    looseItem.task = none ∧
      (calculateTimeDistribution [looseItem]).map Prod.fst = ["OTHER"] ∧
      "OTHER" ∉ taskCategories := by
  decide

/-- C18, amended: when every embedded task has one of the eight categories, every key
returned by `calculateTimeDistribution` is one of the eight categories or OTHER, and
OTHER is a key exactly when some item whose type is not BREAK, BUFFER, SLEEP or LUNCH
carries no embedded task. -/
theorem calculateTimeDistribution_key_set (items : List ScheduleItem)
    (hcat : ∀ it ∈ items, ∀ task, it.task = some task → task.category ∈ taskCategories) :
    (∀ c ∈ (calculateTimeDistribution items).map Prod.fst, c ∈ taskCategories ∨ c = "OTHER") ∧
    ("OTHER" ∈ (calculateTimeDistribution items).map Prod.fst ↔
      ∃ it ∈ items, it.type ∉ ["BREAK", "BUFFER", "SLEEP", "LUNCH"] ∧ it.task = none) := by
  have hkeys := calculateTimeDistribution_mem_keys items
  constructor
  · intro c hc
    obtain ⟨it, hit, _, hcatc⟩ := (hkeys c).mp hc
    unfold distributionCategory at hcatc
    cases htask : it.task with
    | some task =>
      rw [htask] at hcatc
      simp only at hcatc
      rw [← hcatc]
      exact Or.inl (hcat it hit task htask)
    | none =>
      rw [htask] at hcatc
      simp only at hcatc
      split_ifs at hcatc
      · rw [← hcatc]; left; decide
      · exact Or.inr hcatc.symm
  · rw [hkeys]
    constructor
    · rintro ⟨it, hit, hty, hcatc⟩
      refine ⟨it, hit, ?_, ?_⟩
      · unfold distributionCategory at hcatc
        cases htask : it.task with
        | some task =>
          rw [htask] at hcatc
          simp only at hcatc
          have := hcat it hit task htask
          rw [hcatc] at this
          exact absurd this (by decide)
        | none =>
          rw [htask] at hcatc
          simp only at hcatc
          split_ifs at hcatc with hl
          · exact absurd hcatc (by decide)
          · simp only [List.mem_cons, List.mem_singleton, List.not_mem_nil, or_false,
              not_or] at hty ⊢
            exact ⟨hty.1, hty.2.1, hty.2.2, hl⟩
      · unfold distributionCategory at hcatc
        cases htask : it.task with
        | some task =>
          rw [htask] at hcatc
          simp only at hcatc
          have := hcat it hit task htask
          rw [hcatc] at this
          exact absurd this (by decide)
        | none => rfl
    · rintro ⟨it, hit, hty, htask⟩
      simp only [List.mem_cons, List.mem_singleton, List.not_mem_nil, or_false,
        not_or] at hty
      refine ⟨it, hit, ?_, ?_⟩
      · simp only [List.mem_cons, List.mem_singleton, List.not_mem_nil, or_false, not_or]
        exact ⟨hty.1, hty.2.1, hty.2.2.1⟩
      · unfold distributionCategory
        rw [htask]
        simp [hty.2.2.2]

theorem calculateTimeDistribution_key_set_witness :
    (∀ it ∈ sampleDay, ∀ task, it.task = some task → task.category ∈ taskCategories) ∧
    (∀ c ∈ (calculateTimeDistribution sampleDay).map Prod.fst,
      c ∈ taskCategories ∨ c = "OTHER") ∧
    ("OTHER" ∈ (calculateTimeDistribution sampleDay).map Prod.fst ↔
      ∃ it ∈ sampleDay, it.type ∉ ["BREAK", "BUFFER", "SLEEP", "LUNCH"] ∧ it.task = none) :=
  ⟨by decide, calculateTimeDistribution_key_set sampleDay (by decide)⟩

theorem mathRound_sub_le (y : ℚ) : |(mathRound y : ℚ) - y| ≤ 1 / 2 := by
  unfold mathRound
  have h1 := Int.floor_le (y + 1 / 2)
  have h2 := Int.lt_floor_add_one (y + 1 / 2)
  rw [abs_le]
  constructor <;> linarith

/-- The share computed in doubles is within three relative roundings of the exact share. -/
theorem share_error (x : ℚ) (hx : 0 ≤ x) :
    |toDouble (toDouble x * 100) - x * 100| ≤ x * 100 * (3 / 2 ^ 53) := by
  have h1 := toDouble_sub_le x hx
  have hy := toDouble_nonneg x hx
  have h2 := toDouble_sub_le (toDouble x * 100) (by linarith)
  rw [abs_le] at *
  have hx53 : x / 2 ^ 53 ≤ x := div_le_self hx (by norm_num)
  have hdiv : toDouble x * 100 / 2 ^ 53 ≤ (x + x / 2 ^ 53) * 100 / 2 ^ 53 := by
    apply div_le_div_of_nonneg_right _ (by norm_num)
    linarith [h1.2]
  have hbound : (x + x / 2 ^ 53) * 100 / 2 ^ 53 ≤ x * 100 * (2 / 2 ^ 53) := by
    have : (x + x / 2 ^ 53) * 100 / 2 ^ 53 = (x + x / 2 ^ 53) * (100 / 2 ^ 53) := by ring
    rw [this]
    have : x * 100 * (2 / 2 ^ 53) = (x + x) * (100 / 2 ^ 53) := by ring
    rw [this]
    exact mul_le_mul_of_nonneg_right (by linarith) (by norm_num)
  have hx1 : x * 100 * (3 / 2 ^ 53) = x * 100 * (2 / 2 ^ 53) + x / 2 ^ 53 * 100 := by ring
  constructor
  · linarith [h1.1, h2.1]
  · linarith [h1.2, h2.2]

/-- The returned percentage is within one half, plus the rounding of the share, of the
exact share. -/
theorem percentage_error (x : ℚ) (hx : 0 ≤ x) :
    |(mathRound (toDouble (toDouble x * 100)) : ℚ) - x * 100| ≤
      1 / 2 + x * 100 * (3 / 2 ^ 53) := by
  have h1 := mathRound_sub_le (toDouble (toDouble x * 100))
  have h2 := share_error x hx
  rw [abs_le] at *
  constructor <;> linarith [h1.1, h1.2, h2.1, h2.2]

/-- Rounding the shares computed in doubles moves their sum by at most half the number
of terms plus the accumulated rounding of the shares. -/
theorem abs_sum_percentage_sub_le (total : ℚ) (htotal : 0 < total) :
    ∀ (d : List (String × ℚ)), (∀ entry ∈ d, 0 ≤ entry.2) →
      |((((d.map fun entry =>
          mathRound (toDouble (toDouble (entry.2 / total) * 100))).sum : Int) : ℚ)) -
        (d.map fun entry => entry.2 / total * 100).sum| ≤
        (d.length : ℚ) / 2 + (d.map fun entry => entry.2 / total * 100).sum * (3 / 2 ^ 53) := by
  intro d
  induction d with
  | nil => intro _; simp
  | cons entry rest ih =>
    intro hnn
    have hx : 0 ≤ entry.2 / total :=
      div_nonneg (hnn entry (List.mem_cons_self _ _)) htotal.le
    have h1 := percentage_error (entry.2 / total) hx
    have h2 := ih fun e he => hnn e (List.mem_cons_of_mem _ he)
    have hsplit : ((((List.map (fun entry : String × ℚ =>
          mathRound (toDouble (toDouble (entry.2 / total) * 100))) (entry :: rest)).sum : Int) : ℚ)) -
        (List.map (fun entry : String × ℚ => entry.2 / total * 100) (entry :: rest)).sum =
        ((mathRound (toDouble (toDouble (entry.2 / total) * 100)) : ℚ) - entry.2 / total * 100) +
        ((((rest.map fun entry : String × ℚ =>
          mathRound (toDouble (toDouble (entry.2 / total) * 100))).sum : Int) : ℚ) -
          (rest.map fun entry : String × ℚ => entry.2 / total * 100).sum) := by
      simp only [List.map_cons, List.sum_cons]
      push_cast
      ring
    have hlen : (((entry :: rest).length : Nat) : ℚ) / 2 = 1 / 2 + (rest.length : ℚ) / 2 := by
      simp only [List.length_cons]
      push_cast
      ring
    have hsum : (List.map (fun entry : String × ℚ => entry.2 / total * 100) (entry :: rest)).sum =
        entry.2 / total * 100 + (rest.map fun entry : String × ℚ => entry.2 / total * 100).sum := by
      simp only [List.map_cons, List.sum_cons]
    rw [hsplit, hlen, hsum]
    generalize (((rest.map fun entry : String × ℚ =>
      mathRound (toDouble (toDouble (entry.2 / total) * 100))).sum : Int) : ℚ) = A at h2 ⊢
    generalize (rest.map fun entry : String × ℚ => entry.2 / total * 100).sum = B at h2 ⊢
    rw [abs_le] at *
    constructor <;> linarith [h1.1, h1.2, h2.1, h2.2]

theorem sum_map_share (total : ℚ) : ∀ (d : List (String × ℚ)),
    (d.map fun entry => entry.2 / total * 100).sum = (d.map Prod.snd).sum / total * 100 := by
  intro d
  induction d with
  | nil => simp
  | cons entry rest ih =>
    simp only [List.map_cons, List.sum_cons, ih]
    ring

theorem countedMinutes_nonneg : ∀ (items : List ScheduleItem),
    (∀ it ∈ items, it.startTime ≤ it.endTime) → 0 ≤ countedMinutes items := by
  intro items
  induction items with
  | nil => intro _; simp [countedMinutes]
  | cons it rest ih =>
    intro h
    rw [countedMinutes_cons]
    have hrest := ih fun x hx => h x (List.mem_cons_of_mem _ hx)
    have hd : (0 : ℚ) ≤ durationMinutesOf it := by
      unfold durationMinutesOf
      have := h it (List.mem_cons_self _ _)
      have h0 : (0 : ℚ) ≤ ((it.endTime - it.startTime : Int) : ℚ) := by
        exact_mod_cast (by omega : (0 : Int) ≤ it.endTime - it.startTime)
      positivity
    split_ifs <;> linarith

theorem addToCategory_nonneg (category : String) (durationMinutes : ℚ)
    (hd : 0 ≤ durationMinutes) : ∀ (d : List (String × ℚ)), (∀ entry ∈ d, 0 ≤ entry.2) →
      ∀ entry ∈ addToCategory category durationMinutes d, 0 ≤ entry.2 := by
  intro d
  induction d with
  | nil =>
    intro _ entry he
    simp only [addToCategory, List.mem_singleton] at he
    rw [he]
    simpa using hd
  | cons x rest ih =>
    intro hnn entry he
    obtain ⟨key, minutes⟩ := x
    have hx := hnn (key, minutes) (List.mem_cons_self _ _)
    unfold addToCategory at he
    split at he
    · rcases List.mem_cons.mp he with rfl | he
      · simp only at hx ⊢
        linarith
      · exact hnn entry (List.mem_cons_of_mem _ he)
    · rcases List.mem_cons.mp he with rfl | he
      · exact hx
      · exact ih (fun e h => hnn e (List.mem_cons_of_mem _ h)) entry he

/-- The minutes stored by the first loop are non-negative when no item ends before it
starts. -/
theorem distributionLoop_nonneg : ∀ (items : List ScheduleItem) (d : List (String × ℚ))
    (total : ℚ), (∀ it ∈ items, it.startTime ≤ it.endTime) → (∀ entry ∈ d, 0 ≤ entry.2) →
    ∀ entry ∈ (distributionLoop items (d, total)).1, 0 ≤ entry.2 := by
  intro items
  induction items with
  | nil => intro d total _ hd; simpa [distributionLoop] using hd
  | cons it rest ih =>
    intro d total hnn hd
    have hrest : ∀ x ∈ rest, x.startTime ≤ x.endTime :=
      fun x hx => hnn x (List.mem_cons_of_mem _ hx)
    unfold distributionLoop
    split
    · exact ih d total hrest hd
    · apply ih _ _ hrest
      apply addToCategory_nonneg _ _ _ d hd
      have := hnn it (List.mem_cons_self _ _)
      have h0 : (0 : ℚ) ≤ ((it.endTime - it.startTime : Int) : ℚ) := by
        exact_mod_cast (by omega : (0 : Int) ≤ it.endTime - it.startTime)
      positivity

/-- The returned percentages, entry by entry. -/
theorem calculateTimeDistribution_percentage_list (items : List ScheduleItem) :
    (calculateTimeDistribution items).map (fun e => e.2.percentage) =
      (distributionLoop items ([], 0)).1.map fun entry =>
        if countedMinutes items > 0 then
          mathRound (toDouble (toDouble (entry.2 / countedMinutes items) * 100))
        else 0 := by
  obtain ⟨_, _, _, h4, _⟩ := distributionLoop_spec items [] 0
  rw [zero_add] at h4
  unfold calculateTimeDistribution
  simp only [List.map_map, h4]
  rfl

/-- C19, counterexample: with 23 counted minutes under WORK and 17 under OTHER the share
of WORK is 57.5, which rounds to 58, whereas the code reports 57: in doubles
`23 / 40 * 100` is 57.49999999999999. -/
theorem calculateTimeDistribution_below_share :
    (∀ it ∈ [report23, errand17], it.startTime ≤ it.endTime) ∧
    countedMinutes [report23, errand17] = 40 ∧
    calculateTimeDistribution [report23, errand17] =
      [("WORK", { minutes := 23, percentage := 57 }),
        ("OTHER", { minutes := 17, percentage := 43 })] ∧
    round ((23 : ℚ) / 40 * 100) = 58 := by
  decide!

/-- C19, amended: for items that do not end before they start, the total of counted
minutes is non-negative; when it is positive each returned percentage is `Math.round` of
the share minutes / total * 100 computed in doubles (the division and the multiplication
round to the nearest double), which is within 1/2 + share * 3 / 2^53 of the exact share,
and the percentages sum to 100 up to half the number of returned categories; when the
total is 0 every returned percentage is 0. -/
theorem calculateTimeDistribution_percentages (items : List ScheduleItem)
    (hnn : ∀ it ∈ items, it.startTime ≤ it.endTime) :
    0 ≤ countedMinutes items ∧
    (0 < countedMinutes items →
      (∀ c e, (c, e) ∈ calculateTimeDistribution items →
        e.percentage =
          mathRound (toDouble (toDouble (e.minutes / countedMinutes items) * 100)) ∧
        |(e.percentage : ℚ) - e.minutes / countedMinutes items * 100| ≤
          1 / 2 + e.minutes / countedMinutes items * 100 * (3 / 2 ^ 53)) ∧
      |((((calculateTimeDistribution items).map fun e => e.2.percentage).sum : Int) : ℚ) - 100| ≤
        ((calculateTimeDistribution items).length : ℚ) / 2) ∧
    (countedMinutes items = 0 →
      ∀ c e, (c, e) ∈ calculateTimeDistribution items → e.percentage = 0) := by
  obtain ⟨_, _, _, h4, h5⟩ := distributionLoop_spec items [] 0
  rw [zero_add] at h4
  simp only [List.map_nil, List.sum_nil, zero_add] at h5
  have hvals := distributionLoop_nonneg items [] 0 hnn (by simp)
  refine ⟨countedMinutes_nonneg items hnn, ?_, ?_⟩
  · intro hpos
    constructor
    · intro c e he
      obtain ⟨hmem, hp⟩ := mem_calculateTimeDistribution items c e he
      rw [h4, if_pos hpos] at hp
      refine ⟨hp, ?_⟩
      rw [hp]
      exact percentage_error _ (div_nonneg (hvals _ hmem) hpos.le)
    · have hlen : (calculateTimeDistribution items).length =
          (distributionLoop items ([], 0)).1.length := by
        simp [calculateTimeDistribution]
      have hlist : (calculateTimeDistribution items).map (fun e => e.2.percentage) =
          (distributionLoop items ([], 0)).1.map fun entry : String × ℚ =>
            mathRound (toDouble (toDouble (entry.2 / countedMinutes items) * 100)) := by
        rw [calculateTimeDistribution_percentage_list]
        apply List.map_congr_left
        intro entry _
        rw [if_pos hpos]
      have hsum : ((distributionLoop items ([], 0)).1.map fun entry : String × ℚ =>
          entry.2 / countedMinutes items * 100).sum = 100 := by
        rw [sum_map_share, h5]
        field_simp
      have key := abs_sum_percentage_sub_le (countedMinutes items) hpos
        (distributionLoop items ([], 0)).1 hvals
      rw [hsum] at key
      rw [hlist, hlen]
      generalize (((distributionLoop items ([], 0)).1.map fun entry : String × ℚ =>
        mathRound (toDouble (toDouble (entry.2 / countedMinutes items) * 100))).sum : Int) = P
        at key ⊢
      generalize (distributionLoop items ([], 0)).1.length = n at key ⊢
      have hD : ((|P - 100| : Int) : ℚ) = |(P : ℚ) - 100| := by
        rw [Int.cast_abs]
        push_cast
        rfl
      rw [← hD] at key ⊢
      generalize |P - 100| = D at key ⊢
      have hsmall : (100 : ℚ) * (3 / 2 ^ 53) < 1 / 2 := by norm_num
      have h3 : ((2 * D : Int) : ℚ) < ((n + 1 : Int) : ℚ) := by
        push_cast
        linarith
      have h4 : 2 * D < (n : Int) + 1 := by exact_mod_cast h3
      have h5 : 2 * D ≤ (n : Int) := by omega
      have h6 : ((2 * D : Int) : ℚ) ≤ ((n : Int) : ℚ) := by exact_mod_cast h5
      push_cast at h6
      linarith
  · intro hzero c e he
    obtain ⟨_, hp⟩ := mem_calculateTimeDistribution items c e he
    rw [hp, h4, hzero]
    simp

theorem calculateTimeDistribution_percentages_witness :
    (∀ it ∈ sampleDay, it.startTime ≤ it.endTime) ∧
    0 ≤ countedMinutes sampleDay ∧
    (0 < countedMinutes sampleDay →
      (∀ c e, (c, e) ∈ calculateTimeDistribution sampleDay →
        e.percentage =
          mathRound (toDouble (toDouble (e.minutes / countedMinutes sampleDay) * 100)) ∧
        |(e.percentage : ℚ) - e.minutes / countedMinutes sampleDay * 100| ≤
          1 / 2 + e.minutes / countedMinutes sampleDay * 100 * (3 / 2 ^ 53)) ∧
      |((((calculateTimeDistribution sampleDay).map fun e => e.2.percentage).sum : Int) : ℚ)
          - 100| ≤ ((calculateTimeDistribution sampleDay).length : ℚ) / 2) ∧
    (countedMinutes sampleDay = 0 →
      ∀ c e, (c, e) ∈ calculateTimeDistribution sampleDay → e.percentage = 0) :=
  ⟨by decide, calculateTimeDistribution_percentages sampleDay (by decide)⟩

/-! ## Lemmas: a task is placed exactly when a free window exists -/

theorem windowFree_iff (slots : List Slot) (i n : Nat) :
    windowFree slots i n = true ↔
      i + n ≤ slots.length ∧
        ∀ j, i ≤ j → j < i + n → ∃ s, slots[j]? = some s ∧ s.occupied = false := by
  unfold windowFree
  rw [decide_eq_true_eq]
  constructor
  · rintro ⟨hb, hfree⟩
    refine ⟨hb, fun j h1 h2 => ?_⟩
    have := hfree (j - i) (by omega)
    rw [show i + (j - i) = j by omega] at this
    cases hs : slots[j]? with
    | none => rw [hs] at this; simp at this
    | some s => rw [hs] at this; exact ⟨s, rfl, by simpa using this⟩
  · rintro ⟨hb, hfree⟩
    refine ⟨hb, fun j hj => ?_⟩
    obtain ⟨s, hs, hocc⟩ := hfree (i + j) (by omega) (by omega)
    rw [hs]
    simp [hocc]

theorem allAvailable_of_free (slots : List Slot) :
    ∀ (count k : Nat),
      (∀ j, k ≤ j → j < k + count → ∃ s, slots[j]? = some s ∧ s.occupied = false) →
      allAvailable slots k count = some true := by
  intro count
  induction count with
  | zero => intro k _; rfl
  | succ count ih =>
    intro k h
    obtain ⟨s, hs, hocc⟩ := h k (Nat.le_refl _) (by omega)
    unfold allAvailable
    rw [hs]
    simp only [hocc, Bool.false_eq_true, if_false]
    exact ih (k + 1) fun j h1 h2 => h j (by omega) (by omega)

/-- The source's availability test succeeds on a window inside the grid exactly when the
window is free. -/
theorem allAvailable_iff_windowFree (slots : List Slot) (i n : Nat)
    (hb : i + n ≤ slots.length) :
    allAvailable slots i n = some true ↔ windowFree slots i n = true := by
  rw [windowFree_iff]
  constructor
  · intro h
    exact ⟨hb, allAvailable_true_free slots n i h⟩
  · rintro ⟨_, h⟩
    exact allAvailable_of_free slots n i h

/-- Every window scores above the initial best score -1. -/
theorem slotScore_pos (task : Task) (slots : List Slot) (i : Nat) (score : ℚ)
    (h : slotScore task slots i = some score) : -1 < score := by
  unfold slotScore at h
  split at h
  · exact absurd h (by simp)
  · rename_i slot hslot
    have hi : i < slots.length := by
      by_contra hc
      rw [List.getElem?_eq_none (by omega)] at hslot
      exact absurd hslot (by simp)
    have hlen : (0 : ℚ) < (slots.length : ℚ) := by exact_mod_cast (by omega : 0 < slots.length)
    have hile : (i : ℚ) ≤ (slots.length : ℚ) := by exact_mod_cast hi.le
    have hu0 : 0 ≤ ((slots.length : ℚ) - (i : ℚ)) / (slots.length : ℚ) :=
      div_nonneg (by linarith) hlen.le
    have hurg0 : 0 ≤
        toDouble (toDouble (((slots.length : ℚ) - (i : ℚ)) / (slots.length : ℚ)) * 2) :=
      toDouble_nonneg _ (mul_nonneg (toDouble_nonneg _ hu0) (by norm_num))
    have he : ∀ (a b : Prop) [Decidable a] [Decidable b],
        0 ≤ toDouble (0 + (if a then (3 : ℚ) else if b then 2 else 1)) := by
      intro a b _ _
      apply toDouble_nonneg
      split_ifs <;> norm_num
    simp only [Option.some.injEq] at h
    rw [← h]
    refine lt_of_lt_of_le (by norm_num : (-1 : ℚ) < 0) ?_
    have h1 := he (slot.energyLevel = EnergyLevel.high) (slot.energyLevel = EnergyLevel.medium)
    have h2 := he (slot.energyLevel = EnergyLevel.low) (slot.energyLevel = EnergyLevel.medium)
    generalize toDouble (0 + (if slot.energyLevel = EnergyLevel.high then (3 : ℚ)
      else if slot.energyLevel = EnergyLevel.medium then 2 else 1)) = e1 at h1 ⊢
    generalize toDouble (0 + (if slot.energyLevel = EnergyLevel.low then (3 : ℚ)
      else if slot.energyLevel = EnergyLevel.medium then 2 else 1)) = e2 at h2 ⊢
    generalize toDouble (toDouble (((slots.length : ℚ) - (i : ℚ)) / (slots.length : ℚ)) * 2)
      = u at hurg0 ⊢
    have hs1 : 0 ≤ (if isIntensiveOf task = true then e1 else e2) := by
      split_ifs
      · exact h1
      · exact h2
    generalize (if isIntensiveOf task = true then e1 else e2) = s1 at hs1 ⊢
    have hs2 := addScore_nonneg (task.priority = "URGENT" ∨ task.priority = "HIGH") s1 u hs1 hurg0
    generalize (if task.priority = "URGENT" ∨ task.priority = "HIGH" then toDouble (s1 + u)
      else s1) = s2 at hs2 ⊢
    split
    · exact hs2
    · exact addScore_nonneg _ _ _
        (addScore_nonneg _ _ _ (addScore_nonneg _ _ _ hs2 (by norm_num)) (by norm_num))
        (by norm_num)

/-- Starting from "no best yet", the scan ends with a best index as soon as one scanned
window is free. -/
theorem scanWindows_finds (task : Task) (slots : List Slot) (slotsNeeded : Nat) :
    ∀ (indices : List Nat) (best : Option Nat) (bestScore : ℚ) (result : Option Nat × ℚ),
      scanWindows task slots slotsNeeded indices (best, bestScore) = some result →
      (best ≠ none ∨ (bestScore = -1 ∧
        ∃ i ∈ indices, allAvailable slots i slotsNeeded = some true)) →
      result.1 ≠ none := by
  intro indices
  induction indices with
  | nil =>
    intro best bestScore result h hcase
    simp only [scanWindows, Option.some.injEq] at h
    rw [← h]
    rcases hcase with hb | ⟨_, i, hi, _⟩
    · exact hb
    · simp at hi
  | cons i rest ih =>
    intro best bestScore result h hcase
    unfold scanWindows at h
    split at h
    · exact absurd h (by simp)
    · rename_i hav
      apply ih _ _ _ h
      rcases hcase with hb | ⟨hs, k, hk, hkav⟩
      · exact Or.inl hb
      · rcases List.mem_cons.mp hk with rfl | hk
        · rw [hav] at hkav; exact absurd hkav (by simp)
        · exact Or.inr ⟨hs, k, hk, hkav⟩
    · split at h
      · exact absurd h (by simp)
      · rename_i score hscore
        split at h
        · exact ih _ _ _ h (Or.inl (by simp))
        · rename_i hnot
          apply ih _ _ _ h
          rcases hcase with hb | ⟨hs, _⟩
          · exact Or.inl hb
          · exfalso
            have := slotScore_pos task slots i score hscore
            rw [hs] at hnot
            exact hnot this

/-- The scan returns a start index as soon as some window is free. -/
theorem findBestSlot_finds (task : Task) (slots : List Slot) (i : Nat)
    (hpos : 0 < slotsNeededOf task) (hfree : windowFree slots i (slotsNeededOf task) = true) :
    ∃ best, findBestSlot task slots = some (some best) := by
  obtain ⟨result, hres⟩ := findBestSlot_isSome task slots hpos
  have hb := ((windowFree_iff slots i _).mp hfree).1
  have hav := (allAvailable_iff_windowFree slots i _ hb).mpr hfree
  unfold findBestSlot at hres
  rw [Option.map_eq_some'] at hres
  obtain ⟨r, hr, hfst⟩ := hres
  have hne := scanWindows_finds task slots _ _ _ _ _ hr
    (Or.inr ⟨rfl, i, by rw [List.mem_range]; omega, hav⟩)
  rw [hfst] at hne
  cases result with
  | none => exact absurd rfl hne
  | some best =>
    refine ⟨best, ?_⟩
    unfold findBestSlot
    rw [hr, ← hfst]
    rfl

/-- The marking loop marks exactly the slots of the window and changes nothing else. -/
theorem markOccupied_getElem? :
    ∀ (count : Nat) (slots : List Slot) (k : Nat) (marked : List Slot),
      markOccupied slots k count = some marked →
      ∀ j, marked[j]? = markedWindowAt slots k count j := by
  intro count
  induction count with
  | zero =>
    intro slots k marked h j
    simp only [markOccupied, Option.some.injEq] at h
    subst h
    unfold markedWindowAt
    cases slots[j]? with
    | none => rfl
    | some s =>
      simp only [Option.map_some', Nat.add_zero]
      rw [if_neg (by omega)]
  | succ count ih =>
    intro slots k marked h j
    unfold markOccupied at h
    split at h
    · exact absurd h (by simp)
    · rename_i slot hslot
      rw [ih _ _ _ h j]
      unfold markedWindowAt
      by_cases hjk : k = j
      · subst hjk
        have hk : k < slots.length := by
          by_contra hc
          rw [List.getElem?_eq_none (by omega)] at hslot
          exact absurd hslot (by simp)
        rw [List.getElem?_set_self hk, hslot]
        simp [show ¬ (k + 1 ≤ k ∧ k < k + 1 + count) by omega,
          show k < k + (count + 1) by omega]
      · rw [List.getElem?_set_ne hjk]
        cases slots[j]? with
        | none => rfl
        | some s =>
          by_cases hw : k ≤ j ∧ j < k + (count + 1)
          · simp [hw, show k + 1 ≤ j ∧ j < k + 1 + count by omega]
          · simp [hw, show ¬ (k + 1 ≤ j ∧ j < k + 1 + count) by omega]

/-- One iteration of the task loop, step by step: either no window was found and nothing
changes, or the window found is marked, the TASK item is pushed, and the break, if any,
takes the slot after the window. -/
theorem placeTask_detail (slots slots' : List Slot) (items items' : List ScheduleItem)
    (task : Task) (h : placeTask (slots, items) task = some (slots', items')) :
    (findBestSlot task slots = some none ∧ slots' = slots ∧ items' = items) ∨
    ∃ best marked first,
      findBestSlot task slots = some (some best) ∧
      markOccupied slots best (slotsNeededOf task) = some marked ∧
      marked[best]? = some first ∧
      ((slots' = marked ∧ items' = items ++ [taskItem task first.start] ∧
          ¬ (isIntensiveOf task = true ∧ 60 ≤ task.duration ∧
            ∃ b, marked[best + slotsNeededOf task]? = some b ∧ b.occupied = false)) ∨
        (isIntensiveOf task = true ∧ 60 ≤ task.duration ∧
          ∃ b, marked[best + slotsNeededOf task]? = some b ∧ b.occupied = false ∧
            slots' = marked.set (best + slotsNeededOf task) { b with occupied := true } ∧
            items' = items ++ [taskItem task first.start,
              breakItem (addMinutes first.start task.duration)])) := by
  unfold placeTask at h
  simp only at h
  split at h
  · exact absurd h (by simp)
  · rename_i hfind
    simp only [Option.some.injEq, Prod.mk.injEq] at h
    exact Or.inl ⟨hfind, h.1.symm, h.2.symm⟩
  · rename_i best hbest
    right
    split at h
    · exact absurd h (by simp)
    · rename_i marked hmarked
      split at h
      · exact absurd h (by simp)
      · rename_i first hfirst
        refine ⟨best, marked, first, hbest, hmarked, hfirst, ?_⟩
        split at h
        · rename_i hint
          split at h
          · rename_i breakSlot hbreak
            have hbs : marked[best + slotsNeededOf task]? = some breakSlot := by
              split at hbreak
              · exact hbreak
              · exact absurd hbreak (by simp)
            split at h
            · rename_i hfree
              simp only [Option.some.injEq, Prod.mk.injEq] at h
              right
              refine ⟨hint.1, hint.2, breakSlot, hbs, by simpa using hfree, h.1.symm, ?_⟩
              rw [← h.2]
              simp
            · rename_i hocc
              simp only [Option.some.injEq, Prod.mk.injEq] at h
              left
              refine ⟨h.1.symm, h.2.symm, ?_⟩
              rintro ⟨_, _, b, hb, hbfree⟩
              rw [hbs] at hb
              simp only [Option.some.injEq] at hb
              subst hb
              exact hocc (by simp [hbfree])
          · rename_i hbreak
            simp only [Option.some.injEq, Prod.mk.injEq] at h
            left
            refine ⟨h.1.symm, h.2.symm, ?_⟩
            rintro ⟨_, _, b, hb, _⟩
            split at hbreak
            · rw [hb] at hbreak; exact absurd hbreak (by simp)
            · rename_i hlt
              have : best + slotsNeededOf task < marked.length := by
                by_contra hc
                rw [List.getElem?_eq_none (by omega)] at hb
                exact absurd hb (by simp)
              exact hlt this
        · rename_i hint
          simp only [Option.some.injEq, Prod.mk.injEq] at h
          left
          refine ⟨h.1.symm, h.2.symm, ?_⟩
          rintro ⟨h1, h2, _⟩
          exact hint ⟨h1, h2⟩

/-- C20: when a task of positive duration is processed on the grid `slots`, the
iteration completes and the task is placed (a TASK item is pushed) if and only if some
start index `i` with `i + slotsNeeded <= slots.length` heads `slotsNeeded` unoccupied
slots. When placed, the TASK item starts at the start of the slot of such an index `i`,
and the marking loop marks exactly the `slotsNeeded` slots from `i` (`marked`); the grid
left by the iteration differs from `marked` at most in the slot after the window, which
the break takes. Otherwise the grid and the items are unchanged. -/
theorem placeTask_iff_free_window (slots : List Slot) (items : List ScheduleItem)
    (task : Task) (hpos : 0 < task.duration) :
    ∃ slots' items', placeTask (slots, items) task = some (slots', items') ∧
      ((∃ i, windowFree slots i (slotsNeededOf task) = true) ↔
        ∃ s rest, items' = items ++ taskItem task s :: rest) ∧
      ((∃ i, windowFree slots i (slotsNeededOf task) = true) →
        ∃ i first marked rest,
          windowFree slots i (slotsNeededOf task) = true ∧ slots[i]? = some first ∧
          items' = items ++ taskItem task first.start :: rest ∧
          (∀ r ∈ rest, r.type = "BREAK") ∧
          markOccupied slots i (slotsNeededOf task) = some marked ∧
          (∀ j, marked[j]? = markedWindowAt slots i (slotsNeededOf task) j) ∧
          (∀ j, j ≠ i + slotsNeededOf task → slots'[j]? = marked[j]?)) ∧
      ((¬ ∃ i, windowFree slots i (slotsNeededOf task) = true) →
        slots' = slots ∧ items' = items) := by
  have hn := slotsNeededOf_pos task hpos
  obtain ⟨⟨slots', items'⟩, hrun⟩ := placeTask_isSome (slots, items) task hpos
  refine ⟨slots', items', hrun, ?_⟩
  rcases placeTask_detail slots slots' items items' task hrun with
    ⟨hfind, hs, hi⟩ | ⟨best, marked, first, hfind, hmarked, hfirst, hcase⟩
  · have hnone : ¬ ∃ i, windowFree slots i (slotsNeededOf task) = true := by
      rintro ⟨i, hfree⟩
      obtain ⟨b, hb⟩ := findBestSlot_finds task slots i hn hfree
      rw [hfind] at hb
      exact absurd hb (by simp)
    refine ⟨⟨fun h => absurd h hnone, ?_⟩, fun h => absurd h hnone, fun _ => ⟨hs, hi⟩⟩
    rintro ⟨s, rest, hrest⟩
    rw [hi] at hrest
    have := congrArg List.length hrest
    simp at this
  · obtain ⟨hbound, hav⟩ := findBestSlot_some task slots best hfind
    have hfree := (allAvailable_iff_windowFree slots best _ hbound).mp hav
    have hget := markOccupied_getElem? _ _ _ _ hmarked
    have hbest := hget best
    rw [hfirst] at hbest
    unfold markedWindowAt at hbest
    have hstart : ∃ s0, slots[best]? = some s0 ∧ s0.start = first.start := by
      cases hs0 : slots[best]? with
      | none => rw [hs0] at hbest; simp at hbest
      | some s0 =>
        rw [hs0] at hbest
        simp only [Option.map_some', Option.some.injEq] at hbest
        refine ⟨s0, rfl, ?_⟩
        rw [hbest]
        split_ifs <;> rfl
    obtain ⟨s0, hs0, hs0start⟩ := hstart
    have hitems : ∃ rest, items' = items ++ taskItem task s0.start :: rest ∧
        (∀ r ∈ rest, r.type = "BREAK") ∧
        (∀ j, j ≠ best + slotsNeededOf task → slots'[j]? = marked[j]?) := by
      rcases hcase with ⟨h1, h2, _⟩ | ⟨_, _, b, _, _, h1, h2⟩
      · exact ⟨[], by rw [h2, hs0start], by simp, fun j _ => by rw [h1]⟩
      · refine ⟨[breakItem (addMinutes first.start task.duration)], by rw [h2, hs0start],
          ?_, ?_⟩
        · intro r hr
          rw [List.mem_singleton] at hr
          rw [hr]
          rfl
        · intro j hj
          rw [h1, List.getElem?_set_ne (Ne.symm hj)]
    obtain ⟨rest, hrest, hbreaks, hgrid⟩ := hitems
    refine ⟨⟨fun _ => ⟨s0.start, rest, hrest⟩, fun _ => ⟨best, hfree⟩⟩, ?_, ?_⟩
    · intro _
      exact ⟨best, s0, marked, rest, hfree, hs0, hrest, hbreaks, hmarked, hget, hgrid⟩
    · intro hno
      exact absurd ⟨best, hfree⟩ hno

theorem placeTask_iff_free_window_witness :
    0 < deepWork.duration ∧
    ∃ slots' items',
      placeTask (markLunch 0 (buildSlots shortDay 0), [lunchItem 0]) deepWork =
        some (slots', items') ∧
      ((∃ i, windowFree (markLunch 0 (buildSlots shortDay 0)) i (slotsNeededOf deepWork) = true) ↔
        ∃ s rest, items' = [lunchItem 0] ++ taskItem deepWork s :: rest) ∧
      ((∃ i, windowFree (markLunch 0 (buildSlots shortDay 0)) i (slotsNeededOf deepWork) = true) →
        ∃ i first marked rest,
          windowFree (markLunch 0 (buildSlots shortDay 0)) i (slotsNeededOf deepWork) = true ∧
          (markLunch 0 (buildSlots shortDay 0))[i]? = some first ∧
          items' = [lunchItem 0] ++ taskItem deepWork first.start :: rest ∧
          (∀ r ∈ rest, r.type = "BREAK") ∧
          markOccupied (markLunch 0 (buildSlots shortDay 0)) i (slotsNeededOf deepWork) =
            some marked ∧
          (∀ j, marked[j]? =
            markedWindowAt (markLunch 0 (buildSlots shortDay 0)) i (slotsNeededOf deepWork) j) ∧
          (∀ j, j ≠ i + slotsNeededOf deepWork → slots'[j]? = marked[j]?)) ∧
      ((¬ ∃ i, windowFree (markLunch 0 (buildSlots shortDay 0)) i (slotsNeededOf deepWork) = true) →
        slots' = markLunch 0 (buildSlots shortDay 0) ∧ items' = [lunchItem 0]) :=
  ⟨by decide, placeTask_iff_free_window _ _ deepWork (by decide)⟩

/-! ## Claim about getEnergyLevel -/

/-- C26: `getEnergyLevel` by peak preference: morning gives high on 6-12, medium on 12-17,
else low; afternoon gives high on 12-17, medium on 6-12, else low; evening gives high on
17-22, medium on 12-17, else low; any other preference gives high on 9-12, medium on
14-17, else low (hour ranges include their lower bound and exclude their upper bound). -/
theorem getEnergyLevel_table (hour : Nat) (peakTime : String) :
    (peakTime = "morning" →
      (getEnergyLevel hour peakTime = EnergyLevel.high ↔ 6 ≤ hour ∧ hour < 12) ∧
      (getEnergyLevel hour peakTime = EnergyLevel.medium ↔ 12 ≤ hour ∧ hour < 17) ∧
      (getEnergyLevel hour peakTime = EnergyLevel.low ↔ hour < 6 ∨ 17 ≤ hour)) ∧
    (peakTime = "afternoon" →
      (getEnergyLevel hour peakTime = EnergyLevel.high ↔ 12 ≤ hour ∧ hour < 17) ∧
      (getEnergyLevel hour peakTime = EnergyLevel.medium ↔ 6 ≤ hour ∧ hour < 12) ∧
      (getEnergyLevel hour peakTime = EnergyLevel.low ↔ hour < 6 ∨ 17 ≤ hour)) ∧
    (peakTime = "evening" →
      (getEnergyLevel hour peakTime = EnergyLevel.high ↔ 17 ≤ hour ∧ hour < 22) ∧
      (getEnergyLevel hour peakTime = EnergyLevel.medium ↔ 12 ≤ hour ∧ hour < 17) ∧
      (getEnergyLevel hour peakTime = EnergyLevel.low ↔ hour < 12 ∨ 22 ≤ hour)) ∧
    (peakTime ≠ "morning" ∧ peakTime ≠ "afternoon" ∧ peakTime ≠ "evening" →
      (getEnergyLevel hour peakTime = EnergyLevel.high ↔ 9 ≤ hour ∧ hour < 12) ∧
      (getEnergyLevel hour peakTime = EnergyLevel.medium ↔ 14 ≤ hour ∧ hour < 17) ∧
      (getEnergyLevel hour peakTime = EnergyLevel.low ↔
        hour < 9 ∨ (12 ≤ hour ∧ hour < 14) ∨ 17 ≤ hour)) := by
  refine ⟨?_, ?_, ?_, ?_⟩
  · intro h
    subst h
    simp only [getEnergyLevel, if_true]
    split_ifs <;> simp <;> omega
  · intro h
    subst h
    have h1 : ¬ ("afternoon" = "morning") := by decide
    simp only [getEnergyLevel, if_neg h1, if_true]
    split_ifs <;> simp <;> omega
  · intro h
    subst h
    have h1 : ¬ ("evening" = "morning") := by decide
    have h2 : ¬ ("evening" = "afternoon") := by decide
    simp only [getEnergyLevel, if_neg h1, if_neg h2, if_true]
    split_ifs <;> simp <;> omega
  · rintro ⟨h1, h2, h3⟩
    simp only [getEnergyLevel, if_neg h1, if_neg h2, if_neg h3]
    split_ifs <;> simp <;> omega

theorem getEnergyLevel_table_witness :
    ("" ≠ "morning" ∧ "" ≠ "afternoon" ∧ "" ≠ "evening") ∧
      (getEnergyLevel 10 "" = EnergyLevel.high ↔ 9 ≤ 10 ∧ 10 < 12) ∧
      (getEnergyLevel 10 "" = EnergyLevel.medium ↔ 14 ≤ 10 ∧ 10 < 17) ∧
      (getEnergyLevel 10 "" = EnergyLevel.low ↔ 10 < 9 ∨ (12 ≤ 10 ∧ 10 < 14) ∨ 17 ≤ 10) :=
  ⟨by decide, (getEnergyLevel_table 10 "").2.2.2 (by decide)⟩

/-! ## Claim about adding work -/

theorem mathRound_mono {x y : ℚ} (h : x ≤ y) : mathRound x ≤ mathRound y := by
  unfold mathRound
  exact Int.floor_mono (by linarith)

/-- Appending an item never lowers the accumulated load when no item ends before it
starts. -/
theorem specSumDouble_append_le (items : List ScheduleItem) (x : ScheduleItem)
    (hitems : ∀ it ∈ items, it.startTime ≤ it.endTime) (hx : x.startTime ≤ x.endTime) :
    specSumDouble items ≤ specSumDouble (items ++ [x]) := by
  obtain ⟨_, hd⟩ := foldl_toDouble_add _ 0 (specSumDouble_terms_nonneg items hitems)
    (le_refl _) toDouble_zero
  have h0 := specSumDouble_nonneg items hitems
  unfold specSumDouble at *
  rw [List.filter_append, List.map_append, List.foldl_append]
  have hx' : ∀ it ∈ [x], it.startTime ≤ it.endTime := by
    intro it hit
    rw [List.mem_singleton] at hit
    rw [hit]
    exact hx
  exact (foldl_toDouble_add _ _ (specSumDouble_terms_nonneg [x] hx') h0 hd).1

/-- C30: appending an item that does not end before it starts never lowers the score of
`calculateMentalLoad`: every weight and multiplier is positive, and rounding and the cap
at 10 are monotone. -/
theorem calculateMentalLoad_append_mono (items : List ScheduleItem) (x : ScheduleItem)
    (hitems : ∀ it ∈ items, it.startTime ≤ it.endTime) (hx : x.startTime ≤ x.endTime) :
    calculateMentalLoad (some items) ≤ calculateMentalLoad (some (items ++ [x])) := by
  rw [calculateMentalLoad_some, calculateMentalLoad_some]
  unfold specMentalLoadDouble
  have hle := specSumDouble_append_le items x hitems hx
  have h0 := specSumDouble_nonneg items hitems
  generalize specSumDouble items = S at hle h0
  generalize specSumDouble (items ++ [x]) = S' at hle
  have h1 : toDouble (S / 12) ≤ toDouble (S' / 12) :=
    toDouble_mono _ _ (div_nonneg h0 (by norm_num))
      (div_le_div_of_nonneg_right hle (by norm_num))
  have h1' := toDouble_nonneg _ (div_nonneg h0 (by norm_num : (0 : ℚ) ≤ 12))
  have h2 : toDouble (toDouble (S / 12) * 10) ≤ toDouble (toDouble (S' / 12) * 10) :=
    toDouble_mono _ _ (by linarith) (by linarith)
  have h2' : 0 ≤ toDouble (toDouble (S / 12) * 10) := toDouble_nonneg _ (by linarith)
  have h3 : toDouble (toDouble (toDouble (S / 12) * 10) * 10) ≤
      toDouble (toDouble (toDouble (S' / 12) * 10) * 10) :=
    toDouble_mono _ _ (by linarith) (by linarith)
  have hr := mathRound_mono h3
  have hq : ((mathRound (toDouble (toDouble (toDouble (S / 12) * 10) * 10)) : Int) : ℚ) / 10 ≤
      ((mathRound (toDouble (toDouble (toDouble (S' / 12) * 10) * 10)) : Int) : ℚ) / 10 := by
    have : ((mathRound (toDouble (toDouble (toDouble (S / 12) * 10) * 10)) : Int) : ℚ) ≤
        ((mathRound (toDouble (toDouble (toDouble (S' / 12) * 10) * 10)) : Int) : ℚ) := by
      exact_mod_cast hr
    linarith
  exact min_le_min hq (le_refl _)

theorem calculateMentalLoad_append_mono_witness :
    (∀ it ∈ sampleDay, it.startTime ≤ it.endTime) ∧ looseItem.startTime ≤ looseItem.endTime ∧
      calculateMentalLoad (some sampleDay) ≤ calculateMentalLoad (some (sampleDay ++ [looseItem])) :=
  ⟨by decide, by decide, calculateMentalLoad_append_mono sampleDay looseItem (by decide) (by decide)⟩

/-! ## Lemmas: the task comparator and stability of the sort -/

theorem taskCompare_le_iff (a b : Task) : taskCompare a b ≤ 0 ↔ processedBefore a b := by
  unfold taskCompare processedBefore
  simp only
  by_cases hd : priorityOrder b.priority - priorityOrder a.priority ≠ 0
  · rw [if_pos hd]
    constructor
    · intro h; left; omega
    · rintro (h | ⟨h, _⟩) <;> omega
  · rw [if_neg hd]
    have heq : priorityOrder a.priority = priorityOrder b.priority := by omega
    cases a.deadline <;> cases b.deadline <;> simp [heq]

theorem taskCompare_total (a b : Task) : taskCompare a b ≤ 0 ∨ taskCompare b a ≤ 0 := by
  rw [taskCompare_le_iff, taskCompare_le_iff]
  unfold processedBefore
  rcases lt_trichotomy (priorityOrder a.priority) (priorityOrder b.priority) with h | h | h
  · exact Or.inr (Or.inl h)
  · cases hda : a.deadline <;> cases hdb : b.deadline <;> simp [h]
    rename_i da db
    omega
  · exact Or.inl (Or.inl h)

theorem taskCompare_trans (a b c : Task) (hab : taskCompare a b ≤ 0)
    (hbc : taskCompare b c ≤ 0) : taskCompare a c ≤ 0 := by
  rw [taskCompare_le_iff] at *
  unfold processedBefore at *
  rcases hab with h1 | ⟨h1, d1⟩
  · rcases hbc with h2 | ⟨h2, _⟩
    · left; omega
    · left; omega
  · rcases hbc with h2 | ⟨h2, d2⟩
    · left; omega
    · right
      refine ⟨h1.trans h2, ?_⟩
      cases hda : a.deadline <;> cases hdb : b.deadline <;> cases hdc : c.deadline <;>
        simp_all
      omega

theorem taskCompare_antisymm (a b : Task) (hab : taskCompare a b ≤ 0)
    (hba : taskCompare b a ≤ 0) : sameSortKey a b = true := by
  rw [taskCompare_le_iff] at *
  unfold processedBefore at *
  unfold sameSortKey
  rw [decide_eq_true_eq]
  rcases hab with h1 | ⟨h1, d1⟩
  · rcases hba with h2 | ⟨h2, _⟩ <;> omega
  · rcases hba with h2 | ⟨_, d2⟩
    · omega
    · refine ⟨h1, ?_⟩
      cases hda : a.deadline <;> cases hdb : b.deadline <;> simp_all
      omega

theorem taskCompare_of_sameSortKey (a b : Task) (h : sameSortKey a b = true) :
    taskCompare a b ≤ 0 := by
  unfold sameSortKey at h
  rw [decide_eq_true_eq] at h
  rw [taskCompare_le_iff]
  right
  refine ⟨h.1, ?_⟩
  rw [h.2]
  cases b.deadline <;> simp

/-- Inserting `x` leaves the elements of a class `p` in place, `x` going in front of the
ones it ties with. -/
theorem sortInsert_filter {α : Type} (cmp : α → α → Int) (p : α → Bool) (x : α) :
    ∀ (l : List α), (p x = true → ∀ y ∈ l, p y = true → cmp x y ≤ 0) →
      (sortInsert cmp x l).filter p = (x :: l).filter p := by
  intro l
  induction l with
  | nil => intro _; rfl
  | cons y ys ih =>
    intro h
    unfold sortInsert
    split
    · rfl
    · rename_i hxy
      have ih' := ih fun hx z hz hpz => h hx z (List.mem_cons_of_mem _ hz) hpz
      by_cases hpx : p x = true
      · have hpy : p y = false := by
          by_contra hc
          exact hxy (h hpx y (List.mem_cons_self _ _) (by simpa using hc))
        simp only [List.filter_cons, hpy, hpx, if_true] at ih' ⊢
        simpa using ih'
      · have hpx' : p x = false := by simpa using hpx
        simp only [List.filter_cons, hpx'] at ih' ⊢
        rw [ih']
        simp

/-- Stability of `Array.prototype.sort`: the elements of a class whose members tie with
one another keep their relative order. -/
theorem jsSort_filter {α : Type} (cmp : α → α → Int) (p : α → Bool)
    (htie : ∀ a b, p a = true → p b = true → cmp a b ≤ 0) :
    ∀ (l : List α), (jsSort cmp l).filter p = l.filter p := by
  intro l
  induction l with
  | nil => rfl
  | cons x xs ih =>
    unfold jsSort
    rw [sortInsert_filter cmp p x _ (fun hx y _ hy => htie x y hx hy)]
    simp only [List.filter_cons, ih]

/-! ## Claims about the processing order -/

/-- C22: `optimizeSchedule` runs its task loop over the stable sort of the input by the
comparator: the processing order is a permutation of the input; of two tasks the earlier
has the greater priority weight (URGENT 4, HIGH 3, MEDIUM 2, LOW 1, anything else 2) or
the same weight and a deadline that is not later, a deadline coming before none; and the
tasks that tie on both keys keep their input order. -/
theorem optimizeSchedule_processing_order (tasks : List Task) (profile : Profile)
    (date : Int) :
    optimizeSchedule tasks profile date =
      (scheduleTasks (jsSort taskCompare tasks)
        (markLunch date (buildSlots profile date), [lunchItem date])).map
          (fun state => addBuffers (jsSort itemCompare state.2)) ∧
    (jsSort taskCompare tasks).Perm tasks ∧
    (jsSort taskCompare tasks).Pairwise processedBefore ∧
    (∀ t, (jsSort taskCompare tasks).filter (sameSortKey t) = tasks.filter (sameSortKey t)) ∧
    (priorityOrder "URGENT" = 4 ∧ priorityOrder "HIGH" = 3 ∧ priorityOrder "MEDIUM" = 2 ∧
      priorityOrder "LOW" = 1 ∧
      ∀ p, p ≠ "URGENT" → p ≠ "HIGH" → p ≠ "MEDIUM" → p ≠ "LOW" → priorityOrder p = 2) := by
  refine ⟨?_, jsSort_perm _ _, ?_, ?_, ?_⟩
  · unfold optimizeSchedule
    simp only
    cases scheduleTasks (jsSort taskCompare tasks)
      (markLunch date (buildSlots profile date), [lunchItem date]) with
    | none => rfl
    | some state => rfl
  · exact (jsSort_pairwise taskCompare taskCompare_total taskCompare_trans tasks).imp
      fun h => (taskCompare_le_iff _ _).mp h
  · intro t
    apply jsSort_filter
    intro a b ha hb
    apply taskCompare_of_sameSortKey
    unfold sameSortKey at *
    rw [decide_eq_true_eq] at *
    exact ⟨ha.1.symm.trans hb.1, ha.2.symm.trans hb.2⟩
  · refine ⟨rfl, rfl, rfl, rfl, ?_⟩
    intro p h1 h2 h3 h4
    simp [priorityOrder, h1, h2, h3, h4]

/-- C29: two task lists that are permutations of each other, in which no two tasks share
both the priority weight and the deadline, give the same output for the same profile and
date. -/
theorem optimizeSchedule_order_independent (tasks₁ tasks₂ : List Task) (profile : Profile)
    (date : Int) (hperm : tasks₁.Perm tasks₂)
    (hkeys : tasks₁.Pairwise fun a b => sameSortKey a b = false) :
    optimizeSchedule tasks₁ profile date = optimizeSchedule tasks₂ profile date := by
  have hsym : Symmetric fun a b : Task => sameSortKey a b = false := by
    intro a b h
    unfold sameSortKey at *
    rw [decide_eq_false_iff_not] at *
    exact fun hc => h ⟨hc.1.symm, hc.2.symm⟩
  have hsorted : jsSort taskCompare tasks₁ = jsSort taskCompare tasks₂ := by
    refine List.Perm.eq_of_sorted ?_
      (jsSort_pairwise taskCompare taskCompare_total taskCompare_trans tasks₁)
      (jsSort_pairwise taskCompare taskCompare_total taskCompare_trans tasks₂)
      ((jsSort_perm _ _).trans (hperm.trans (jsSort_perm _ _).symm))
    intro a b ha hb hab hba
    have ha' : a ∈ tasks₁ := (mem_jsSort _ _ _).mp ha
    have hb' : b ∈ tasks₁ := hperm.symm.subset ((mem_jsSort _ _ _).mp hb)
    by_contra hne
    have := hkeys.forall hsym ha' hb' hne
    rw [taskCompare_antisymm a b hab hba] at this
    exact absurd this (by simp)
  unfold optimizeSchedule
  rw [hsorted]

theorem optimizeSchedule_order_independent_witness :
    [deepWork, reading, marathon].Perm [marathon, deepWork, reading] ∧
    ([deepWork, reading, marathon].Pairwise fun a b => sameSortKey a b = false) ∧
    optimizeSchedule [deepWork, reading, marathon] seedProfile 0 =
      optimizeSchedule [marathon, deepWork, reading] seedProfile 0 :=
  ⟨by decide, by decide,
    optimizeSchedule_order_independent _ _ seedProfile 0 (by decide) (by decide)⟩

/-! ## Lemmas: the scan keeps the earliest window of greatest score -/

theorem slotScore_eq_doubleScore (task : Task) (slots : List Slot) (i : Nat) (slot : Slot)
    (h : slots[i]? = some slot) :
    slotScore task slots i = some (doubleScore task slots.length i slot) := by
  unfold slotScore doubleScore specEnergyTerm specHourBucket isIntensiveOf
  rw [h]
  simp only [Option.some.injEq, zero_add]
  have hint : (decide (task.category ∈ ["WORK", "STUDY"]) = true) ↔
      (task.category = "WORK" ∨ task.category = "STUDY") := by simp
  have hterm : (if decide (task.category ∈ ["WORK", "STUDY"]) = true then
        toDouble (if slot.energyLevel = .high then (3 : ℚ)
          else if slot.energyLevel = .medium then 2 else 1)
      else toDouble (if slot.energyLevel = .low then (3 : ℚ)
          else if slot.energyLevel = .medium then 2 else 1)) =
      (if task.category = "WORK" ∨ task.category = "STUDY" then
        (match slot.energyLevel with
          | .high => (3 : ℚ)
          | .medium => 2
          | .low => 1)
      else
        (match slot.energyLevel with
          | .low => (3 : ℚ)
          | .medium => 2
          | .high => 1)) := by
    by_cases hc : task.category = "WORK" ∨ task.category = "STUDY"
    · rw [if_pos (hint.mpr hc), if_pos hc]
      cases slot.energyLevel <;> simp [toDouble_one, toDouble_two, toDouble_three]
    · rw [if_neg (fun hd => hc (hint.mp hd)), if_neg hc]
      cases slot.energyLevel <;> simp [toDouble_one, toDouble_two, toDouble_three]
  rw [hterm]
  generalize (if task.category = "WORK" ∨ task.category = "STUDY" then
        (match slot.energyLevel with
          | .high => (3 : ℚ)
          | .medium => 2
          | .low => 1)
      else
        (match slot.energyLevel with
          | .low => (3 : ℚ)
          | .medium => 2
          | .high => 1)) = e
  generalize toDouble (toDouble (((slots.length : ℚ) - (i : ℚ)) / (slots.length : ℚ)) * 2) = u
  generalize getHours slot.start = hour
  generalize (if task.priority = "URGENT" ∨ task.priority = "HIGH" then toDouble (e + u)
    else e) = s
  cases hpref : task.preferredTime with
  | none => simp
  | some pt =>
    simp only [Option.some.injEq]
    by_cases h12 : hour < 12
    · by_cases hm : pt = "morning"
      · subst hm
        simp [h12]
      · have h17 : ¬ 12 ≤ hour := by omega
        have h17' : ¬ 17 ≤ hour := by omega
        simp [h12, hm, h17, h17']
    · by_cases h17 : hour < 17
      · by_cases ha : pt = "afternoon"
        · subst ha
          have : 12 ≤ hour := by omega
          have h17' : ¬ 17 ≤ hour := by omega
          simp [h12, h17, this, h17']
        · have h17' : ¬ 17 ≤ hour := by omega
          simp [h12, h17, ha, h17']
      · by_cases he : pt = "evening"
        · subst he
          have : 17 ≤ hour := by omega
          simp [h12, h17, this]
        · simp [h12, h17, he]

/-- The window scan over ascending start indices: the final score bounds the score of
every free window scanned, and the final index is either the initial one or a free
window that attains the final score and is strictly better than every earlier one. -/
theorem scanWindows_argmax (task : Task) (slots : List Slot) (slotsNeeded : Nat) :
    ∀ (indices : List Nat) (best : Option Nat) (bestScore : ℚ) (result : Option Nat × ℚ),
      indices.Pairwise (fun a b => a < b) →
      scanWindows task slots slotsNeeded indices (best, bestScore) = some result →
      bestScore ≤ result.2 ∧
      (∀ i ∈ indices, allAvailable slots i slotsNeeded = some true →
        ∀ s, slotScore task slots i = some s → s ≤ result.2) ∧
      (result = (best, bestScore) ∨
        ∃ i ∈ indices, result.1 = some i ∧ allAvailable slots i slotsNeeded = some true ∧
          slotScore task slots i = some result.2 ∧ bestScore < result.2 ∧
          ∀ j ∈ indices, j < i → allAvailable slots j slotsNeeded = some true →
            ∀ s, slotScore task slots j = some s → s < result.2) := by
  intro indices
  induction indices with
  | nil =>
    intro best bestScore result _ h
    simp only [scanWindows, Option.some.injEq] at h
    subst h
    exact ⟨le_refl _, fun i hi => absurd hi (List.not_mem_nil _), Or.inl rfl⟩
  | cons i rest ih =>
    intro best bestScore result hasc h
    have hrest := (List.pairwise_cons.mp hasc).2
    have hlt := (List.pairwise_cons.mp hasc).1
    unfold scanWindows at h
    split at h
    · exact absurd h (by simp)
    · rename_i hav
      obtain ⟨ha, hb, hc⟩ := ih _ _ _ hrest h
      refine ⟨ha, ?_, ?_⟩
      · intro k hk hkav s hs
        rcases List.mem_cons.mp hk with rfl | hk
        · rw [hav] at hkav; exact absurd hkav (by simp)
        · exact hb k hk hkav s hs
      · rcases hc with hc | ⟨k, hk, h1, h2, h3, h4, h5⟩
        · exact Or.inl hc
        · refine Or.inr ⟨k, List.mem_cons_of_mem _ hk, h1, h2, h3, h4, ?_⟩
          intro j hj hjk hjav s hs
          rcases List.mem_cons.mp hj with rfl | hj
          · rw [hav] at hjav; exact absurd hjav (by simp)
          · exact h5 j hj hjk hjav s hs
    · rename_i hav
      split at h
      · exact absurd h (by simp)
      · rename_i score hscore
        split at h
        · rename_i hgt
          obtain ⟨ha, hb, hc⟩ := ih _ _ _ hrest h
          refine ⟨le_of_lt (lt_of_lt_of_le hgt ha), ?_, Or.inr ?_⟩
          · intro k hk hkav s hs
            rcases List.mem_cons.mp hk with rfl | hk
            · rw [hscore] at hs
              cases hs
              exact ha
            · exact hb k hk hkav s hs
          · rcases hc with hc | ⟨k, hk, h1, h2, h3, h4, h5⟩
            · subst hc
              refine ⟨i, List.mem_cons_self _ _, rfl, hav, hscore, hgt, ?_⟩
              intro j hj hji _ _ _
              rcases List.mem_cons.mp hj with rfl | hj
              · exact absurd hji (lt_irrefl _)
              · exact absurd (hlt j hj) (by omega)
            · refine ⟨k, List.mem_cons_of_mem _ hk, h1, h2, h3, lt_trans hgt h4, ?_⟩
              intro j hj hjk hjav s hs
              rcases List.mem_cons.mp hj with rfl | hj
              · rw [hscore] at hs
                cases hs
                exact h4
              · exact h5 j hj hjk hjav s hs
        · rename_i hngt
          have hle : score ≤ bestScore := not_lt.mp hngt
          obtain ⟨ha, hb, hc⟩ := ih _ _ _ hrest h
          refine ⟨ha, ?_, ?_⟩
          · intro k hk hkav s hs
            rcases List.mem_cons.mp hk with rfl | hk
            · rw [hscore] at hs
              cases hs
              exact le_trans hle ha
            · exact hb k hk hkav s hs
          · rcases hc with hc | ⟨k, hk, h1, h2, h3, h4, h5⟩
            · exact Or.inl hc
            · refine Or.inr ⟨k, List.mem_cons_of_mem _ hk, h1, h2, h3, h4, ?_⟩
              intro j hj hjk hjav s hs
              rcases List.mem_cons.mp hj with rfl | hj
              · rw [hscore] at hs
                cases hs
                exact lt_of_le_of_lt hle h4
              · exact h5 j hj hjk hjav s hs

/-- The index returned by `findBestSlot` heads a free window whose computed score is
greatest among the free windows and strictly greater than that of every earlier free
window. -/
theorem findBestSlot_argmax (task : Task) (slots : List Slot) (best : Nat)
    (h : findBestSlot task slots = some (some best)) :
    ∃ first, slots[best]? = some first ∧
      windowFree slots best (slotsNeededOf task) = true ∧
      ∀ i slot, windowFree slots i (slotsNeededOf task) = true → slots[i]? = some slot →
        doubleScore task slots.length i slot ≤ doubleScore task slots.length best first ∧
        (i < best →
          doubleScore task slots.length i slot < doubleScore task slots.length best first) := by
  obtain ⟨hbound, hbav⟩ := findBestSlot_some task slots best h
  unfold findBestSlot at h
  rw [Option.map_eq_some'] at h
  obtain ⟨result, hres, hfst⟩ := h
  have hasc : (List.range (slots.length + 1 - slotsNeededOf task)).Pairwise
      (fun a b => a < b) := List.pairwise_lt_range _
  obtain ⟨_, hb, hc⟩ := scanWindows_argmax task slots _ _ _ _ _ hasc hres
  rcases hc with hc | ⟨k, hk, h1, h2, h3, _, h5⟩
  · rw [hc] at hfst
    exact absurd hfst (by simp)
  · rw [hfst] at h1
    have hkb : best = k := by simpa using h1
    subst hkb
    have hlen : best < slots.length := by
      by_contra hge
      have hnone : slots[best]? = none := List.getElem?_eq_none (by omega)
      unfold slotScore at h3
      rw [hnone] at h3
      exact absurd h3 (by simp)
    obtain ⟨first, hfirst⟩ : ∃ first, slots[best]? = some first :=
      ⟨slots[best], List.getElem?_eq_getElem hlen⟩
    have hsb := slotScore_eq_doubleScore task slots best first hfirst
    rw [h3, Option.some.injEq] at hsb
    refine ⟨first, hfirst, (allAvailable_iff_windowFree slots best _ hbound).mp hbav, ?_⟩
    intro i slot hfree hslot
    have hib := ((windowFree_iff slots i _).mp hfree).1
    have hiav := (allAvailable_iff_windowFree slots i _ hib).mpr hfree
    have hmem : i ∈ List.range (slots.length + 1 - slotsNeededOf task) := by
      rw [List.mem_range]; omega
    have hsi := slotScore_eq_doubleScore task slots i slot hslot
    rw [← hsb]
    exact ⟨hb i hmem hiav _ hsi, fun hlt => h5 i hmem hlt hiav _ hsi⟩

/-! ## Claim about the chosen window -/

/-- C21, counterexample: with wake 09:00, bed 21:00, a morning peak and two URGENT
LEISURE tasks of 120 and 30 minutes, the first task takes 17:00-19:00; for the second the
windows of index 8 (13:00) and 20 (19:00) are both valid and the score of the
specification is 10/3 for both, yet the task is placed at 19:00, not at the earlier
13:00: in doubles `2 + 16/24*2` is 3.333333333333333 and `3 + 4/24*2` is
3.3333333333333335. -/
theorem placeTask_tie_takes_later_window :
    ((scheduleTasks [longWalk] (markLunch 0 (buildSlots dayShift 0), [lunchItem 0])).bind
        fun state => placeTask state shortWalk).map Prod.snd =
      some [lunchItem 0, taskItem longWalk (setHours 0 17 0),
        taskItem shortWalk (setHours 0 19 0)] ∧
    (scheduleTasks [longWalk] (markLunch 0 (buildSlots dayShift 0), [lunchItem 0])).map
        (fun state => windowFree state.1 8 (slotsNeededOf shortWalk)) = some true ∧
    (scheduleTasks [longWalk] (markLunch 0 (buildSlots dayShift 0), [lunchItem 0])).map
        (fun state => windowFree state.1 20 (slotsNeededOf shortWalk)) = some true ∧
    (scheduleTasks [longWalk] (markLunch 0 (buildSlots dayShift 0), [lunchItem 0])).bind
        (fun state => (state.1[8]?).map Slot.start) = some (setHours 0 13 0) ∧
    (scheduleTasks [longWalk] (markLunch 0 (buildSlots dayShift 0), [lunchItem 0])).bind
        (fun state => (state.1[20]?).map Slot.start) = some (setHours 0 19 0) ∧
    (scheduleTasks [longWalk] (markLunch 0 (buildSlots dayShift 0), [lunchItem 0])).bind
        (fun state => (state.1[8]?).map (specScore shortWalk state.1.length 8)) =
      some (10 / 3) ∧
    (scheduleTasks [longWalk] (markLunch 0 (buildSlots dayShift 0), [lunchItem 0])).bind
        (fun state => (state.1[20]?).map (specScore shortWalk state.1.length 20)) =
      some (10 / 3) ∧
    (scheduleTasks [longWalk] (markLunch 0 (buildSlots dayShift 0), [lunchItem 0])).bind
        (fun state => (state.1[8]?).map (doubleScore shortWalk state.1.length 8)) =
      some (7505999378950826 / 2251799813685248) ∧
    (scheduleTasks [longWalk] (markLunch 0 (buildSlots dayShift 0), [lunchItem 0])).bind
        (fun state => (state.1[20]?).map (doubleScore shortWalk state.1.length 20)) =
      some (7505999378950827 / 2251799813685248) ∧
    optimizeSchedule [longWalk, shortWalk] dayShift 0 =
      some [lunchItem 0, taskItem longWalk (setHours 0 17 0),
        taskItem shortWalk (setHours 0 19 0)] := by
  decide!

/-- C21, amended: when an iteration of the task loop places a task (it pushes items), the
TASK item starts at the start of a slot `best` that heads a valid window (`slotsNeeded`
unoccupied slots inside the grid); with the score computed in double arithmetic
(`doubleScore`: energy term, plus `(totalSlots - i) / totalSlots * 2` for URGENT and HIGH,
plus 2 when the preferred time is the hour bucket of the slot, each operation rounded to
the nearest double), no valid window has a strictly greater score and every valid window
with a smaller start index has a strictly smaller score. -/
theorem placeTask_best_window (slots slots' : List Slot) (items items' : List ScheduleItem)
    (task : Task) (h : placeTask (slots, items) task = some (slots', items'))
    (hplaced : items' ≠ items) :
    ∃ best first rest,
      slots[best]? = some first ∧ items' = items ++ taskItem task first.start :: rest ∧
      windowFree slots best (slotsNeededOf task) = true ∧
      slotScore task slots best = some (doubleScore task slots.length best first) ∧
      ∀ i slot, windowFree slots i (slotsNeededOf task) = true → slots[i]? = some slot →
        slotScore task slots i = some (doubleScore task slots.length i slot) ∧
        doubleScore task slots.length i slot ≤ doubleScore task slots.length best first ∧
        (i < best →
          doubleScore task slots.length i slot < doubleScore task slots.length best first) := by
  rcases placeTask_detail slots slots' items items' task h with
    ⟨_, _, hi⟩ | ⟨best, marked, first, hfind, hmarked, hfirst, hcase⟩
  · exact absurd hi hplaced
  · obtain ⟨first0, hfirst0, hfree, hmax⟩ := findBestSlot_argmax task slots best hfind
    have hstart : first.start = first0.start := by
      have h1 := congrArg (fun l => l[best]?) (markOccupied_map_start _ _ _ _ hmarked)
      simp only [List.getElem?_map, hfirst, hfirst0, Option.map_some'] at h1
      simpa using h1
    have hrest : ∃ rest, items' = items ++ taskItem task first0.start :: rest := by
      rcases hcase with ⟨_, hit, _⟩ | ⟨_, _, b, _, _, _, hit⟩
      · exact ⟨[], by rw [hit, hstart]⟩
      · exact ⟨[breakItem (addMinutes first.start task.duration)], by rw [hit, hstart]⟩
    obtain ⟨rest, hrest⟩ := hrest
    refine ⟨best, first0, rest, hfirst0, hrest, hfree,
      slotScore_eq_doubleScore task slots best first0 hfirst0, ?_⟩
    intro i slot hwf hslot
    exact ⟨slotScore_eq_doubleScore task slots i slot hslot, hmax i slot hwf hslot⟩

theorem placeTask_best_window_witness :
    placeTask (markLunch 0 (buildSlots shortDay 0), [lunchItem 0]) callA =
      some ((markLunch 0 (buildSlots shortDay 0)).set 0
        { morningSlot 0 7 0 with occupied := true }, [lunchItem 0, taskItem callA (setHours 0 7 0)]) ∧
    [lunchItem 0, taskItem callA (setHours 0 7 0)] ≠ [lunchItem 0] ∧
    ∃ best first rest,
      (markLunch 0 (buildSlots shortDay 0))[best]? = some first ∧
      [lunchItem 0, taskItem callA (setHours 0 7 0)] =
        [lunchItem 0] ++ taskItem callA first.start :: rest ∧
      windowFree (markLunch 0 (buildSlots shortDay 0)) best (slotsNeededOf callA) = true ∧
      slotScore callA (markLunch 0 (buildSlots shortDay 0)) best =
        some (doubleScore callA (markLunch 0 (buildSlots shortDay 0)).length best first) ∧
      ∀ i slot, windowFree (markLunch 0 (buildSlots shortDay 0)) i (slotsNeededOf callA) = true →
        (markLunch 0 (buildSlots shortDay 0))[i]? = some slot →
        slotScore callA (markLunch 0 (buildSlots shortDay 0)) i =
          some (doubleScore callA (markLunch 0 (buildSlots shortDay 0)).length i slot) ∧
        doubleScore callA (markLunch 0 (buildSlots shortDay 0)).length i slot ≤
          doubleScore callA (markLunch 0 (buildSlots shortDay 0)).length best first ∧
        (i < best →
          doubleScore callA (markLunch 0 (buildSlots shortDay 0)).length i slot <
            doubleScore callA (markLunch 0 (buildSlots shortDay 0)).length best first) :=
  have hrun : placeTask (markLunch 0 (buildSlots shortDay 0), [lunchItem 0]) callA =
      some ((markLunch 0 (buildSlots shortDay 0)).set 0
        { morningSlot 0 7 0 with occupied := true },
        [lunchItem 0, taskItem callA (setHours 0 7 0)]) := by decide!
  ⟨hrun, by decide, placeTask_best_window _ _ _ _ callA hrun (by decide)⟩

/-! ## Claim about the break after an intensive task -/

theorem markOccupied_after_window (slots marked : List Slot) (best n : Nat)
    (h : markOccupied slots best n = some marked) :
    marked[best + n]? = slots[best + n]? := by
  rw [markOccupied_getElem? n slots best marked h (best + n)]
  unfold markedWindowAt
  cases slots[best + n]? with
  | none => rfl
  | some s =>
    simp only [Option.map_some', Option.some.injEq]
    rw [if_neg (by omega)]

theorem markOccupied_first_start (slots marked : List Slot) (best n : Nat) (first first0 : Slot)
    (h : markOccupied slots best n = some marked) (hfirst : marked[best]? = some first)
    (hfirst0 : slots[best]? = some first0) : first.start = first0.start := by
  have h1 := congrArg (fun l => l[best]?) (markOccupied_map_start _ _ _ _ h)
  simp only [List.getElem?_map, hfirst, hfirst0, Option.map_some'] at h1
  simpa using h1

/-- C23: an iteration of the task loop that completes either places nothing (grid and
items unchanged) or marks the window of the task from some slot `best` (giving `marked`)
and pushes the TASK item; it then pushes a BREAK item if and only if the category is WORK
or STUDY, the duration is at least 60 minutes and the slot at index `best + slotsNeeded`
exists and is unoccupied. The BREAK starts at the end of the TASK item, lasts 15 minutes,
and that following slot alone is marked in addition; in every other case the TASK item is
the only item pushed and no slot beyond the window is marked. -/
theorem placeTask_break (slots slots' : List Slot) (items items' : List ScheduleItem)
    (task : Task) (h : placeTask (slots, items) task = some (slots', items')) :
    (slots' = slots ∧ items' = items) ∨
    ∃ best first marked,
      slots[best]? = some first ∧
      markOccupied slots best (slotsNeededOf task) = some marked ∧
      (breakCondition task slots best ↔
        items' = items ++ [taskItem task first.start,
          breakItem (taskItem task first.start).endTime]) ∧
      (breakCondition task slots best →
        ∃ b, slots[best + slotsNeededOf task]? = some b ∧
          slots' = marked.set (best + slotsNeededOf task) { b with occupied := true }) ∧
      (¬ breakCondition task slots best →
        items' = items ++ [taskItem task first.start] ∧ slots' = marked) ∧
      (breakItem (taskItem task first.start).endTime).type = "BREAK" ∧
      (breakItem (taskItem task first.start).endTime).startTime =
        (taskItem task first.start).endTime ∧
      (breakItem (taskItem task first.start).endTime).endTime =
        (taskItem task first.start).endTime + 15 * msPerMinute := by
  rcases placeTask_detail slots slots' items items' task h with
    ⟨_, hs, hi⟩ | ⟨best, marked, first, hfind, hmarked, hfirst, hcase⟩
  · exact Or.inl ⟨hs, hi⟩
  · right
    obtain ⟨hbound, hbav⟩ := findBestSlot_some task slots best hfind
    have hn : 0 < slotsNeededOf task := by
      by_contra hz
      rw [findBestSlot_zero task slots (by omega)] at hfind
      exact absurd hfind (by simp)
    have hlt : best < slots.length := by omega
    obtain ⟨first0, hfirst0⟩ : ∃ first0, slots[best]? = some first0 :=
      ⟨slots[best], List.getElem?_eq_getElem hlt⟩
    have hstart := markOccupied_first_start slots marked best _ first first0 hmarked hfirst hfirst0
    have hafter := markOccupied_after_window slots marked best _ hmarked
    have hint : isIntensiveOf task = true ↔ (task.category = "WORK" ∨ task.category = "STUDY") := by
      unfold isIntensiveOf
      simp
    refine ⟨best, first0, marked, hfirst0, hmarked, ?_, ?_, ?_, rfl, rfl, rfl⟩
    · rcases hcase with ⟨_, hit, hnot⟩ | ⟨hi1, hi2, b, hb, hbo, _, hit⟩
      · constructor
        · rintro ⟨hc1, hc2, b, hb, hbo⟩
          exact absurd ⟨hint.mpr hc1, hc2, b, by rw [hafter]; exact hb, hbo⟩ hnot
        · intro heq
          rw [hit] at heq
          have := congrArg List.length heq
          simp at this
      · constructor
        · intro _
          rw [hit, hstart]
          rfl
        · intro _
          exact ⟨hint.mp hi1, hi2, b, by rw [← hafter]; exact hb, hbo⟩
    · rintro ⟨hc1, hc2, b, hb, hbo⟩
      rcases hcase with ⟨_, _, hnot⟩ | ⟨_, _, b', hb', _, hs', _⟩
      · exact absurd ⟨hint.mpr hc1, hc2, b, by rw [hafter]; exact hb, hbo⟩ hnot
      · rw [hafter, hb] at hb'
        cases hb'
        exact ⟨b, hb, hs'⟩
    · intro hno
      rcases hcase with ⟨hs', hit, _⟩ | ⟨hi1, hi2, b, hb, hbo, _, _⟩
      · exact ⟨by rw [hit, hstart], hs'⟩
      · exact absurd ⟨hint.mp hi1, hi2, b, by rw [← hafter]; exact hb, hbo⟩ hno

theorem placeTask_break_witness :
    placeTask (fiveSlots, []) deepWork =
      some (fiveSlots.map (fun s => { s with occupied := true }),
        [taskItem deepWork (setHours 0 7 0), breakItem (setHours 0 9 0)]) ∧
    ((fiveSlots.map (fun s => { s with occupied := true }) = fiveSlots ∧
        [taskItem deepWork (setHours 0 7 0), breakItem (setHours 0 9 0)] = []) ∨
    ∃ best first marked,
      fiveSlots[best]? = some first ∧
      markOccupied fiveSlots best (slotsNeededOf deepWork) = some marked ∧
      (breakCondition deepWork fiveSlots best ↔
        [taskItem deepWork (setHours 0 7 0), breakItem (setHours 0 9 0)] =
          [] ++ [taskItem deepWork first.start,
            breakItem (taskItem deepWork first.start).endTime]) ∧
      (breakCondition deepWork fiveSlots best →
        ∃ b, fiveSlots[best + slotsNeededOf deepWork]? = some b ∧
          fiveSlots.map (fun s => { s with occupied := true }) =
            marked.set (best + slotsNeededOf deepWork) { b with occupied := true }) ∧
      (¬ breakCondition deepWork fiveSlots best →
        [taskItem deepWork (setHours 0 7 0), breakItem (setHours 0 9 0)] =
          [] ++ [taskItem deepWork first.start] ∧
        fiveSlots.map (fun s => { s with occupied := true }) = marked) ∧
      (breakItem (taskItem deepWork first.start).endTime).type = "BREAK" ∧
      (breakItem (taskItem deepWork first.start).endTime).startTime =
        (taskItem deepWork first.start).endTime ∧
      (breakItem (taskItem deepWork first.start).endTime).endTime =
        (taskItem deepWork first.start).endTime + 15 * msPerMinute) :=
  have hrun : placeTask (fiveSlots, []) deepWork =
      some (fiveSlots.map (fun s => { s with occupied := true }),
        [taskItem deepWork (setHours 0 7 0), breakItem (setHours 0 9 0)]) := by decide!
  ⟨hrun, placeTask_break _ _ _ _ deepWork hrun⟩

/-! ## Claim about the buffers -/

theorem bufferGap_iff (a b : ScheduleItem) :
    (b.startTime - a.endTime ≥ 5 * 60 * 1000 ∧ b.startTime - a.endTime < 30 * 60 * 1000) ↔
      bufferGap a b := by
  unfold bufferGap msPerMinute
  constructor <;> rintro ⟨h1, h2⟩ <;> constructor <;> omega

theorem addBuffers_head (y : ScheduleItem) (rest : List ScheduleItem) :
    ∃ tl, addBuffers (y :: rest) = y :: tl := by
  cases rest with
  | nil => exact ⟨[], rfl⟩
  | cons z rest =>
    unfold addBuffers
    simp only
    split
    · exact ⟨_, rfl⟩
    · exact ⟨_, rfl⟩

/-- Between two consecutive non-BUFFER items of the output of the buffer loop lies the
BUFFER of their gap when the gap is in range, and nothing otherwise. -/
theorem addBuffers_between : ∀ (l : List ScheduleItem), (∀ x ∈ l, x.type ≠ "BUFFER") →
    ∀ (pre : List ScheduleItem) (a : ScheduleItem) (mid : List ScheduleItem)
      (b : ScheduleItem) (post : List ScheduleItem),
      addBuffers l = pre ++ a :: (mid ++ b :: post) →
      a.type ≠ "BUFFER" → b.type ≠ "BUFFER" → (∀ x ∈ mid, x.type = "BUFFER") →
      (bufferGap a b → mid = [bufferItem a b]) ∧ (¬ bufferGap a b → mid = [])
  | [], _, pre, a, mid, b, post, h, _, _, _ => by
    simp [addBuffers] at h
  | [x], _, pre, a, mid, b, post, h, _, _, _ => by
    have := congrArg List.length h
    simp [addBuffers] at this
    omega
  | x :: y :: rest, hl, pre, a, mid, b, post, h, ha, hb, hmid => by
    have ih := addBuffers_between (y :: rest)
      (fun z hz => hl z (List.mem_cons_of_mem _ hz))
    obtain ⟨tl, htl⟩ := addBuffers_head y rest
    have hy : y.type ≠ "BUFFER" := hl y (List.mem_cons_of_mem _ (List.mem_cons_self _ _))
    have hfirst : ∀ (mid' : List ScheduleItem), y :: tl = mid' ++ b :: post →
        (∀ z ∈ mid', z.type = "BUFFER") → mid' = [] ∧ b = y := by
      intro mid' hm hbuf
      cases mid' with
      | nil =>
        simp only [List.nil_append, List.cons.injEq] at hm
        exact ⟨rfl, hm.1.symm⟩
      | cons m mid'' =>
        simp only [List.cons_append, List.cons.injEq] at hm
        have := hbuf m (List.mem_cons_self _ _)
        rw [← hm.1] at this
        exact absurd this hy
    unfold addBuffers at h
    simp only at h
    split at h
    · rename_i hgap
      rw [bufferGap_iff] at hgap
      cases pre with
      | nil =>
        simp only [List.nil_append, List.cons.injEq] at h
        obtain ⟨hxa, h⟩ := h
        subst hxa
        cases mid with
        | nil =>
          simp only [List.nil_append, List.cons.injEq] at h
          exact absurd (by rw [← h.1]; rfl) hb
        | cons m mid' =>
          simp only [List.cons_append, List.cons.injEq] at h
          obtain ⟨hm, h⟩ := h
          rw [htl] at h
          obtain ⟨hnil, hby⟩ := hfirst mid' h
            (fun z hz => hmid z (List.mem_cons_of_mem _ hz))
          subst hnil hby hm
          exact ⟨fun _ => rfl, fun hno => absurd hgap hno⟩
      | cons p pre' =>
        simp only [List.cons_append, List.cons.injEq] at h
        obtain ⟨_, h⟩ := h
        cases pre' with
        | nil =>
          simp only [List.nil_append, List.cons.injEq] at h
          exact absurd (by rw [← h.1]; rfl) ha
        | cons q pre'' =>
          simp only [List.cons_append, List.cons.injEq] at h
          exact ih pre'' a mid b post h.2 ha hb hmid
    · rename_i hgap
      rw [bufferGap_iff] at hgap
      cases pre with
      | nil =>
        simp only [List.nil_append, List.cons.injEq] at h
        obtain ⟨hxa, h⟩ := h
        subst hxa
        rw [htl] at h
        obtain ⟨hnil, hby⟩ := hfirst mid h hmid
        subst hnil hby
        exact ⟨fun hyes => absurd hyes hgap, fun _ => rfl⟩
      | cons p pre' =>
        simp only [List.cons_append, List.cons.injEq] at h
        exact ih pre' a mid b post h.2 ha hb hmid

theorem addBuffers_noAdjacentBuffers : ∀ (l : List ScheduleItem),
    (∀ x ∈ l, x.type ≠ "BUFFER") → noAdjacentBuffers (addBuffers l)
  | [], _ => by simp [addBuffers, noAdjacentBuffers]
  | [x], _ => by simp [addBuffers, noAdjacentBuffers]
  | x :: y :: rest, hl => by
    have ih := addBuffers_noAdjacentBuffers (y :: rest)
      (fun z hz => hl z (List.mem_cons_of_mem _ hz))
    obtain ⟨tl, htl⟩ := addBuffers_head y rest
    have hx : x.type ≠ "BUFFER" := hl x (List.mem_cons_self _ _)
    have hy : y.type ≠ "BUFFER" := hl y (List.mem_cons_of_mem _ (List.mem_cons_self _ _))
    unfold noAdjacentBuffers at *
    unfold addBuffers
    simp only
    rw [htl] at ih ⊢
    split
    · exact List.Chain'.cons (fun hc => hx hc.1) (List.Chain'.cons (fun hc => hy hc.2) ih)
    · exact List.Chain'.cons (fun hc => hx hc.1) ih

theorem scheduled_not_buffer (date : Int) (starts : List Int) (tasks : List Task)
    (it : ScheduleItem) (h : it = lunchItem date ∨ ItemFrom starts tasks it) :
    it.type ≠ "BUFFER" := by
  rcases h with rfl | ⟨t, _, best, s, _, rfl | ⟨_, _, rfl⟩⟩
  · simp [lunchItem]
  · simp [taskItem]
  · simp [breakItem]

/-- C24: in the list returned by `optimizeSchedule`, take two non-BUFFER items `a` and
`b` with only BUFFER items `mid` between them: if the gap `b.startTime - a.endTime` is at
least 5 and less than 30 minutes, `mid` is the single BUFFER titled Transition that
starts at `a.endTime` and ends at `b.startTime`; otherwise `mid` is empty. No two BUFFER
items are adjacent. -/
theorem optimizeSchedule_buffers (tasks : List Task) (profile : Profile) (date : Int)
    (out : List ScheduleItem) (h : optimizeSchedule tasks profile date = some out) :
    (∀ (pre : List ScheduleItem) (a : ScheduleItem) (mid : List ScheduleItem)
      (b : ScheduleItem) (post : List ScheduleItem),
      out = pre ++ a :: (mid ++ b :: post) →
      a.type ≠ "BUFFER" → b.type ≠ "BUFFER" → (∀ x ∈ mid, x.type = "BUFFER") →
      (bufferGap a b → mid = [bufferItem a b]) ∧ (¬ bufferGap a b → mid = []) ∧
      (bufferItem a b).title = "Transition" ∧ (bufferItem a b).type = "BUFFER" ∧
      (bufferItem a b).startTime = a.endTime ∧ (bufferItem a b).endTime = b.startTime) ∧
    noAdjacentBuffers out := by
  obtain ⟨slots, items, hrun, hout⟩ := optimizeSchedule_some tasks profile date out h
  have hitems := scheduled_items tasks profile date slots items hrun
  have hsorted : ∀ x ∈ jsSort itemCompare items, x.type ≠ "BUFFER" := by
    intro x hx
    exact scheduled_not_buffer date _ tasks x (hitems x ((mem_jsSort _ _ _).mp hx))
  subst hout
  refine ⟨?_, addBuffers_noAdjacentBuffers _ hsorted⟩
  intro pre a mid b post heq ha hb hmid
  obtain ⟨h1, h2⟩ := addBuffers_between _ hsorted pre a mid b post heq ha hb hmid
  exact ⟨h1, h2, rfl, rfl, rfl, rfl⟩

theorem optimizeSchedule_buffers_witness :
    optimizeSchedule [errand] lateMorning 0 =
      some [taskItem errand (setHours 0 11 0),
        bufferItem (taskItem errand (setHours 0 11 0)) (lunchItem 0), lunchItem 0] ∧
    (∀ (pre : List ScheduleItem) (a : ScheduleItem) (mid : List ScheduleItem)
      (b : ScheduleItem) (post : List ScheduleItem),
      [taskItem errand (setHours 0 11 0),
        bufferItem (taskItem errand (setHours 0 11 0)) (lunchItem 0), lunchItem 0] =
          pre ++ a :: (mid ++ b :: post) →
      a.type ≠ "BUFFER" → b.type ≠ "BUFFER" → (∀ x ∈ mid, x.type = "BUFFER") →
      (bufferGap a b → mid = [bufferItem a b]) ∧ (¬ bufferGap a b → mid = []) ∧
      (bufferItem a b).title = "Transition" ∧ (bufferItem a b).type = "BUFFER" ∧
      (bufferItem a b).startTime = a.endTime ∧ (bufferItem a b).endTime = b.startTime) ∧
    noAdjacentBuffers [taskItem errand (setHours 0 11 0),
      bufferItem (taskItem errand (setHours 0 11 0)) (lunchItem 0), lunchItem 0] :=
  have hrun : optimizeSchedule [errand] lateMorning 0 =
      some [taskItem errand (setHours 0 11 0),
        bufferItem (taskItem errand (setHours 0 11 0)) (lunchItem 0), lunchItem 0] := by
    decide!
  ⟨hrun, optimizeSchedule_buffers [errand] lateMorning 0 _ hrun⟩

/-! ## Claim about the slot grid -/

/-- C25, the code at the failing input: with wake 07:45 and bed 23:00 the first slot
starts at wake time and every slot lasts 30 minutes, but the second slot starts at 08:00
while the first ends at 08:15 (the minute carry of the slot loop restarts at 0): the
slots are not consecutive. -/
theorem buildSlots_not_consecutive_at_lateWake :
    setHours 0 7 45 < setHours 0 23 0 ∧
    (buildSlots lateWake 0)[0]? =
      some { start := setHours 0 7 45, end_ := setHours 0 8 15, occupied := false,
             energyLevel := EnergyLevel.high } ∧
    (buildSlots lateWake 0)[1]? =
      some { start := setHours 0 8 0, end_ := setHours 0 8 30, occupied := false,
             energyLevel := EnergyLevel.high } ∧
    (∀ s ∈ buildSlots lateWake 0, s.end_ = s.start + 30 * msPerMinute) ∧
    setHours 0 8 0 ≠ setHours 0 8 15 := by
  decide!

/-! ## Lemmas: what one iteration of the task loop does to the grid -/

theorem marked_free (slots marked : List Slot) (best n : Nat)
    (h : markOccupied slots best n = some marked) (j : Nat) (b : Slot)
    (hb : marked[j]? = some b) (hbo : b.occupied = false) :
    slots[j]? = some b ∧ ¬ (best ≤ j ∧ j < best + n) := by
  rw [markOccupied_getElem? n slots best marked h j] at hb
  unfold markedWindowAt at hb
  cases hs : slots[j]? with
  | none => rw [hs] at hb; exact absurd hb (by simp)
  | some s =>
    rw [hs] at hb
    simp only [Option.map_some', Option.some.injEq] at hb
    by_cases hw : best ≤ j ∧ j < best + n
    · rw [if_pos hw] at hb
      rw [← hb] at hbo
      exact absurd hbo (by simp)
    · rw [if_neg hw] at hb
      exact ⟨by rw [hb], hw⟩

/-- One iteration of the task loop in terms of the window it takes: either nothing
changes, or a window of `m` free slots from `best` is taken (`m` is the number of slots
of the task, plus one when a break follows), the new items are pushed, and every slot
still free afterwards was free before and lies outside the window. -/
theorem placeTask_step (slots slots' : List Slot) (items items' : List ScheduleItem)
    (task : Task) (h : placeTask (slots, items) task = some (slots', items')) :
    (slots' = slots ∧ items' = items ∧ findBestSlot task slots = some none) ∨
    ∃ best first m,
      0 < slotsNeededOf task ∧ slots[best]? = some first ∧
      windowFree slots best m = true ∧
      (∀ (j : Nat) (b : Slot), slots'[j]? = some b → b.occupied = false →
        slots[j]? = some b ∧ ¬ (best ≤ j ∧ j < best + m)) ∧
      ((m = slotsNeededOf task ∧ items' = items ++ [taskItem task first.start]) ∨
        (m = slotsNeededOf task + 1 ∧ isIntensiveOf task = true ∧ 60 ≤ task.duration ∧
          items' = items ++ [taskItem task first.start,
            breakItem (addMinutes first.start task.duration)])) := by
  rcases placeTask_detail slots slots' items items' task h with
    ⟨hfind, hs, hi⟩ | ⟨best, marked, first, hfind, hmarked, hfirst, hcase⟩
  · exact Or.inl ⟨hs, hi, hfind⟩
  · right
    obtain ⟨hbound, hbav⟩ := findBestSlot_some task slots best hfind
    have hn : 0 < slotsNeededOf task := by
      by_contra hz
      rw [findBestSlot_zero task slots (by omega)] at hfind
      exact absurd hfind (by simp)
    have hlt : best < slots.length := by omega
    obtain ⟨first0, hfirst0⟩ : ∃ first0, slots[best]? = some first0 :=
      ⟨slots[best], List.getElem?_eq_getElem hlt⟩
    have hstart := markOccupied_first_start slots marked best _ first first0 hmarked hfirst hfirst0
    have hafter := markOccupied_after_window slots marked best _ hmarked
    have hfree := (allAvailable_iff_windowFree slots best _ hbound).mp hbav
    rcases hcase with ⟨hs', hit, _⟩ | ⟨hi1, hi2, b, hb, hbo, hs', hit⟩
    · refine ⟨best, first0, slotsNeededOf task, hn, hfirst0, hfree, ?_,
        Or.inl ⟨rfl, by rw [hit, hstart]⟩⟩
      intro j b hb hbo
      rw [hs'] at hb
      exact marked_free slots marked best _ hmarked j b hb hbo
    · refine ⟨best, first0, slotsNeededOf task + 1, hn, hfirst0, ?_, ?_,
        Or.inr ⟨rfl, hi1, hi2, by rw [hit, hstart]⟩⟩
      · rw [hafter] at hb
        have hblen : best + slotsNeededOf task < slots.length := by
          by_contra hc
          rw [List.getElem?_eq_none (by omega)] at hb
          exact absurd hb (by simp)
        rw [windowFree_iff] at hfree ⊢
        refine ⟨by omega, ?_⟩
        intro j hj1 hj2
        by_cases hj : j < best + slotsNeededOf task
        · exact hfree.2 j hj1 hj
        · have : j = best + slotsNeededOf task := by omega
          subst this
          exact ⟨b, hb, hbo⟩
      · intro j c hc hco
        rw [hs'] at hc
        by_cases hj : best + slotsNeededOf task = j
        · subst hj
          have hblen : best + slotsNeededOf task < marked.length := by
            by_contra hlen
            rw [List.getElem?_eq_none (by omega)] at hb
            exact absurd hb (by simp)
          rw [List.getElem?_set_self hblen] at hc
          simp only [Option.some.injEq] at hc
          rw [← hc] at hco
          exact absurd hco (by simp)
        · rw [List.getElem?_set_ne hj] at hc
          obtain ⟨h1, h2⟩ := marked_free slots marked best _ hmarked j c hc hco
          exact ⟨h1, by omega⟩

theorem placeTask_length (slots slots' : List Slot) (items items' : List ScheduleItem)
    (task : Task) (h : placeTask (slots, items) task = some (slots', items')) :
    slots'.length = slots.length :=
  map_start_length (placeTask_spec slots slots' items items' task h).1

theorem scheduleTasks_length (ts : List Task) (slots slots' : List Slot)
    (items items' : List ScheduleItem)
    (h : scheduleTasks ts (slots, items) = some (slots', items')) :
    slots'.length = slots.length :=
  map_start_length (scheduleTasks_spec ts slots slots' items items' h).1

/-- Occupancy only grows along the task loop: a slot free at the end was free, and the
same, at the start. -/
theorem scheduleTasks_free :
    ∀ (ts : List Task) (slots slots' : List Slot) (items items' : List ScheduleItem),
      scheduleTasks ts (slots, items) = some (slots', items') →
      ∀ (j : Nat) (b : Slot), slots'[j]? = some b → b.occupied = false →
        slots[j]? = some b := by
  intro ts
  induction ts with
  | nil =>
    intro slots slots' items items' h j b hb _
    simp only [scheduleTasks, Option.some.injEq, Prod.mk.injEq] at h
    rw [h.1]
    exact hb
  | cons t rest ih =>
    intro slots slots' items items' h j b hb hbo
    unfold scheduleTasks at h
    split at h
    · exact absurd h (by simp)
    · rename_i state hplace
      obtain ⟨s1, i1⟩ := state
      have h1 := ih s1 slots' i1 items' h j b hb hbo
      rcases placeTask_step slots s1 items i1 t hplace with
        ⟨hs, _, _⟩ | ⟨best, first, m, _, _, _, hfree, _⟩
      · rw [← hs]; exact h1
      · exact (hfree j b h1 hbo).1

theorem windowFree_of_free (slots slots' : List Slot) (hlen : slots'.length = slots.length)
    (hfree : ∀ (j : Nat) (b : Slot), slots'[j]? = some b → b.occupied = false →
      slots[j]? = some b)
    (k n m : Nat) (hm : m ≤ n) (h : windowFree slots' k n = true) :
    windowFree slots k m = true := by
  rw [windowFree_iff] at h ⊢
  refine ⟨by omega, ?_⟩
  intro j hj1 hj2
  obtain ⟨b, hb, hbo⟩ := h.2 j hj1 (by omega)
  exact ⟨b, hfree j b hb hbo, hbo⟩

theorem scheduleTasks_items_subset :
    ∀ (ts : List Task) (slots slots' : List Slot) (items items' : List ScheduleItem),
      scheduleTasks ts (slots, items) = some (slots', items') →
      ∀ x ∈ items, x ∈ items' := by
  intro ts
  induction ts with
  | nil =>
    intro slots slots' items items' h x hx
    simp only [scheduleTasks, Option.some.injEq, Prod.mk.injEq] at h
    rw [← h.2]
    exact hx
  | cons t rest ih =>
    intro slots slots' items items' h x hx
    unfold scheduleTasks at h
    split at h
    · exact absurd h (by simp)
    · rename_i state hplace
      obtain ⟨s1, i1⟩ := state
      apply ih s1 slots' i1 items' h x
      rcases placeTask_step slots s1 items i1 t hplace with
        ⟨_, hi, _⟩ | ⟨best, first, m, _, _, _, _, ⟨_, hi⟩ | ⟨_, _, _, hi⟩⟩
      · rw [hi]; exact hx
      · rw [hi]; exact List.mem_append_left _ hx
      · rw [hi]; exact List.mem_append_left _ hx

theorem scheduleTasks_append :
    ∀ (xs ys : List Task) (state result : List Slot × List ScheduleItem),
      scheduleTasks (xs ++ ys) state = some result →
      ∃ mid, scheduleTasks xs state = some mid ∧ scheduleTasks ys mid = some result := by
  intro xs
  induction xs with
  | nil =>
    intro ys state result h
    exact ⟨state, rfl, h⟩
  | cons t rest ih =>
    intro ys state result h
    rw [List.cons_append] at h
    unfold scheduleTasks at h
    split at h
    · exact absurd h (by simp)
    · rename_i state1 hplace
      obtain ⟨mid, h1, h2⟩ := ih ys state1 result h
      refine ⟨mid, ?_, h2⟩
      unfold scheduleTasks
      rw [hplace]
      exact h1

/-- The TASK item of a task in the final items was pushed by an iteration that found a
free window for the task. -/
theorem scheduleTasks_trace :
    ∀ (ts : List Task) (slots slots' : List Slot) (items items' : List ScheduleItem),
      scheduleTasks ts (slots, items) = some (slots', items') →
      ∀ (it : ScheduleItem) (B : Task), it ∈ items' → it ∉ items → it.task = some B →
      ∃ pre post mid k, ts = pre ++ B :: post ∧
        scheduleTasks pre (slots, items) = some mid ∧
        windowFree mid.1 k (slotsNeededOf B) = true := by
  intro ts
  induction ts with
  | nil =>
    intro slots slots' items items' h it B hit hnot _
    simp only [scheduleTasks, Option.some.injEq, Prod.mk.injEq] at h
    rw [← h.2] at hit
    exact absurd hit hnot
  | cons t rest ih =>
    intro slots slots' items items' h it B hit hnot htask
    unfold scheduleTasks at h
    split at h
    · exact absurd h (by simp)
    · rename_i state hplace
      obtain ⟨s1, i1⟩ := state
      by_cases hin : it ∈ i1
      · rcases placeTask_step slots s1 items i1 t hplace with
          ⟨_, hi, _⟩ | ⟨best, first, m, hn, _, hwin, _, ⟨hm, hi⟩ | ⟨hm, _, _, hi⟩⟩
        · rw [hi] at hin
          exact absurd hin hnot
        · rw [hi] at hin
          rcases List.mem_append.mp hin with hin | hin
          · exact absurd hin hnot
          · simp only [List.mem_singleton] at hin
            rw [hin] at htask
            simp only [taskItem, Option.some.injEq] at htask
            subst htask
            subst hm
            exact ⟨[], rest, (slots, items), best, rfl, rfl, hwin⟩
        · rw [hi] at hin
          rcases List.mem_append.mp hin with hin | hin
          · exact absurd hin hnot
          · simp only [List.mem_cons, List.mem_singleton, List.not_mem_nil, or_false] at hin
            rcases hin with hin | hin
            · rw [hin] at htask
              simp only [taskItem, Option.some.injEq] at htask
              subst htask
              refine ⟨[], rest, (slots, items), best, rfl, rfl, ?_⟩
              exact windowFree_of_free slots slots rfl (fun _ _ hb _ => hb) best m _
                (by omega) hwin
            · rw [hin] at htask
              simp [breakItem] at htask
      · obtain ⟨pre, post, mid, k, hsplit, hrun, hwin⟩ :=
          ih s1 slots' i1 items' h it B hit hin htask
        refine ⟨t :: pre, post, mid, k, by rw [hsplit]; rfl, ?_, hwin⟩
        unfold scheduleTasks
        rw [hplace]
        exact hrun

/-! ## Claim about priority and dropped tasks -/

/-- C28: let `A` be an input task whose priority weight is strictly greater than that of
a task `B` and which needs no more slots than `B` (`ceil(duration / 30)`). If the returned
list holds a TASK item of `B`, it holds a TASK item of `A` as well. (All durations are
positive whenever the function returns.) -/
theorem optimizeSchedule_priority_respected (tasks : List Task) (profile : Profile)
    (date : Int) (out : List ScheduleItem) (A B : Task)
    (h : optimizeSchedule tasks profile date = some out) (hA : A ∈ tasks)
    (hw : priorityOrder B.priority < priorityOrder A.priority)
    (hn : slotsNeededOf A ≤ slotsNeededOf B)
    (hBout : ∃ it ∈ out, it.type = "TASK" ∧ it.task = some B) :
    ∃ it ∈ out, it.type = "TASK" ∧ it.task = some A := by
  obtain ⟨slots, items, hrun, hout⟩ := optimizeSchedule_some tasks profile date out h
  obtain ⟨it, hit, _, htask⟩ := hBout
  have hApos : 0 < A.duration :=
    scheduleTasks_some_pos _ _ _ hrun A ((mem_jsSort _ _ _).mpr hA)
  have hitems : it ∈ items := by
    rw [hout] at hit
    rcases mem_addBuffers _ _ hit with hmem | ⟨a, _, b, _, _, _, hbuf⟩
    · exact (mem_jsSort _ _ _).mp hmem
    · rw [hbuf] at htask
      simp [bufferItem] at htask
  have hnot : it ∉ [lunchItem date] := by
    intro hmem
    rw [List.mem_singleton] at hmem
    rw [hmem] at htask
    simp [lunchItem] at htask
  obtain ⟨pre, post, mid, k, hsplit, hpre, hwin⟩ :=
    scheduleTasks_trace _ _ _ _ _ hrun it B hitems hnot htask
  have hsorted := jsSort_pairwise taskCompare taskCompare_total taskCompare_trans tasks
  rw [hsplit] at hsorted
  have hApre : A ∈ pre := by
    have hmem : A ∈ pre ++ B :: post := by
      rw [← hsplit]
      exact (mem_jsSort _ _ _).mpr hA
    rcases List.mem_append.mp hmem with hmem | hmem
    · exact hmem
    · exfalso
      rcases List.mem_cons.mp hmem with hAB | hmem
      · rw [hAB] at hw
        exact lt_irrefl _ hw
      · have hBA := (List.pairwise_cons.mp (List.pairwise_append.mp hsorted).2.1).1 A hmem
        rw [taskCompare_le_iff] at hBA
        rcases hBA with hlt | ⟨heq, _⟩ <;> omega
  obtain ⟨p1, p2, hp⟩ := List.append_of_mem hApre
  rw [hp] at hpre
  obtain ⟨midA, _, hrunA⟩ := scheduleTasks_append p1 (A :: p2) _ _ hpre
  obtain ⟨sA, iA⟩ := midA
  obtain ⟨s1, i1⟩ := mid
  have hwinA : windowFree sA k (slotsNeededOf A) = true :=
    windowFree_of_free sA s1 (scheduleTasks_length _ _ _ _ _ hrunA)
      (scheduleTasks_free _ _ _ _ _ hrunA) k _ _ hn hwin
  obtain ⟨best, hbest⟩ := findBestSlot_finds A sA k (slotsNeededOf_pos A hApos) hwinA
  have hArun := hrunA
  unfold scheduleTasks at hArun
  split at hArun
  · exact absurd hArun (by simp)
  · rename_i state hplace
    obtain ⟨s2, i2⟩ := state
    have hAitem : ∃ s, taskItem A s ∈ i2 := by
      rcases placeTask_step sA s2 iA i2 A hplace with
        ⟨_, _, hnone⟩ | ⟨_, first, m, _, _, _, _, ⟨_, hi⟩ | ⟨_, _, _, hi⟩⟩
      · rw [hbest] at hnone
        exact absurd hnone (by simp)
      · exact ⟨first.start, by rw [hi]; simp⟩
      · exact ⟨first.start, by rw [hi]; simp⟩
    obtain ⟨s, hs⟩ := hAitem
    have hs1 : taskItem A s ∈ i1 := scheduleTasks_items_subset _ _ _ _ _ hArun _ hs
    rw [hsplit] at hrun
    obtain ⟨mid', hpre', hrest⟩ := scheduleTasks_append pre (B :: post) _ _ hrun
    rw [hp, hpre, Option.some.injEq] at hpre'
    rw [← hpre'] at hrest
    have hfinal : taskItem A s ∈ items := scheduleTasks_items_subset _ _ _ _ _ hrest _ hs1
    refine ⟨taskItem A s, ?_, rfl, rfl⟩
    rw [hout]
    exact mem_addBuffers_of_mem _ _ ((mem_jsSort _ _ _).mpr hfinal)

theorem optimizeSchedule_priority_respected_witness :
    optimizeSchedule [reading, callA] shortDay 0 =
      some [taskItem callA (setHours 0 7 0), taskItem reading (setHours 0 7 30),
        lunchItem 0] ∧
    callA ∈ [reading, callA] ∧
    priorityOrder reading.priority < priorityOrder callA.priority ∧
    slotsNeededOf callA ≤ slotsNeededOf reading ∧
    (∃ it ∈ [taskItem callA (setHours 0 7 0), taskItem reading (setHours 0 7 30),
        lunchItem 0], it.type = "TASK" ∧ it.task = some reading) ∧
    ∃ it ∈ [taskItem callA (setHours 0 7 0), taskItem reading (setHours 0 7 30),
        lunchItem 0], it.type = "TASK" ∧ it.task = some callA :=
  have hrun : optimizeSchedule [reading, callA] shortDay 0 =
      some [taskItem callA (setHours 0 7 0), taskItem reading (setHours 0 7 30),
        lunchItem 0] := by decide!
  have hB : ∃ it ∈ [taskItem callA (setHours 0 7 0), taskItem reading (setHours 0 7 30),
      lunchItem 0], it.type = "TASK" ∧ it.task = some reading :=
    ⟨taskItem reading (setHours 0 7 30), by simp, rfl, rfl⟩
  ⟨hrun, by simp, by decide, by decide, hB,
    optimizeSchedule_priority_respected [reading, callA] shortDay 0 _ callA reading hrun
      (by simp) (by decide) (by decide) hB⟩

/-! ## Lemmas: the task loop keeps items apart -/

theorem gridAligned_of_map_start (G : Int) (slots slots' : List Slot)
    (h : slots'.map Slot.start = slots.map Slot.start) (hg : GridAligned G slots) :
    GridAligned G slots' := by
  intro j s hs
  have h1 := congrArg (fun l => l[j]?) h
  simp only [List.getElem?_map, hs, Option.map_some'] at h1
  cases hs0 : slots[j]? with
  | none => rw [hs0] at h1; exact absurd h1 (by simp)
  | some s0 =>
    rw [hs0] at h1
    simp only [Option.map_some', Option.some.injEq] at h1
    rw [h1]
    exact hg j s0 hs0

/-- An item clear of every slot of a free window ends by the start of the window or
starts after its end. -/
theorem window_clear (G : Int) (slots : List Slot) (items : List ScheduleItem)
    (hg : GridAligned G slots) (hclear : FreeSlotsClear slots items) (best : Nat)
    (it : ScheduleItem) (hit : it ∈ items) (hlt : it.startTime < it.endTime) :
    ∀ (m : Nat), 0 < m → windowFree slots best m = true →
      it.endTime ≤ G + 30 * (best : Int) * msPerMinute ∨
        G + 30 * ((best + m : Nat) : Int) * msPerMinute ≤ it.startTime := by
  intro m
  induction m with
  | zero => intro h; exact absurd h (lt_irrefl _)
  | succ m ih =>
    intro _ hwin
    have hw := (windowFree_iff slots best (m + 1)).mp hwin
    obtain ⟨b, hb, hbo⟩ := hw.2 (best + m) (by omega) (by omega)
    have hstart := hg (best + m) b hb
    have hslot := hclear (best + m) b hb hbo it hit
    rw [hstart] at hslot
    by_cases hm : m = 0
    · subst hm
      simp only [msPerMinute, Nat.add_zero, Nat.cast_add, Nat.cast_one] at *
      omega
    · have hsub : windowFree slots best m = true := by
        rw [windowFree_iff]
        exact ⟨by omega, fun j hj1 hj2 => hw.2 j hj1 (by omega)⟩
      have := ih (by omega) hsub
      simp only [msPerMinute, Nat.cast_add, Nat.cast_one] at *
      omega

theorem placeTask_inv (G : Int) (slots slots' : List Slot) (items items' : List ScheduleItem)
    (task : Task) (hg : GridAligned G slots) (hinv : ScheduleInv slots items)
    (h : placeTask (slots, items) task = some (slots', items')) :
    ScheduleInv slots' items' := by
  obtain ⟨hlt, hpair, hclear⟩ := hinv
  rcases placeTask_step slots slots' items items' task h with
    ⟨hs, hi, _⟩ | ⟨best, first, m, hn, hfirst, hwin, hfree, hcase⟩
  · rw [hs, hi]
    exact ⟨hlt, hpair, hclear⟩
  · have hfs := hg best first hfirst
    have hdur : 30 * (slotsNeededOf task - 1) < task.duration ∧
        task.duration ≤ 30 * slotsNeededOf task := by
      unfold slotsNeededOf at hn ⊢
      omega
    have hmpos : 0 < m := by
      rcases hcase with ⟨hm, _⟩ | ⟨hm, _⟩ <;> omega
    -- every new item lies inside the window
    have hnew : ∃ extra, items' = items ++ extra ∧ extra.Pairwise disjointItems ∧
        ∀ x ∈ extra, x.startTime < x.endTime ∧
          G + 30 * (best : Int) * msPerMinute ≤ x.startTime ∧
          x.endTime ≤ G + 30 * ((best + m : Nat) : Int) * msPerMinute := by
      rcases hcase with ⟨hm, hi⟩ | ⟨hm, _, _, hi⟩
      · refine ⟨_, hi, List.pairwise_singleton _ _, ?_⟩
        intro x hx
        rw [List.mem_singleton] at hx
        subst hx
        simp only [taskItem, addMinutes, msPerMinute, hfs, hm, Nat.cast_add] at *
        omega
      · refine ⟨_, hi, ?_, ?_⟩
        · rw [List.pairwise_pair]
          left
          simp only [taskItem, breakItem]
          exact le_refl _
        · intro x hx
          simp only [List.mem_cons, List.mem_singleton, List.not_mem_nil, or_false] at hx
          rcases hx with hx | hx
          · subst hx
            simp only [taskItem, addMinutes, msPerMinute, hfs, hm, Nat.cast_add,
              Nat.cast_one] at *
            omega
          · subst hx
            simp only [breakItem, addMinutes, msPerMinute, hfs, hm, Nat.cast_add,
              Nat.cast_one] at *
            omega
    obtain ⟨extra, hi, hepair, hein⟩ := hnew
    rw [hi]
    refine ⟨?_, ?_, ?_⟩
    · intro it hit
      rcases List.mem_append.mp hit with hit | hit
      · exact hlt it hit
      · exact (hein it hit).1
    · rw [List.pairwise_append]
      refine ⟨hpair, hepair, ?_⟩
      intro a ha x hx
      obtain ⟨_, hx1, hx2⟩ := hein x hx
      have := window_clear G slots items hg hclear best a ha (hlt a ha) m hmpos hwin
      unfold disjointItems
      omega
    · intro j b hb hbo it hit
      obtain ⟨hb0, hout⟩ := hfree j b hb hbo
      rcases List.mem_append.mp hit with hit | hit
      · exact hclear j b hb0 hbo it hit
      · obtain ⟨_, hx1, hx2⟩ := hein it hit
        have hbs := hg j b hb0
        rw [hbs]
        simp only [msPerMinute, Nat.cast_add] at *
        omega

theorem scheduleTasks_inv (G : Int) :
    ∀ (ts : List Task) (slots slots' : List Slot) (items items' : List ScheduleItem),
      GridAligned G slots → ScheduleInv slots items →
      scheduleTasks ts (slots, items) = some (slots', items') →
      ScheduleInv slots' items' := by
  intro ts
  induction ts with
  | nil =>
    intro slots slots' items items' _ hinv h
    simp only [scheduleTasks, Option.some.injEq, Prod.mk.injEq] at h
    rw [← h.1, ← h.2]
    exact hinv
  | cons t rest ih =>
    intro slots slots' items items' hg hinv h
    unfold scheduleTasks at h
    split at h
    · exact absurd h (by simp)
    · rename_i state hplace
      obtain ⟨s1, i1⟩ := state
      exact ih s1 slots' i1 items'
        (gridAligned_of_map_start G slots s1 (placeTask_spec _ _ _ _ _ hplace).1 hg)
        (placeTask_inv G slots s1 items i1 t hg hinv hplace) h

/-! ## Lemmas: the initial grid and the provenance of items -/

theorem slotLoop_end (date : Int) (peakTime : String) (bedHour bedMin : Nat) :
    ∀ (fuel currentHour currentMin : Nat),
      ∀ s ∈ slotLoop date peakTime bedHour bedMin fuel currentHour currentMin,
        s.end_ = s.start + 30 * msPerMinute := by
  intro fuel
  induction fuel with
  | zero => intro h m s hs; simp [slotLoop] at hs
  | succ fuel ih =>
    intro h m s hs
    unfold slotLoop at hs
    split at hs
    · rcases List.mem_cons.mp hs with rfl | hs
      · simp [addMinutes]
      · split at hs
        · exact ih _ _ s hs
        · exact ih _ _ s hs
    · simp at hs

theorem buildSlots_gridAligned (profile : Profile) (date : Int)
    (hwake : (wakeOf profile).minute = 0 ∨ (wakeOf profile).minute = 30) :
    GridAligned (setHours date (wakeOf profile).hour (wakeOf profile).minute)
      (markLunch date (buildSlots profile date)) := by
  intro j s hs
  have h1 : ((buildSlots profile date).map Slot.start)[j]? = some s.start := by
    rw [← markLunch_map_start date, List.getElem?_map, hs]
    rfl
  exact (slotLoop_aligned_start date _ _ _ _ _ _ hwake j s.start h1).1

theorem initial_inv (profile : Profile) (date : Int)
    (hwake : (wakeOf profile).minute = 0 ∨ (wakeOf profile).minute = 30) :
    ScheduleInv (markLunch date (buildSlots profile date)) [lunchItem date] := by
  refine ⟨?_, List.pairwise_singleton _ _, ?_⟩
  · intro it hit
    rw [List.mem_singleton] at hit
    rw [hit]
    exact lunchItem_start_lt_end date
  · intro j b hb hbo it hit
    rw [List.mem_singleton] at hit
    subst hit
    have hstart := buildSlots_gridAligned profile date hwake j b hb
    unfold markLunch at hb
    rw [List.getElem?_map] at hb
    cases hs : (buildSlots profile date)[j]? with
    | none => rw [hs] at hb; exact absurd hb (by simp)
    | some s =>
      rw [hs] at hb
      simp only [Option.map_some', Option.some.injEq] at hb
      have hend := slotLoop_end date _ _ _ _ _ _ s (List.getElem?_mem hs)
      by_cases hc : s.start ≥ setHours date 12 0 ∧ s.end_ ≤ setHours date 13 0
      · rw [if_pos hc] at hb
        rw [← hb] at hbo
        exact absurd hbo (by simp)
      · rw [if_neg hc] at hb
        subst hb
        rw [hend] at hc
        rw [hstart] at hc ⊢
        simp only [lunchItem, setHours, msPerMinute] at *
        generalize startOfDay date = sod at *
        generalize (wakeOf profile).hour = wh at *
        generalize (wakeOf profile).minute = wm at *
        rcases hwake with hw | hw <;> subst hw <;> omega

/-- Provenance of the items pushed by the task loop on an aligned grid: a TASK item
starts at the start of a slot that heads a window inside the grid; a BREAK item starts
at the end of such a TASK item and has the slot after the window inside the grid. -/
theorem scheduleTasks_footprint (G : Int) :
    ∀ (ts : List Task) (slots slots' : List Slot) (items items' : List ScheduleItem),
      GridAligned G slots →
      scheduleTasks ts (slots, items) = some (slots', items') →
      ∀ it ∈ items', it ∈ items ∨ ∃ t ∈ ts, ∃ best : Nat, 0 < slotsNeededOf t ∧
        ((it = taskItem t (G + 30 * (best : Int) * msPerMinute) ∧
            best + slotsNeededOf t ≤ slots.length) ∨
          (it = breakItem (addMinutes (G + 30 * (best : Int) * msPerMinute) t.duration) ∧
            best + slotsNeededOf t + 1 ≤ slots.length)) := by
  intro ts
  induction ts with
  | nil =>
    intro slots slots' items items' _ h it hit
    simp only [scheduleTasks, Option.some.injEq, Prod.mk.injEq] at h
    rw [← h.2] at hit
    exact Or.inl hit
  | cons t rest ih =>
    intro slots slots' items items' hg h it hit
    unfold scheduleTasks at h
    split at h
    · exact absurd h (by simp)
    · rename_i state hplace
      obtain ⟨s1, i1⟩ := state
      have hg1 := gridAligned_of_map_start G slots s1 (placeTask_spec _ _ _ _ _ hplace).1 hg
      have hlen := placeTask_length _ _ _ _ _ hplace
      rcases ih s1 slots' i1 items' hg1 h it hit with hin | ⟨u, hu, best, hn, hcase⟩
      · rcases placeTask_step slots s1 items i1 t hplace with
          ⟨_, hi, _⟩ | ⟨best, first, m, hn, hfirst, hwin, _, hcase⟩
        · rw [hi] at hin
          exact Or.inl hin
        · have hfs := hg best first hfirst
          have hb := ((windowFree_iff slots best m).mp hwin).1
          rcases hcase with ⟨hm, hi⟩ | ⟨hm, _, _, hi⟩
          · rw [hi] at hin
            rcases List.mem_append.mp hin with hin | hin
            · exact Or.inl hin
            · rw [List.mem_singleton] at hin
              refine Or.inr ⟨t, List.mem_cons_self _ _, best, hn, Or.inl ⟨?_, by omega⟩⟩
              rw [hin, hfs]
          · rw [hi] at hin
            rcases List.mem_append.mp hin with hin | hin
            · exact Or.inl hin
            · simp only [List.mem_cons, List.mem_singleton, List.not_mem_nil, or_false] at hin
              rcases hin with hin | hin
              · refine Or.inr ⟨t, List.mem_cons_self _ _, best, hn, Or.inl ⟨?_, by omega⟩⟩
                rw [hin, hfs]
              · refine Or.inr ⟨t, List.mem_cons_self _ _, best, hn, Or.inr ⟨?_, by omega⟩⟩
                rw [hin, hfs]
      · rw [hlen] at hcase
        exact Or.inr ⟨u, List.mem_cons_of_mem _ hu, best, hn, hcase⟩

/-! ## Lemmas: buffers keep the items apart -/

theorem addBuffers_end_le_start : ∀ (l : List ScheduleItem),
    (∀ x ∈ l, x.startTime ≤ x.endTime) →
    l.Pairwise (fun a b => a.endTime ≤ b.startTime) →
    (addBuffers l).Pairwise (fun a b => a.endTime ≤ b.startTime)
  | [], _, _ => by simp [addBuffers]
  | [a], _, _ => by simp [addBuffers]
  | a :: b :: rest, hle, hs => by
    have hle' : ∀ x ∈ b :: rest, x.startTime ≤ x.endTime :=
      fun x hx => hle x (List.mem_cons_of_mem _ hx)
    have hs' := (List.pairwise_cons.mp hs).2
    have hhead := (List.pairwise_cons.mp hs).1
    have ih := addBuffers_end_le_start (b :: rest) hle' hs'
    have hb : ∀ z ∈ addBuffers (b :: rest), b.startTime ≤ z.startTime := by
      intro z hz
      obtain ⟨c, hc, hcz⟩ := addBuffers_start_ge (b :: rest) hle' z hz
      rcases List.mem_cons.mp hc with rfl | hc
      · exact hcz
      · have h1 := (List.pairwise_cons.mp hs').1 c hc
        have h2 := hle' b (List.mem_cons_self _ _)
        omega
    have ha : ∀ z ∈ addBuffers (b :: rest), a.endTime ≤ z.startTime := by
      intro z hz
      have h1 := hhead b (List.mem_cons_self _ _)
      have h2 := hb z hz
      omega
    unfold addBuffers
    simp only
    split
    · refine List.pairwise_cons.mpr ⟨?_, List.pairwise_cons.mpr ⟨?_, ih⟩⟩
      · intro z hz
        rcases List.mem_cons.mp hz with rfl | hz
        · exact le_refl _
        · exact ha z hz
      · intro z hz
        exact hb z hz
    · exact List.pairwise_cons.mpr ⟨ha, ih⟩

/-- Every BUFFER of the output of the buffer loop sits between two items and spans the
gap between them. -/
theorem addBuffers_buffer_fills : ∀ (l : List ScheduleItem),
    (∀ x ∈ l, x.type ≠ "BUFFER") →
    ∀ x ∈ addBuffers l, x.type = "BUFFER" →
      ∃ pre a b post, addBuffers l = pre ++ a :: x :: b :: post ∧ x = bufferItem a b
  | [], _, x, hx, _ => by simp [addBuffers] at hx
  | [a], hl, x, hx, hbuf => by
    simp only [addBuffers, List.mem_singleton] at hx
    subst hx
    exact absurd hbuf (hl x (List.mem_singleton_self _))
  | a :: b :: rest, hl, x, hx, hbuf => by
    have ih := addBuffers_buffer_fills (b :: rest)
      (fun z hz => hl z (List.mem_cons_of_mem _ hz)) x
    obtain ⟨tl, htl⟩ := addBuffers_head b rest
    have hxa : x ≠ a := by
      rintro rfl
      exact hl x (List.mem_cons_self _ _) hbuf
    unfold addBuffers at hx ⊢
    simp only at hx ⊢
    split
    · rename_i hgap
      rw [if_pos hgap] at hx
      rcases List.mem_cons.mp hx with hx | hx
      · exact absurd hx hxa
      · rcases List.mem_cons.mp hx with hx | hx
        · refine ⟨[], a, b, tl, ?_, hx⟩
          rw [htl, hx]
          rfl
        · obtain ⟨pre, c, d, post, heq, hxe⟩ := ih hx hbuf
          exact ⟨a :: bufferItem a b :: pre, c, d, post, by rw [heq]; rfl, hxe⟩
    · rename_i hgap
      rw [if_neg hgap] at hx
      rcases List.mem_cons.mp hx with hx | hx
      · exact absurd hx hxa
      · obtain ⟨pre, c, d, post, heq, hxe⟩ := ih hx hbuf
        exact ⟨a :: pre, c, d, post, by rw [heq]; rfl, hxe⟩

/-! ## Claim about the absence of overlaps -/

/-- C27: when the minute of the wake time is 00 or 30 and every task has a positive
duration, `optimizeSchedule` returns a list in which every item ends no later than every
later item starts, so no two items overlap. The grid is made of the half-hour slots
`gridStart k` to `gridStart (k + 1)`; every TASK item starts at the start of a slot
`best` and ends inside the `slotsNeeded` slots from it; every BREAK starts at the end of
its TASK item, inside the last slot of the task, and ends inside the slot after it, which
is in the grid; no TASK or BREAK intersects the LUNCH interval (12:00-13:00); and every
BUFFER sits between two items, starting at the end of the one and ending at the start of
the other. -/
theorem optimizeSchedule_no_overlap (tasks : List Task) (profile : Profile) (date : Int)
    (hwake : (wakeOf profile).minute = 0 ∨ (wakeOf profile).minute = 30)
    (hpos : ∀ t ∈ tasks, 0 < t.duration) :
    ∃ out, optimizeSchedule tasks profile date = some out ∧
      out.Pairwise (fun a b => a.endTime ≤ b.startTime) ∧
      (∀ (k : Nat) (s : Slot), (buildSlots profile date)[k]? = some s →
        s.start = gridStart profile date k ∧ s.end_ = gridStart profile date (k + 1)) ∧
      (∀ it ∈ out, it.type = "TASK" → ∃ t ∈ tasks, ∃ best : Nat,
        best + slotsNeededOf t ≤ (buildSlots profile date).length ∧
        it = taskItem t (gridStart profile date best) ∧
        it.endTime ≤ gridStart profile date (best + slotsNeededOf t)) ∧
      (∀ it ∈ out, it.type = "BREAK" → ∃ t ∈ tasks, ∃ best : Nat,
        best + slotsNeededOf t + 1 ≤ (buildSlots profile date).length ∧
        it = breakItem (taskItem t (gridStart profile date best)).endTime ∧
        gridStart profile date (best + slotsNeededOf t - 1) < it.startTime ∧
        it.endTime ≤ gridStart profile date (best + slotsNeededOf t + 1)) ∧
      (∀ it ∈ out, it.type = "TASK" ∨ it.type = "BREAK" →
        it.endTime ≤ (lunchItem date).startTime ∨
          (lunchItem date).endTime ≤ it.startTime) ∧
      (∀ x ∈ out, x.type = "BUFFER" → ∃ pre a b post,
        out = pre ++ a :: x :: b :: post ∧
        x.startTime = a.endTime ∧ x.endTime = b.startTime) := by
  obtain ⟨out, hout⟩ := optimizeSchedule_isSome tasks profile date hpos
  obtain ⟨slots, items, hrun, heq⟩ := optimizeSchedule_some tasks profile date out hout
  have hg := buildSlots_gridAligned profile date hwake
  obtain ⟨hlt, hpair, _⟩ := scheduleTasks_inv _ _ _ _ _ _ hg (initial_inv profile date hwake) hrun
  have hfoot := scheduleTasks_footprint _ _ _ _ _ _ hg hrun
  rw [markLunch_length] at hfoot
  have hsym : Symmetric disjointItems := fun a b h => Or.symm h
  have hmem : ∀ x, x ∈ jsSort itemCompare items ↔ x ∈ items := mem_jsSort _ _
  have hspair : (jsSort itemCompare items).Pairwise disjointItems :=
    ((jsSort_perm itemCompare items).pairwise_iff (fun h => hsym h)).mpr hpair
  have hchain : (jsSort itemCompare items).Pairwise (fun a b => a.endTime ≤ b.startTime) := by
    refine List.Pairwise.imp_of_mem ?_ (hspair.and (jsSort_itemCompare_sorted items))
    intro a b _ hb hab
    have hblt := hlt b ((hmem b).mp hb)
    rcases hab.1 with h1 | h1
    · exact h1
    · have := hab.2
      omega
  have hnobuf : ∀ x ∈ jsSort itemCompare items, x.type ≠ "BUFFER" := by
    intro x hx
    exact scheduled_not_buffer date _ tasks x
      (scheduled_items tasks profile date slots items hrun x ((hmem x).mp hx))
  have hfinal : out.Pairwise (fun a b => a.endTime ≤ b.startTime) := by
    rw [heq]
    exact addBuffers_end_le_start _
      (fun x hx => le_of_lt (hlt x ((hmem x).mp hx))) hchain
  have hprov : ∀ it ∈ out, it.type ≠ "BUFFER" → it ≠ lunchItem date →
      ∃ t ∈ tasks, ∃ best : Nat, 0 < slotsNeededOf t ∧
        ((it = taskItem t (gridStart profile date best) ∧
            best + slotsNeededOf t ≤ (buildSlots profile date).length) ∨
          (it = breakItem (addMinutes (gridStart profile date best) t.duration) ∧
            best + slotsNeededOf t + 1 ≤ (buildSlots profile date).length)) := by
    intro it hit hnb hnl
    rw [heq] at hit
    rcases mem_addBuffers _ _ hit with hin | ⟨a, _, b, _, _, _, hbuf⟩
    · rcases hfoot it ((hmem it).mp hin) with hl | ⟨t, ht, best, hn, hcase⟩
      · rw [List.mem_singleton] at hl
        exact absurd hl hnl
      · exact ⟨t, (mem_jsSort _ _ _).mp ht, best, hn, hcase⟩
    · rw [hbuf] at hnb
      exact absurd rfl hnb
  refine ⟨out, hout, hfinal, ?_, ?_, ?_, ?_, ?_⟩
  · intro k s hs
    have hend := slotLoop_end date _ _ _ _ _ _ s (List.getElem?_mem hs)
    have hstart : s.start = gridStart profile date k := by
      have h1 : ((buildSlots profile date).map Slot.start)[k]? = some s.start := by
        rw [List.getElem?_map, hs]
        rfl
      exact (slotLoop_aligned_start date _ _ _ _ _ _ hwake k s.start h1).1
    refine ⟨hstart, ?_⟩
    rw [hend, hstart]
    simp only [gridStart, msPerMinute, Nat.cast_add, Nat.cast_one]
    omega
  · intro it hit htype
    obtain ⟨t, ht, best, hn, hcase⟩ := hprov it hit (by rw [htype]; simp)
      (by rintro rfl; simp [lunchItem] at htype)
    rcases hcase with ⟨hi, hb⟩ | ⟨hi, _⟩
    · refine ⟨t, ht, best, hb, hi, ?_⟩
      rw [hi]
      simp only [taskItem, gridStart, addMinutes, msPerMinute, Nat.cast_add]
      unfold slotsNeededOf
      omega
    · rw [hi] at htype
      simp [breakItem] at htype
  · intro it hit htype
    obtain ⟨t, ht, best, hn, hcase⟩ := hprov it hit (by rw [htype]; simp)
      (by rintro rfl; simp [lunchItem] at htype)
    rcases hcase with ⟨hi, _⟩ | ⟨hi, hb⟩
    · rw [hi] at htype
      simp [taskItem] at htype
    · refine ⟨t, ht, best, hb, hi, ?_, ?_⟩
      · rw [hi]
        have hsub : ((best + slotsNeededOf t - 1 : Nat) : Int) =
            (best : Int) + (slotsNeededOf t : Int) - 1 := by omega
        simp only [breakItem, gridStart, addMinutes, msPerMinute, hsub]
        unfold slotsNeededOf at hn ⊢
        omega
      · rw [hi]
        simp only [breakItem, gridStart, addMinutes, msPerMinute, Nat.cast_add, Nat.cast_one]
        unfold slotsNeededOf
        omega
  · intro it hit htype
    have hne : it ≠ lunchItem date := by
      rintro rfl
      rcases htype with h | h <;> simp [lunchItem] at h
    have hlunch : lunchItem date ∈ out := by
      rw [heq]
      exact mem_addBuffers_of_mem _ _ ((hmem _).mpr
        (scheduleTasks_items_subset _ _ _ _ _ hrun _ (List.mem_singleton_self _)))
    have hdis : out.Pairwise disjointItems := hfinal.imp fun h => Or.inl h
    exact hdis.forall hsym hit hlunch hne
  · intro x hx hbuf
    rw [heq] at hx ⊢
    obtain ⟨pre, a, b, post, hsplit, hxe⟩ := addBuffers_buffer_fills _ hnobuf x hx hbuf
    exact ⟨pre, a, b, post, hsplit, by rw [hxe]; rfl, by rw [hxe]; rfl⟩

theorem optimizeSchedule_no_overlap_witness :
    ((wakeOf lateMorning).minute = 0 ∨ (wakeOf lateMorning).minute = 30) ∧
    (∀ t ∈ [errand], 0 < t.duration) ∧
    ∃ out, optimizeSchedule [errand] lateMorning 0 = some out ∧
      out.Pairwise (fun a b => a.endTime ≤ b.startTime) ∧
      (∀ (k : Nat) (s : Slot), (buildSlots lateMorning 0)[k]? = some s →
        s.start = gridStart lateMorning 0 k ∧ s.end_ = gridStart lateMorning 0 (k + 1)) ∧
      (∀ it ∈ out, it.type = "TASK" → ∃ t ∈ [errand], ∃ best : Nat,
        best + slotsNeededOf t ≤ (buildSlots lateMorning 0).length ∧
        it = taskItem t (gridStart lateMorning 0 best) ∧
        it.endTime ≤ gridStart lateMorning 0 (best + slotsNeededOf t)) ∧
      (∀ it ∈ out, it.type = "BREAK" → ∃ t ∈ [errand], ∃ best : Nat,
        best + slotsNeededOf t + 1 ≤ (buildSlots lateMorning 0).length ∧
        it = breakItem (taskItem t (gridStart lateMorning 0 best)).endTime ∧
        gridStart lateMorning 0 (best + slotsNeededOf t - 1) < it.startTime ∧
        it.endTime ≤ gridStart lateMorning 0 (best + slotsNeededOf t + 1)) ∧
      (∀ it ∈ out, it.type = "TASK" ∨ it.type = "BREAK" →
        it.endTime ≤ (lunchItem 0).startTime ∨ (lunchItem 0).endTime ≤ it.startTime) ∧
      (∀ x ∈ out, x.type = "BUFFER" → ∃ pre a b post,
        out = pre ++ a :: x :: b :: post ∧
        x.startTime = a.endTime ∧ x.endTime = b.startTime) :=
  ⟨by decide, by decide, optimizeSchedule_no_overlap [errand] lateMorning 0 (by decide) (by decide)⟩

end Mpika
